import Mathlib

/-!
# QDbf table engine (`src/qdbftable.cpp`)

A shallow embedding of `QDbf::Internal::QDbfTablePrivate`: `open`, `close` and
`setCodepage`, the record cursor (`seek`, `first`, `last`, `next`, `previous`,
`record`), and the mutation operations (`addRecord`, `updateRecordInTable`,
`removeRecord`) together with the record encoder `recordData`.

* C++ `int` arithmetic is written with `toInt32` around every operation (and
  `toInt16` where a `qint16` member is assigned), so a result that leaves the
  range of its type is visible in the model. The theorems assume the ranges
  they need.
* The `mutable` members of the class make the `const` member functions state
  transformers: each function returns its result together with the new state.
* `QFile` is a byte list with a position, shared by reads and writes as in Qt;
  a `capacity` bounds what the device stores, which lets a write come up short.
* The Qt conversions that the engine calls (text codecs, number and date
  parsing and formatting) are the fields of `Platform`; the theorems hold for
  every platform.
* `qdbffield.h` and `qdbfrecord.h` are not among the sources; fields and
  records are modelled from the spec, by the operations the engine calls.
-/

namespace QDbf

/-! ## Machine integers -/

/-- The value a C++ `int` holds after an arithmetic result `x`
(two's complement, 32 bit). -/
def toInt32 (x : Int) : Int := (x + 2147483648) % 4294967296 - 2147483648

/-- The value a `qint16` holds after the result `x` is stored in it. -/
def toInt16 (x : Int) : Int := (x + 32768) % 65536 - 32768

/-- Range of `qint16`. -/
def IsInt16 (x : Int) : Prop := -32768 ≤ x ∧ x ≤ 32767

/-- Range of `int`. -/
def IsInt32 (x : Int) : Prop := -2147483648 ≤ x ∧ x ≤ 2147483647

instance (x : Int) : Decidable (IsInt16 x) :=
  inferInstanceAs (Decidable (-32768 ≤ x ∧ x ≤ 32767))

instance (x : Int) : Decidable (IsInt32 x) :=
  inferInstanceAs (Decidable (-2147483648 ≤ x ∧ x ≤ 2147483647))

/-! ## Constants of `namespace Internal` and the enumerations of the class -/

def DBC_LENGTH : Int := 263
def FIELD_DESCRIPTOR_LENGTH : Int := 32
def FIELD_NAME_LENGTH : Int := 11
def FIELD_LENGTH_OFFSET : Int := 16
def FIELD_PRECISION_OFFSET : Int := 17
def HEADER_LENGTH_OFFSET_1 : Int := 8
def HEADER_LENGTH_OFFSET_2 : Int := 9
def LANGUAGE_DRIVER_OFFSET : Int := 29
def RECORD_LENGTH_OFFSET_1 : Int := 10
def RECORD_LENGTH_OFFSET_2 : Int := 11
def RECORDS_COUNT_OFFSET_1 : Int := 4
def RECORDS_COUNT_OFFSET_2 : Int := 5
def RECORDS_COUNT_OFFSET_3 : Int := 6
def RECORDS_COUNT_OFFSET_4 : Int := 7
def TABLE_DESCRIPTOR_LENGTH : Int := 32
def TERMINATOR_LENGTH : Int := 1
def VERSION_NUMBER_OFFSET : Int := 0

/-- The value of `QDbfTablePrivate::BeforeFirstRow`. -/
def BeforeFirstRow : Int := -1

/-- The value of `QDbfTablePrivate::FirstRow`. -/
def FirstRow : Int := 0

/-- The values of `QDbfTablePrivate::QDbfTableType`. -/
inductive QDbfTableType
  | SimpleTable
  | TableWithDbc
  deriving DecidableEq, Repr

/-- The values of `QDbfTable::OpenMode` (declared in `qdbftable.h`). -/
inductive OpenMode
  | ReadOnly
  | ReadWrite
  deriving DecidableEq, Repr

/-- The values of `QDbfTable::DbfTableError` that the engine assigns (declared
in `qdbftable.h`). -/
inductive DbfTableError
  | NoError
  | OpenError
  | ReadError
  | WriteError
  | UnspecifiedError
  deriving DecidableEq, Repr

/-- The values of `QDbfTable::Codepage` that the engine uses (declared in
`qdbftable.h`). -/
inductive Codepage
  | CodepageNotSet
  | IBM866
  | Windows1251
  | UnspecifiedCodepage
  deriving DecidableEq, Repr

/-- What `m_textCodec` points to after `setTextCodec`. -/
inductive TextCodec
  | Windows1251
  | IBM866
  | Locale
  deriving DecidableEq, Repr

/-! ## The backing store: `QFile` -/

/-- A random-access file: its bytes, the position shared by reads and writes,
and how many bytes the device can hold (`capacity`, which makes short writes
expressible). -/
structure QFile where
  opened : Bool
  mode : OpenMode
  bytes : List Nat
  pos : Nat
  capacity : Nat
  deriving DecidableEq, Repr

namespace QFile

/-- Qt function `QFile::isOpen`. -/
def isOpen (f : QFile) : Bool := f.opened

/-- Qt function `QFile::isReadable`: both open modes of the engine include
reading. -/
def isReadable (f : QFile) : Bool := f.opened

/-- Qt function `QFile::isWritable`. -/
def isWritable (f : QFile) : Bool := f.opened && decide (f.mode = OpenMode.ReadWrite)

/-- Qt function `QFile::seek`: refused on a closed file and for a negative
position; a position past the end is accepted. -/
def seek (f : QFile) (p : Int) : Bool × QFile :=
  if f.opened && decide (0 ≤ p) then (true, { f with pos := p.toNat }) else (false, f)

/-- Qt function `QFile::read(maxSize)`: the bytes from the position on, at most
`maxSize` of them; the position moves past what was read. -/
def read (f : QFile) (maxSize : Int) : List Nat × QFile :=
  if !f.opened || decide (maxSize < 0) then ([], f)
  else
    let out := (f.bytes.drop f.pos).take maxSize.toNat
    (out, { f with pos := f.pos + out.length })

/-- The bytes of a file after `data` was stored at offset `p`; a gap between
the old end and `p` reads as zero bytes. -/
def splice (bytes : List Nat) (p : Nat) (data : List Nat) : List Nat :=
  (bytes ++ List.replicate (p - bytes.length) 0).take p ++ data ++ bytes.drop (p + data.length)

/-- Qt function `QFile::write(data)`: stores at the position as many bytes of
`data` as the device takes and returns their count, or `-1` when the file is not
writable or nothing could be stored; the position moves past what was written.
-/
def write (f : QFile) (data : List Nat) : Int × QFile :=
  if !f.isWritable then (-1, f)
  else
    let n := min data.length (f.capacity - f.pos)
    if n = 0 ∧ data ≠ [] then (-1, f)
    else (n, { f with bytes := splice f.bytes f.pos (data.take n), pos := f.pos + n })

/-- Qt function `QFile::open(mode)`; `granted` says whether the file system lets
the file be opened in that mode. The position of a newly opened file is 0. -/
def «open» (f : QFile) (m : OpenMode) (granted : Bool) : Bool × QFile :=
  if granted && !f.opened then (true, { f with opened := true, mode := m, pos := 0 })
  else (false, f)

/-- Qt function `QFile::close`. -/
def close (f : QFile) : QFile := { f with opened := false }

/-- Qt function `QFile::read(char *data, qint64 maxSize)`: the count of the
bytes read and the bytes; the count is `-1` for a closed file and for a negative
`maxSize`. -/
def readInto (f : QFile) (maxSize : Int) : Int × List Nat × QFile :=
  if !f.opened || decide (maxSize < 0) then (-1, [], f)
  else
    let out := (f.bytes.drop f.pos).take maxSize.toNat
    (out.length, out, { f with pos := f.pos + out.length })

end QFile

/-! ## Values, fields and records -/

/-- The values of `QVariant::Type` that the engine uses. -/
inductive QVariantType
  | Invalid
  | String
  | Date
  | Double
  | Bool
  deriving DecidableEq, Repr

/-- The values of `QDbfField::QDbfType` that `open` assigns and `recordData`
tests (the enumeration is declared in `qdbffield.h`). -/
inductive QDbfType
  | UnknownDataType
  | Character
  | Date
  | FloatingPoint
  | Logical
  | Number
  deriving DecidableEq, Repr

/-- A `QString`, as its sequence of code units. -/
abbrev QString := List Nat

/-- A `QDate`: year, month and day of a valid date, or the null date. -/
abbrev QDate := Option (Int × Int × Int)

/-- A `QVariant` holding one of the value kinds the engine produces. A `double`
is carried as its IEEE-754 bit pattern. -/
inductive QVariant
  | invalid
  | string (s : QString)
  | date (d : QDate)
  | double (bits : Nat)
  | bool (b : Bool)
  deriving DecidableEq, Repr

/-- Modelled from the spec: `qdbffield.h` is not among the sources. The part of
a `QDbfField` behind its `d` pointer: name, types, length, precision and
offset. -/
structure QDbfFieldPrivate where
  name : QString
  type : QVariantType
  dbfType : QDbfType
  length : Int
  precision : Int
  offset : Int
  deriving DecidableEq, Repr

/-- Modelled from the spec: `qdbffield.h` is not among the sources. A field is
its schema part `d` and its value. -/
structure QDbfField where
  d : QDbfFieldPrivate
  val : QVariant
  deriving DecidableEq, Repr

/-- Modelled from the spec: `qdbfrecord.h` is not among the sources. A record is
an ordered list of fields, a deletion flag and a record index. -/
structure QDbfRecord where
  fields : List QDbfField
  deleted : Bool
  index : Int
  deriving DecidableEq, Repr

/-- Modelled from the spec: the field a record hands out for a position it does
not have; it carries no schema. -/
def QDbfField.blank : QDbfField :=
  { d := { name := [], type := QVariantType.Invalid, dbfType := QDbfType.UnknownDataType,
           length := 0, precision := 0, offset := 0 },
    val := QVariant.invalid }

namespace QDbfRecord

/-- Modelled from the spec: `QDbfRecord::count`, the number of fields. -/
def count (r : QDbfRecord) : Nat := r.fields.length

/-- Modelled from the spec: `QDbfRecord::field(i)`. -/
def field (r : QDbfRecord) (i : Nat) : QDbfField := r.fields.getD i QDbfField.blank

/-- Modelled from the spec: `QDbfRecord::value(i)`. -/
def value (r : QDbfRecord) (i : Nat) : QVariant := (r.field i).val

/-- Modelled from the spec: `QDbfRecord::isDeleted`. -/
def isDeleted (r : QDbfRecord) : Bool := r.deleted

/-- Modelled from the spec: `QDbfRecord::recordIndex`. -/
def recordIndex (r : QDbfRecord) : Int := r.index

/-- Modelled from the spec: `QDbfRecord::setDeleted`. -/
def setDeleted (r : QDbfRecord) (b : Bool) : QDbfRecord := { r with deleted := b }

/-- Modelled from the spec: `QDbfRecord::setRecordIndex`. -/
def setRecordIndex (r : QDbfRecord) (i : Int) : QDbfRecord := { r with index := i }

/-- Modelled from the spec: `QDbfRecord::setValue(i, value)`, which changes the
value of field `i` and nothing else. -/
def setValue (r : QDbfRecord) (i : Nat) (v : QVariant) : QDbfRecord :=
  { r with fields := r.fields.modify (fun f => { f with val := v }) i }

/-- Modelled from the spec: a freshly constructed record, `QDbfRecord()`: no
fields, not deleted, no index. -/
def empty : QDbfRecord := { fields := [], deleted := false, index := -1 }

/-- Modelled from the spec: `QDbfRecord::append(field)`. -/
def append (r : QDbfRecord) (f : QDbfField) : QDbfRecord := { r with fields := r.fields ++ [f] }

/-- Modelled from the spec: `QDbfRecord::clearValues`, which leaves every field
without a value. -/
def clearValues (r : QDbfRecord) : QDbfRecord :=
  { r with fields := r.fields.map (fun f => { f with val := QVariant.invalid }) }

end QDbfRecord

/-! ## Qt services the engine calls -/

/-- The conversions of the Qt library that `record` and `recordData` call. They
are parameters of the model: text codecs, integer and floating-point parsing,
calendar validity, the `QVariant` conversions and the formatting of dates and
numbers. -/
structure Platform where
  toUnicode : TextCodec → List Nat → QString
  fromUnicode : TextCodec → QString → List Nat
  toInt : List Nat → Int
  toDouble : List Nat → Nat
  dateIsValid : Int → Int → Int → Bool
  variantToString : QVariant → QString
  variantToDate : QVariant → QDate
  variantToDouble : QVariant → Nat
  variantToBool : QVariant → Bool
  dateToString : QDate → QString
  formatDouble : Nat → Int → QString
  toLatin1 : QString → List Nat

/-- Qt function `QByteArray::mid(pos, len)`. -/
def mid (data : List Nat) (pos len : Int) : List Nat :=
  if pos ≥ data.length then []
  else
    let len1 := if len < 0 then (data.length : Int) - pos else len
    let len2 := if pos < 0 then len1 + pos else len1
    let pos2 := if pos < 0 then 0 else pos
    let len3 := if len2 + pos2 > data.length then (data.length : Int) - pos2 else len2
    (data.drop pos2.toNat).take len3.toNat

/-- Qt function `QByteArray::toUpper` on one byte (letters `a`..`z`). -/
def upperByte (b : Nat) : Nat := if 97 ≤ b ∧ b ≤ 122 then b - 32 else b

/-- Qt function `QString::left(n)`. -/
def left (s : QString) (n : Int) : QString :=
  if n ≥ s.length ∨ n < 0 then s else s.take n.toNat

/-- Qt function `QString::leftJustified(width, ' ', true)`: blanks are added on
the right up to `width`; a longer string is cut to its first `width` code units.
-/
def leftJustified (s : QString) (width : Int) : QString :=
  if width - s.length > 0 then s ++ List.replicate (width - s.length).toNat 32
  else left s width

/-- Qt function `QString::rightJustified(width, ' ', true)`: blanks are added on
the left up to `width`; a longer string is cut to its first `width` code units.
-/
def rightJustified (s : QString) (width : Int) : QString :=
  if width - s.length > 0 then List.replicate (width - s.length).toNat 32 ++ s
  else left s width

/-- Qt constructor `QDate(y, m, d)`: the null date when the three numbers are
not a date. -/
def mkDate (qt : Platform) (y m d : Int) : QDate :=
  if qt.dateIsValid y m d then some (y, m, d) else none

/-! ## The table engine -/

/-- The data members of `QDbfTablePrivate` (without the reference count and the
file name). -/
structure QDbfTablePrivate where
  m_error : DbfTableError
  m_file : QFile
  m_openMode : OpenMode
  m_textCodec : TextCodec
  m_type : QDbfTableType
  m_codepage : Codepage
  m_headerLength : Int
  m_recordLength : Int
  m_fieldsCount : Int
  m_recordsCount : Int
  m_currentIndex : Int
  m_bufered : Bool
  m_currentRecord : QDbfRecord
  m_record : QDbfRecord
  deriving DecidableEq, Repr

/-- Source function `QDbfTablePrivate::isOpen`. -/
def isOpen (t : QDbfTablePrivate) : Bool := t.m_file.isOpen

/-- The state that the constructor `QDbfTablePrivate(dbfFileName)` sets up, for
the file `file`. -/
def QDbfTablePrivate.init (file : QFile) : QDbfTablePrivate :=
  { m_error := DbfTableError.NoError,
    m_file := file,
    m_openMode := OpenMode.ReadOnly,
    m_textCodec := TextCodec.Locale,
    m_type := QDbfTableType.SimpleTable,
    m_codepage := Codepage.CodepageNotSet,
    m_headerLength := -1,
    m_recordLength := -1,
    m_fieldsCount := -1,
    m_recordsCount := -1,
    m_currentIndex := -1,
    m_bufered := false,
    m_currentRecord := QDbfRecord.empty,
    m_record := QDbfRecord.empty }

/-- Source function `QDbfTablePrivate::setTextCodec`. -/
def setTextCodec (t : QDbfTablePrivate) : QDbfTablePrivate :=
  match t.m_codepage with
  | Codepage.Windows1251 => { t with m_textCodec := TextCodec.Windows1251 }
  | Codepage.IBM866 => { t with m_textCodec := TextCodec.IBM866 }
  | _ => { t with m_textCodec := TextCodec.Locale }

/-- The `switch` of `open` over the version number: the table type, or nothing
for a version that is not listed. -/
def tableTypeOf (versionNumber : Nat) : Option QDbfTableType :=
  if versionNumber = 2 ∨ versionNumber = 3 ∨ versionNumber = 4 ∨ versionNumber = 5 ∨
      versionNumber = 7 then some QDbfTableType.SimpleTable
  else if versionNumber = 48 ∨ versionNumber = 49 then some QDbfTableType.TableWithDbc
  else none

/-- The `switch` of `open` over the language driver byte. -/
def codepageOf (codepage : Nat) : Codepage :=
  if codepage = 0 then Codepage.CodepageNotSet
  else if codepage = 38 ∨ codepage = 101 then Codepage.IBM866
  else if codepage = 201 then Codepage.Windows1251
  else Codepage.UnspecifiedCodepage

/-- The `switch` of `open` over the type character of a field descriptor. -/
def fieldTypeOf (fieldTypeChar : Nat) : QVariantType × QDbfType :=
  if fieldTypeChar = 67 then (QVariantType.String, QDbfType.Character)
  else if fieldTypeChar = 68 then (QVariantType.Date, QDbfType.Date)
  else if fieldTypeChar = 70 then (QVariantType.Double, QDbfType.FloatingPoint)
  else if fieldTypeChar = 76 then (QVariantType.Bool, QDbfType.Logical)
  else if fieldTypeChar = 78 then (QVariantType.Double, QDbfType.Number)
  else (QVariantType.Invalid, QDbfType.UnknownDataType)

/-- The body of the loop of `open` over the field descriptors: the field that
the descriptor starting at byte `i` yields, with the given offset. A byte read
past the end of the array is taken as 0. -/
def parseField (qt : Platform) (codec : TextCodec) (fieldDescriptorsData : List Nat) (i : Nat)
    (offset : Int) : QDbfField :=
  let chars := (List.range FIELD_NAME_LENGTH.toNat).map
    (fun j => fieldDescriptorsData.getD (i + j) 0 % 256)
  let fieldName : QString :=
    (chars.filter (fun c => decide (c ≠ 0))).foldl (fun acc c => acc ++ qt.toUnicode codec [c]) []
  let ty := fieldTypeOf (fieldDescriptorsData.getD (i + FIELD_NAME_LENGTH.toNat) 0 % 256)
  let fieldLength : Int := (fieldDescriptorsData.getD (i + FIELD_LENGTH_OFFSET.toNat) 0 % 256 : Nat)
  let fieldPrecision : Int :=
    (fieldDescriptorsData.getD (i + FIELD_PRECISION_OFFSET.toNat) 0 % 256 : Nat)
  { d := { name := fieldName, type := ty.1, dbfType := ty.2, length := fieldLength,
           precision := fieldPrecision, offset := offset },
    val := QVariant.invalid }

/-- The loop `for (int i = 0; i < fieldDescriptorsLength; i += FIELD_DESCRIPTOR_LENGTH)`
of `open`, from `i` on; `fuel` bounds the number of passes. -/
def parseFields (qt : Platform) (codec : TextCodec) (fieldDescriptorsData : List Nat)
    (fieldDescriptorsLength : Int) : Nat → Nat → Int → QDbfRecord → QDbfRecord
  | 0, _, _, r => r
  | fuel + 1, i, offset, r =>
      if (i : Int) < fieldDescriptorsLength then
        let field := parseField qt codec fieldDescriptorsData i offset
        parseFields qt codec fieldDescriptorsData fieldDescriptorsLength fuel
          (i + FIELD_DESCRIPTOR_LENGTH.toNat) (offset + field.d.length) (r.append field)
      else r

/-- Source function `QDbfTablePrivate::open(openMode)`; `granted` says whether
the file system lets the file be opened. -/
def «open» (qt : Platform) (t : QDbfTablePrivate) (openMode : OpenMode) (granted : Bool) :
    Bool × QDbfTablePrivate :=
  let t0 : QDbfTablePrivate :=
    { t with m_openMode := openMode, m_error := DbfTableError.NoError, m_headerLength := -1,
             m_recordLength := -1, m_fieldsCount := -1, m_recordsCount := -1,
             m_currentIndex := -1, m_bufered := false, m_record := QDbfRecord.empty,
             m_currentRecord := QDbfRecord.empty }
  let t1 : QDbfTablePrivate := if isOpen t0 then { t0 with m_file := t0.m_file.close } else t0
  let op := t1.m_file.open openMode granted
  if !op.1 then (false, { t1 with m_file := op.2, m_error := DbfTableError.OpenError })
  else
    let rd := op.2.read TABLE_DESCRIPTOR_LENGTH
    let headerData := rd.1
    let t2 : QDbfTablePrivate := { t1 with m_file := rd.2 }
    if (headerData.length : Int) ≠ TABLE_DESCRIPTOR_LENGTH then (false, t2)
    else
      let byteAt : Int → Nat := fun offset => headerData.getD offset.toNat 0 % 256
      let versionNumber := byteAt VERSION_NUMBER_OFFSET
      match tableTypeOf versionNumber with
      | none => (false, t2)
      | some type =>
        let count1 : Int := byteAt RECORDS_COUNT_OFFSET_1
        let count2 := toInt32 (count1 + toInt32 (byteAt RECORDS_COUNT_OFFSET_2 * 2 ^ 8))
        let count3 := toInt32 (count2 + toInt32 (byteAt RECORDS_COUNT_OFFSET_3 * 2 ^ 16))
        let count4 := toInt32 (count3 + toInt32 (byteAt RECORDS_COUNT_OFFSET_4 * 2 ^ 24))
        let headerLength := toInt16 (toInt16 (byteAt HEADER_LENGTH_OFFSET_1)
          + toInt16 (byteAt HEADER_LENGTH_OFFSET_2 * 2 ^ 8))
        let recordLength := toInt16 (toInt16 (byteAt RECORD_LENGTH_OFFSET_1)
          + toInt16 (byteAt RECORD_LENGTH_OFFSET_2 * 2 ^ 8))
        let length0 : Int := headerLength - TABLE_DESCRIPTOR_LENGTH - TERMINATOR_LENGTH
        let fieldDescriptorsLength : Int :=
          if type = QDbfTableType.TableWithDbc then length0 - DBC_LENGTH else length0
        let t3 : QDbfTablePrivate :=
          setTextCodec
            { t2 with m_type := type, m_recordsCount := count4, m_headerLength := headerLength,
                      m_recordLength := recordLength,
                      m_fieldsCount :=
                        toInt16 (Int.tdiv fieldDescriptorsLength FIELD_DESCRIPTOR_LENGTH),
                      m_codepage := codepageOf (byteAt LANGUAGE_DRIVER_OFFSET) }
        let rd2 := t3.m_file.readInto fieldDescriptorsLength
        let t4 : QDbfTablePrivate := { t3 with m_file := rd2.2.2 }
        if rd2.1 ≠ fieldDescriptorsLength then (false, t4)
        else
          let fields := parseFields qt t4.m_textCodec rd2.2.1 fieldDescriptorsLength
            fieldDescriptorsLength.toNat 0 1 t4.m_record
          (true, { t4 with m_record := fields })

/-- Source function `QDbfTablePrivate::close`. -/
def close (t : QDbfTablePrivate) : QDbfTablePrivate :=
  if isOpen t then { t with m_file := t.m_file.close } else t

/-- Source function `QDbfTablePrivate::setCodepage`. In the `switch`, the case
`CodepageNotSet` has no `break` and runs on into the case `IBM866`. -/
def setCodepage (t : QDbfTablePrivate) (codepage : Codepage) : Bool × QDbfTablePrivate :=
  if !isOpen t then (false, t)
  else if !t.m_file.isWritable then (false, { t with m_error := DbfTableError.WriteError })
  else
    let t1 : QDbfTablePrivate := { t with m_file := (t.m_file.seek LANGUAGE_DRIVER_OFFSET).2 }
    let byte : Option Nat :=
      match codepage with
      | Codepage.CodepageNotSet => some 101
      | Codepage.IBM866 => some 101
      | Codepage.Windows1251 => some 201
      | Codepage.UnspecifiedCodepage => none
    match byte with
    | none => (false, t1)
    | some b =>
      let wr := t1.m_file.write [b]
      if wr.1 ≠ 1 then (false, { t1 with m_file := wr.2, m_error := DbfTableError.WriteError })
      else
        (true, { setTextCodec { t1 with m_file := wr.2, m_codepage := codepage } with
                 m_error := DbfTableError.NoError })

/-- Source function `QDbfTablePrivate::codepage`. -/
def codepage (t : QDbfTablePrivate) : Codepage := t.m_codepage

/-- Source function `QDbfTablePrivate::size`. -/
def size (t : QDbfTablePrivate) : Int := t.m_recordsCount

/-- Source function `QDbfTablePrivate::at`. -/
def «at» (t : QDbfTablePrivate) : Int := t.m_currentIndex

/-- Source function `QDbfTablePrivate::seek`. -/
def seek (t : QDbfTablePrivate) (index : Int) : Bool × QDbfTablePrivate :=
  let previousIndex := t.m_currentIndex
  let t1 : QDbfTablePrivate :=
    if index < FirstRow then { t with m_currentIndex := BeforeFirstRow }
    else if index > toInt32 (size t - 1) then { t with m_currentIndex := toInt32 (size t - 1) }
    else { t with m_currentIndex := index }
  let t2 : QDbfTablePrivate :=
    if previousIndex ≠ t1.m_currentIndex then { t1 with m_bufered := false } else t1
  (true, t2)

/-- Source function `QDbfTablePrivate::first`. -/
def first (t : QDbfTablePrivate) : Bool × QDbfTablePrivate := seek t FirstRow

/-- Source function `QDbfTablePrivate::last`. -/
def last (t : QDbfTablePrivate) : Bool × QDbfTablePrivate := seek t (toInt32 (size t - 1))

/-- Source function `QDbfTablePrivate::previous`. -/
def previous (t : QDbfTablePrivate) : Bool × QDbfTablePrivate :=
  if «at» t ≤ FirstRow then (false, t)
  else if «at» t > toInt32 (size t - 1) then last t
  else seek t (toInt32 («at» t - 1))

/-- Source function `QDbfTablePrivate::next`. -/
def next (t : QDbfTablePrivate) : Bool × QDbfTablePrivate :=
  if «at» t < FirstRow then first t
  else if «at» t ≥ toInt32 (size t - 1) then (false, t)
  else seek t (toInt32 («at» t + 1))

/-- The value that the loop of `record()` computes for one field from the bytes
of the record: the slice `mid(offset, length)` converted according to the
`QVariant` type of the field. -/
def decodeValue (qt : Platform) (codec : TextCodec) (recordData : List Nat)
    (f : QDbfField) : QVariant :=
  let byteArray := mid recordData f.d.offset f.d.length
  match f.d.type with
  | QVariantType.String => QVariant.string (qt.toUnicode codec byteArray)
  | QVariantType.Date =>
      QVariant.date (mkDate qt (qt.toInt (mid byteArray 0 4)) (qt.toInt (mid byteArray 4 2))
        (qt.toInt (mid byteArray 6 2)))
  | QVariantType.Double => QVariant.double (qt.toDouble byteArray)
  | QVariantType.Bool =>
      let val := byteArray.map upperByte
      QVariant.bool (decide (val = [84] ∨ val = [89]))
  | QVariantType.Invalid => QVariant.invalid

/-- The loop `for (i = 0; i < m_currentRecord.count(); ++i)` of `record()`: field
`i` receives the value decoded from its slice. -/
def decodeValues (qt : Platform) (codec : TextCodec) (recordData : List Nat)
    (r : QDbfRecord) : QDbfRecord :=
  (List.range r.count).foldl
    (fun acc i => acc.setValue i (decodeValue qt codec recordData (acc.field i))) r

/-- Source function `QDbfTablePrivate::record`. -/
def record (qt : Platform) (t : QDbfTablePrivate) : QDbfRecord × QDbfTablePrivate :=
  if t.m_bufered then (t.m_currentRecord, t)
  else
    let t1 : QDbfTablePrivate := { t with m_currentRecord := t.m_record, m_bufered := true }
    if t1.m_currentIndex < FirstRow then (t1.m_currentRecord, t1)
    else if !isOpen t1 then (t1.m_currentRecord, t1)
    else if !t1.m_file.isReadable then
      (t1.m_currentRecord, { t1 with m_error := DbfTableError.ReadError })
    else
      let position := toInt32 (t1.m_headerLength + toInt32 (t1.m_recordLength * t1.m_currentIndex))
      let sk := t1.m_file.seek position
      if !sk.1 then
        (t1.m_currentRecord, { t1 with m_file := sk.2, m_error := DbfTableError.ReadError })
      else
        let t2 : QDbfTablePrivate :=
          { t1 with m_file := sk.2,
                    m_currentRecord := t1.m_currentRecord.setRecordIndex t1.m_currentIndex }
        let rd := t2.m_file.read t2.m_recordLength
        let recordData := rd.1
        let t3 : QDbfTablePrivate := { t2 with m_file := rd.2 }
        if recordData.length = 0 then
          (t3.m_currentRecord, { t3 with m_error := DbfTableError.UnspecifiedError })
        else
          let t4 : QDbfTablePrivate :=
            { t3 with m_currentRecord :=
                t3.m_currentRecord.setDeleted (decide (recordData.getD 0 0 = 42)) }
          let t5 : QDbfTablePrivate :=
            { t4 with m_currentRecord :=
                decodeValues qt t4.m_textCodec recordData t4.m_currentRecord }
          (t5.m_currentRecord, { t5 with m_error := DbfTableError.NoError })

/-- Source function `QDbfTablePrivate::value`. -/
def value (qt : Platform) (t : QDbfTablePrivate) (index : Nat) : QVariant × QDbfTablePrivate :=
  let rc := record qt t
  (rc.1.value index, rc.2)

/-- The bytes that the `switch` of `recordData` appends for one field. -/
def encodeField (qt : Platform) (codec : TextCodec) (f : QDbfField) : List Nat :=
  match f.d.dbfType with
  | QDbfType.Character =>
      qt.fromUnicode codec (leftJustified (qt.variantToString f.val) f.d.length)
  | QDbfType.Date =>
      qt.toLatin1 (leftJustified (qt.dateToString (qt.variantToDate f.val)) f.d.length)
  | QDbfType.FloatingPoint =>
      qt.toLatin1 (rightJustified (qt.formatDouble (qt.variantToDouble f.val) f.d.precision)
        f.d.length)
  | QDbfType.Number =>
      qt.toLatin1 (rightJustified (qt.formatDouble (qt.variantToDouble f.val) f.d.precision)
        f.d.length)
  | QDbfType.Logical => [if qt.variantToBool f.val then 84 else 70]
  | QDbfType.UnknownDataType => qt.toLatin1 (leftJustified [] f.d.length)

/-- The loop of `recordData` from position `i` on, over the table's own fields
that are still to come: it stops with `false` and the bytes gathered so far at
the first position where the schema part of the caller's field is not the
table's. The comparison `m_record.field(i).d != record.field(i).d` is modelled
from the spec as the comparison of the schema parts. -/
def encodeFrom (qt : Platform) (codec : TextCodec) (record : QDbfRecord) :
    List QDbfField → Nat → List Nat → List Nat × Bool
  | [], _, data => (data, true)
  | own :: rest, i, data =>
      if own.d ≠ (record.field i).d then (data, false)
      else encodeFrom qt codec record rest (i + 1) (data ++ encodeField qt codec (record.field i))

/-- Source function `QDbfTablePrivate::recordData`. -/
def recordData (qt : Platform) (t : QDbfTablePrivate) (record : QDbfRecord)
    (addEndOfFileMark : Bool) : List Nat × QDbfTablePrivate :=
  let data0 : List Nat := [if record.isDeleted then 42 else 32]
  let enc := encodeFrom qt t.m_textCodec record t.m_record.fields 0 data0
  if !enc.2 then (enc.1, { t with m_error := DbfTableError.UnspecifiedError })
  else if addEndOfFileMark then (enc.1 ++ [26], t)
  else (enc.1, t)

/-- The four bytes `recordsCountChars` of `addRecord`: byte `i` is
`recordsCount >> (8 * i)` cut to an `unsigned char`. -/
def recordsCountChars (recordsCount : Int) : List Nat :=
  (List.range 4).map (fun i => ((recordsCount / 2 ^ (8 * i)) % 256).toNat)

/-- Source function `QDbfTablePrivate::addRecord(const QDbfRecord &)`. -/
def addRecord (qt : Platform) (t : QDbfTablePrivate) (record : QDbfRecord) :
    Bool × QDbfTablePrivate :=
  if !isOpen t then (false, t)
  else if !t.m_file.isWritable then (false, { t with m_error := DbfTableError.WriteError })
  else
    let rdata := recordData qt t record true
    let data := rdata.1
    let t1 := rdata.2
    let position := toInt32 (t1.m_headerLength + toInt32 (t1.m_recordLength * t1.m_recordsCount))
    let sk := t1.m_file.seek position
    if !sk.1 then (false, { t1 with m_file := sk.2, m_error := DbfTableError.ReadError })
    else
      let wr := sk.2.write data
      if wr.1 ≠ t1.m_recordLength + 1 then
        (false, { t1 with m_file := wr.2, m_error := DbfTableError.WriteError })
      else
        let recordsCount := toInt32 (t1.m_recordsCount + 1)
        let sk2 := wr.2.seek 4
        if !sk2.1 then (false, { t1 with m_file := sk2.2, m_error := DbfTableError.ReadError })
        else
          let wr2 := sk2.2.write (recordsCountChars recordsCount)
          if wr2.1 ≠ 4 then
            (false, { t1 with m_file := wr2.2, m_error := DbfTableError.WriteError })
          else
            (true, { t1 with m_file := wr2.2,
                             m_recordsCount := toInt32 (t1.m_recordsCount + 1),
                             m_error := DbfTableError.NoError })

/-- Source function `QDbfTablePrivate::addRecord()`: appends the record under
the cursor with its values cleared and its deletion flag off. -/
def addRecord0 (qt : Platform) (t : QDbfTablePrivate) : Bool × QDbfTablePrivate :=
  let rc := record qt t
  let newRecord := (rc.1.clearValues).setDeleted false
  addRecord qt rc.2 newRecord

/-- Source function `QDbfTablePrivate::updateRecordInTable`. -/
def updateRecordInTable (qt : Platform) (t : QDbfTablePrivate) (record : QDbfRecord) :
    Bool × QDbfTablePrivate :=
  if !isOpen t then (false, t)
  else if !t.m_file.isWritable then (false, { t with m_error := DbfTableError.WriteError })
  else
    let rdata := recordData qt t record false
    let data := rdata.1
    let t1 := rdata.2
    let position := toInt32 (t1.m_headerLength + toInt32 (t1.m_recordLength * record.recordIndex))
    let sk := t1.m_file.seek position
    if !sk.1 then (false, { t1 with m_file := sk.2, m_error := DbfTableError.ReadError })
    else
      let wr := sk.2.write data
      if wr.1 ≠ t1.m_recordLength then
        (false, { t1 with m_file := wr.2, m_error := DbfTableError.WriteError })
      else (true, { t1 with m_file := wr.2, m_error := DbfTableError.NoError })

/-- Source function `QDbfTablePrivate::removeRecord`. -/
def removeRecord (t : QDbfTablePrivate) (index : Int) : Bool × QDbfTablePrivate :=
  if !isOpen t then (false, t)
  else if !t.m_file.isWritable then (false, { t with m_error := DbfTableError.WriteError })
  else if index < FirstRow ∨ index > toInt32 (size t - 1) then
    (false, { t with m_error := DbfTableError.UnspecifiedError })
  else
    let position := toInt32 (t.m_headerLength + toInt32 (t.m_recordLength * index))
    let sk := t.m_file.seek position
    if !sk.1 then (false, { t with m_file := sk.2, m_error := DbfTableError.ReadError })
    else
      let rd := sk.2.read t.m_recordLength
      if (rd.1.length : Int) ≠ t.m_recordLength then
        (false, { t with m_file := rd.2, m_error := DbfTableError.UnspecifiedError })
      else
        let wr := rd.2.write [42]
        if wr.1 ≠ 1 then (false, { t with m_file := wr.2, m_error := DbfTableError.WriteError })
        else (true, { t with m_file := wr.2, m_error := DbfTableError.NoError })

/-! ## Definitions used to state the properties -/

/-- The unsigned integer that a byte sequence denotes when read little-endian. -/
def littleEndian : List Nat → Nat
  | [] => 0
  | b :: rest => b + 256 * littleEndian rest

/-- The record that decoding the bytes of one record yields (spec, 4.3): the
template with the given index, the deletion flag read from byte 0 (`'*'` means
deleted) and every value converted from its slice. -/
def decodeRecord (qt : Platform) (codec : TextCodec) (template : QDbfRecord) (index : Int)
    (bytes : List Nat) : QDbfRecord :=
  { fields := template.fields.map
      (fun f => { f with val := decodeValue qt codec bytes f }),
    deleted := decide (bytes[0]? = some 42),
    index := index }

/-! ## A small table for evaluating the operations

One text field `NAME` of three bytes, two records `ABC` and `DEF`, the
end-of-file mark after them. -/

/-- White space as `QByteArray::toInt` skips it in front of a number. -/
def isSpaceByte (b : Nat) : Bool := decide (b = 32 ∨ (9 ≤ b ∧ b ≤ 13))

/-- The ASCII digits. -/
def isDigitByte (b : Nat) : Bool := decide (48 ≤ b ∧ b ≤ 57)

/-- Qt function `QByteArray::toInt()` on ASCII text: white space, an optional
sign and decimal digits up to the end; 0 for anything else and for a number that
is not an `int`. -/
def sampleToInt (bs : List Nat) : Int :=
  let body := bs.dropWhile isSpaceByte
  let negative := decide (body.head? = some 45)
  let digits := if body.head? = some 45 ∨ body.head? = some 43 then body.tail else body
  if digits ≠ [] ∧ digits.all isDigitByte = true then
    let v : Int := (digits.foldl (fun acc b => acc * 10 + (b - 48)) 0 : Nat)
    let w : Int := if negative then -v else v
    if IsInt32 w then w else 0
  else 0

/-- Qt function `QDate::isLeapYear` (Julian rule before 1582). -/
def sampleIsLeapYear (y : Int) : Bool :=
  if y < 1582 then decide ((if y < 1 then y + 1 else y) % 4 = 0)
  else decide ((y % 4 = 0 ∧ y % 100 ≠ 0) ∨ y % 400 = 0)

/-- Qt function `QDate::isValid(y, m, d)`. -/
def sampleDateIsValid (y m d : Int) : Bool :=
  let monthDays : Int :=
    if m = 2 then 28 else if m = 4 ∨ m = 6 ∨ m = 9 ∨ m = 11 then 30 else 31
  if y < -4713 ∨ (y = -4713 ∧ (m < 1 ∨ (m = 1 ∧ d < 2))) ∨ y = 0 then false
  else if y = 1582 ∧ m = 10 ∧ d > 4 ∧ d < 15 then false
  else decide (d > 0 ∧ m > 0 ∧ m ≤ 12) &&
    (decide (d ≤ monthDays) || (decide (d = 29 ∧ m = 2) && sampleIsLeapYear y))

/-- The last `width` decimal digits of `n`, as ASCII. -/
def sampleDigits : Nat → Nat → List Nat
  | 0, _ => []
  | width + 1, n => sampleDigits width (n / 10) ++ [48 + n % 10]

/-- Qt function `QDate::toString("yyyyMMdd")`: empty for the null date. -/
def sampleDateToString (d : QDate) : QString :=
  match d with
  | none => []
  | some (y, m, dd) =>
      (if y < 0 then [45] else []) ++ sampleDigits 4 y.natAbs ++ sampleDigits 2 m.toNat
        ++ sampleDigits 2 dd.toNat

/-- A platform for evaluating the operations on examples: the codecs hand every
byte on as the same code unit (what the three codecs do on ASCII text), integers
and dates are read and written as Qt does for ASCII digits. The examples have
no numeric fields; the floating-point conversions are constant here. -/
def samplePlatform : Platform where
  toUnicode := fun _ bs => bs
  fromUnicode := fun _ s => s
  toInt := sampleToInt
  toDouble := fun _ => 0
  dateIsValid := sampleDateIsValid
  variantToString := fun v => match v with
    | QVariant.string s => s
    | _ => []
  variantToDate := fun v => match v with
    | QVariant.date d => d
    | _ => none
  variantToDouble := fun v => match v with
    | QVariant.double x => x
    | _ => 0
  variantToBool := fun v => match v with
    | QVariant.bool b => b
    | _ => false
  dateToString := sampleDateToString
  formatDouble := fun _ _ => [48]
  toLatin1 := fun s => s

/-- The schema part of the field `NAME`: text, three bytes, at offset 1. -/
def nameField : QDbfFieldPrivate :=
  { name := [78, 65, 77, 69], type := QVariantType.String, dbfType := QDbfType.Character,
    length := 3, precision := 0, offset := 1 }

/-- The record template of the sample table. -/
def sampleSchema : QDbfRecord :=
  { fields := [{ d := nameField, val := QVariant.invalid }], deleted := false, index := -1 }

/-- The 65 header bytes of the sample file: version 3, two records, header
length 65, record length 4, code page 0, the descriptor of `NAME` and the
terminator. -/
def sampleHeader : List Nat :=
  [3, 24, 1, 1, 2, 0, 0, 0, 65, 0, 4, 0] ++ List.replicate 20 0 ++
  [78, 65, 77, 69, 0, 0, 0, 0, 0, 0, 0, 67, 0, 0, 0, 0, 3, 0] ++ List.replicate 14 0 ++ [13]

/-- The sample file: header, the records ` ABC` and ` DEF`, end-of-file mark. -/
def sampleBytes : List Nat := sampleHeader ++ [32, 65, 66, 67] ++ [32, 68, 69, 70] ++ [26]

/-- The sample file on disk, closed. -/
def sampleFile : QFile :=
  { opened := false, mode := OpenMode.ReadOnly, bytes := sampleBytes, pos := 0, capacity := 4096 }

/-- The engine as `open(ReadWrite)` leaves it on the sample file. -/
def sampleTable : QDbfTablePrivate :=
  { m_error := DbfTableError.NoError,
    m_file := { opened := true, mode := OpenMode.ReadWrite, bytes := sampleBytes, pos := 64,
                capacity := 4096 },
    m_openMode := OpenMode.ReadWrite,
    m_textCodec := TextCodec.Locale,
    m_type := QDbfTableType.SimpleTable,
    m_codepage := Codepage.CodepageNotSet,
    m_headerLength := 65,
    m_recordLength := 4,
    m_fieldsCount := 1,
    m_recordsCount := 2,
    m_currentIndex := -1,
    m_bufered := false,
    m_currentRecord := QDbfRecord.empty,
    m_record := sampleSchema }

/-- The file of a table with the field `NAME` and no record: the header with
record count 0, then the end-of-file mark. -/
def emptyFile : QFile :=
  { opened := false, mode := OpenMode.ReadOnly,
    bytes := [3, 24, 1, 1, 0, 0, 0, 0] ++ sampleHeader.drop 8 ++ [26], pos := 0,
    capacity := 4096 }

/-- The engine as `open(ReadWrite)` leaves it on `emptyFile`: no record, the
cursor before the first row. -/
def emptyTable : QDbfTablePrivate :=
  { sampleTable with
    m_file := { emptyFile with opened := true, mode := OpenMode.ReadWrite, pos := 64 },
    m_recordsCount := 0 }

/-- The table without records with the cursor parked on position 0, past the
last valid index. -/
def parkedTable : QDbfTablePrivate := { emptyTable with m_currentIndex := 0 }

/-- The engine on the sample file before any `open`, after `seek(0)`: with
`recordsCount` still `-1`, `seek` has put the cursor on `size() - 1`, which is
`-2`. -/
def unopenedTable : QDbfTablePrivate := (seek (QDbfTablePrivate.init sampleFile) 0).2

/-- The sample table after `seek(0)` and `record()`: the cursor is on record 0
and that record (`ABC`, not deleted) is buffered. -/
def bufferedTable : QDbfTablePrivate := (record samplePlatform (seek sampleTable 0).2).2

/-- A record with the schema of the sample table, `NAME = "XYZ"`, for record 0. -/
def xyzRecord : QDbfRecord :=
  { fields := [{ d := nameField, val := QVariant.string [88, 89, 90] }], deleted := false,
    index := 0 }

/-- A record with the schema of the sample table, `NAME = "GH"`, marked deleted. -/
def deletedRecord : QDbfRecord :=
  { fields := [{ d := nameField, val := QVariant.string [71, 72] }], deleted := true,
    index := -1 }

/-- A record for record 0 whose field `NAME` has length 5 where the table has 3;
it is marked deleted. -/
def mismatchRecord : QDbfRecord :=
  { fields := [{ d := { nameField with length := 5 }, val := QVariant.string [88, 89, 90] }],
    deleted := true, index := 0 }

/-- The sample file cut after two of the four bytes of record 0. -/
def truncatedFile : QFile := { sampleFile with bytes := sampleHeader ++ [32, 65] }

/-- The engine as `open(ReadWrite)` leaves it on `truncatedFile`. -/
def truncatedTable : QDbfTablePrivate :=
  { sampleTable with
    m_file := { truncatedFile with opened := true, mode := OpenMode.ReadWrite, pos := 64 } }

/-- The table `bufferedTable` after `updateRecordInTable` stored `XYZ` in
record 0. -/
def staleTable : QDbfTablePrivate :=
  (updateRecordInTable samplePlatform bufferedTable xyzRecord).2

/-- The engine as `open(ReadOnly)` leaves it on the sample file. -/
def readOnlyTable : QDbfTablePrivate :=
  { sampleTable with
    m_file := { sampleTable.m_file with mode := OpenMode.ReadOnly },
    m_openMode := OpenMode.ReadOnly }

/-- The record that `record()` hands out on the freshly opened sample table,
where the cursor is before the first row, with `NAME` set to `XYZ`: it has the
table's schema and carries no record index. -/
def indexlessRecord : QDbfRecord :=
  (record samplePlatform sampleTable).1.setValue 0 (QVariant.string [88, 89, 90])

/-- The sample file with the version byte 131 (a table with a memo file), which
the `switch` of `open` does not list. -/
def memoFile : QFile := { sampleFile with bytes := 131 :: sampleBytes.drop 1 }

/-- The outcome `res` of a mutation on the state `t` is a failure with last
error `WriteError` that left the store bytes, `recordsCount` and the cursor
position as they were. -/
def RefusedWrite (t : QDbfTablePrivate) (res : Bool × QDbfTablePrivate) : Prop :=
  res.1 = false ∧ res.2.m_error = DbfTableError.WriteError ∧
  res.2.m_file.bytes = t.m_file.bytes ∧ res.2.m_recordsCount = t.m_recordsCount ∧
  «at» res.2 = «at» t

/-- The byte at offset `k` of the file as an unsigned value, as `open` reads the
header bytes (`headerData.at(k) & 0xFF`). -/
def headerByte (f : QFile) (k : Nat) : Nat := f.bytes.getD k 0 % 256

/-- The value `fieldDescriptorsLength` that `open` computes from the header of
the file. -/
def descriptorsLength (f : QFile) : Int :=
  let headerLength := toInt16 (toInt16 (headerByte f 8) + toInt16 (headerByte f 9 * 2 ^ 8))
  let length0 : Int := headerLength - TABLE_DESCRIPTOR_LENGTH - TERMINATOR_LENGTH
  if tableTypeOf (headerByte f 0) = some QDbfTableType.TableWithDbc then length0 - DBC_LENGTH
  else length0

/-- The file `f` with the byte at offset `k` replaced by `v`. -/
def QFile.setByte (f : QFile) (k v : Nat) : QFile := { f with bytes := f.bytes.set k v }

/-- The sample file with the record count bytes `FF FF FF FF` and the record
length bytes `04 80`. -/
def signedHeaderFile : QFile :=
  { sampleFile with
    bytes := [3, 24, 1, 1, 255, 255, 255, 255, 65, 0, 4, 128] ++ sampleBytes.drop 12 }

/-- The operations of the interface that move the cursor, read the record under
it, or change the table. -/
inductive Op
  | seek (index : Int)
  | first
  | last
  | next
  | previous
  | dereference
  | append (record : QDbfRecord)
  | appendBlank
  | update (record : QDbfRecord)
  | removeAt (index : Int)

/-- The state of the engine after one operation. -/
def step (qt : Platform) (t : QDbfTablePrivate) : Op → QDbfTablePrivate
  | Op.seek index => (seek t index).2
  | Op.first => (first t).2
  | Op.last => (last t).2
  | Op.next => (next t).2
  | Op.previous => (previous t).2
  | Op.dereference => (record qt t).2
  | Op.append r => (addRecord qt t r).2
  | Op.appendBlank => (addRecord0 qt t).2
  | Op.update r => (updateRecordInTable qt t r).2
  | Op.removeAt index => (removeRecord t index).2

/-- The state of the engine after a sequence of operations. -/
def run (qt : Platform) (t : QDbfTablePrivate) (ops : List Op) : QDbfTablePrivate :=
  ops.foldl (step qt) t

/-- The state of the engine after `k` calls of `next()`. -/
def nextTimes (t : QDbfTablePrivate) : Nat → QDbfTablePrivate
  | 0 => t
  | k + 1 => (next (nextTimes t k)).2

/-- The cursor of `t` is inside `[-1, recordsCount-1]`, with `recordsCount >= 0`. -/
def CursorInRange (t : QDbfTablePrivate) : Prop :=
  0 ≤ t.m_recordsCount ∧ -1 ≤ t.m_currentIndex ∧ t.m_currentIndex ≤ t.m_recordsCount - 1

/-- A file whose header announces the header length 83: the 32 header bytes, the
descriptor of `NAME`, 18 bytes of a descriptor of a numeric field `AGE`, the
terminator, one record and the end-of-file mark. The descriptor region is 50
bytes long. -/
def oddHeaderFile : QFile :=
  { sampleFile with
    bytes := [3, 24, 1, 1, 1, 0, 0, 0, 83, 0, 4, 0] ++ List.replicate 20 0 ++
      (sampleHeader.drop 32).take 32 ++
      [65, 71, 69, 0, 0, 0, 0, 0, 0, 0, 0, 78, 0, 0, 0, 0, 3, 0] ++ [13] ++
      [32, 65, 66, 67] ++ [26] }

/-- A file that consists of 32 header bytes announcing the header length 32. -/
def bareHeaderFile : QFile :=
  { sampleFile with bytes := [3, 24, 1, 1, 0, 0, 0, 0, 32, 0, 1, 0] ++ List.replicate 20 0 }

/-- The 20 bytes of the text `JOHN DOE` padded with blanks. -/
def johnDoeName : List Nat := [74, 79, 72, 78, 32, 68, 79, 69] ++ List.replicate 12 32

/-- The 21 bytes of a record that is not deleted and holds `JOHN DOE` in a 20-byte
text field. -/
def johnDoeRecord : List Nat := 32 :: johnDoeName

/-- A file with version byte 3, one record, header length 65, record length 21
and the descriptor of a 20-byte text field `NAME`, followed by the record
`johnDoeRecord` and the end-of-file mark. -/
def johnDoeFile : QFile :=
  { opened := false, mode := OpenMode.ReadOnly,
    bytes := [3, 24, 1, 1, 1, 0, 0, 0, 65, 0, 21, 0] ++ List.replicate 20 0 ++
      [78, 65, 77, 69, 0, 0, 0, 0, 0, 0, 0, 67, 0, 0, 0, 0, 20, 0] ++ List.replicate 14 0 ++
      [13] ++ johnDoeRecord ++ [26],
    pos := 0, capacity := 4096 }

/-- A file with version byte 3, one record, header length 65, record length 3 and
the descriptor of a logical field `FLAG` that is declared 2 bytes long, followed
by the record ` T ` and the end-of-file mark. -/
def flagFile : QFile :=
  { opened := false, mode := OpenMode.ReadOnly,
    bytes := [3, 24, 1, 1, 1, 0, 0, 0, 65, 0, 3, 0] ++ List.replicate 20 0 ++
      [70, 76, 65, 71, 0, 0, 0, 0, 0, 0, 0, 76, 0, 0, 0, 0, 2, 0] ++ List.replicate 14 0 ++
      [13] ++ [32, 84, 32] ++ [26],
    pos := 0, capacity := 4096 }

/-- The engine after `open(ReadWrite)` on `flagFile`. -/
def flagTable : QDbfTablePrivate :=
  («open» samplePlatform (QDbfTablePrivate.init flagFile) OpenMode.ReadWrite true).2

/-- The record 0 of `flagTable` as `seek(0)` and `record()` hand it out. -/
def flagRecord : QDbfRecord := (record samplePlatform (seek flagTable 0).2).1

/-- A record with the schema of the sample table, `NAME = "GH"`, not deleted,
for the row 0. -/
def ghRecord : QDbfRecord :=
  { fields := [{ d := nameField, val := QVariant.string [71, 72] }], deleted := false,
    index := 0 }

/-! ## The sample table -/

/-- The sample table is what `open(ReadWrite)` makes of the sample file. -/
theorem open_sampleFile :
    «open» samplePlatform (QDbfTablePrivate.init sampleFile) OpenMode.ReadWrite true
      = (true, sampleTable) := by
  decide

/-- The table without records is what `open(ReadWrite)` makes of `emptyFile`. -/
theorem open_emptyFile :
    «open» samplePlatform (QDbfTablePrivate.init emptyFile) OpenMode.ReadWrite true
      = (true, emptyTable) := by
  decide

/-- The table on the cut file is what `open(ReadWrite)` makes of
`truncatedFile`. -/
theorem open_truncatedFile :
    «open» samplePlatform (QDbfTablePrivate.init truncatedFile) OpenMode.ReadWrite true
      = (true, truncatedTable) := by
  decide

/-! ## Machine arithmetic -/

theorem toInt32_of_isInt32 {x : Int} (h : IsInt32 x) : toInt32 x = x := by
  unfold IsInt32 at h
  unfold toInt32
  omega

theorem toInt16_of_isInt16 {x : Int} (h : IsInt16 x) : toInt16 x = x := by
  unfold IsInt16 at h
  unfold toInt16
  omega

theorem toInt32_pred {x : Int} (h : IsInt32 x) (h0 : -2147483648 < x) :
    toInt32 (x - 1) = x - 1 := by
  unfold IsInt32 at h
  unfold toInt32
  omega

theorem toInt32_succ {x : Int} (h : IsInt32 x) (h0 : x < 2147483647) :
    toInt32 (x + 1) = x + 1 := by
  unfold IsInt32 at h
  unfold toInt32
  omega

/-! ## The backing store -/

namespace QFile

theorem splice_left_length (bytes : List Nat) (p : Nat) :
    ((bytes ++ List.replicate (p - bytes.length) 0).take p).length = p := by
  simp only [List.length_take, List.length_append, List.length_replicate]
  omega

theorem splice_length (bytes : List Nat) (p : Nat) (data : List Nat) :
    (splice bytes p data).length = max bytes.length (p + data.length) := by
  unfold splice
  simp only [List.length_append, splice_left_length, List.length_drop]
  omega

/-- Below the offset of a write the bytes that the file had are unchanged. -/
theorem splice_getElem?_lt (bytes : List Nat) (p : Nat) (data : List Nat) (k : Nat)
    (hk : k < p) (hlen : k < bytes.length) :
    (splice bytes p data)[k]? = bytes[k]? := by
  unfold splice
  rw [List.append_assoc, List.getElem?_append_left (by rw [splice_left_length]; exact hk)]
  rw [List.getElem?_take_of_lt hk, List.getElem?_append_left hlen]

/-- At the offset of a write the file holds the written bytes. -/
theorem splice_getElem?_mid (bytes : List Nat) (p : Nat) (data : List Nat) (k : Nat)
    (hk : k < data.length) :
    (splice bytes p data)[p + k]? = data[k]? := by
  unfold splice
  rw [List.append_assoc, List.getElem?_append_right (by rw [splice_left_length]; omega)]
  rw [splice_left_length, List.getElem?_append_left (by omega)]
  congr 1
  omega

/-- Past the written bytes the file is unchanged. -/
theorem splice_getElem?_ge (bytes : List Nat) (p : Nat) (data : List Nat) (k : Nat)
    (hk : p + data.length ≤ k) :
    (splice bytes p data)[k]? = bytes[k]? := by
  unfold splice
  rw [List.append_assoc, List.getElem?_append_right (by rw [splice_left_length]; omega)]
  rw [splice_left_length, List.getElem?_append_right (by omega)]
  rw [List.getElem?_drop]
  congr 1
  omega

end QFile
namespace QFile

theorem seek_of_nonneg (f : QFile) (p : Int) (ho : f.opened = true) (hp : 0 ≤ p) :
    f.seek p = (true, { f with pos := p.toNat }) := by
  simp [seek, ho, hp]

theorem seek_fst_true {f : QFile} {p : Int} (h : (f.seek p).1 = true) :
    f.opened = true ∧ 0 ≤ p ∧ (f.seek p).2 = { f with pos := p.toNat } := by
  unfold seek at h ⊢
  split_ifs at h ⊢ with hc
  simp only [Bool.and_eq_true, decide_eq_true_eq] at hc
  exact ⟨hc.1, hc.2, rfl⟩

/-- A write that reports a positive count `n` stored the first `n` bytes of the
buffer at the position and moved the position past them. -/
theorem write_pos {f : QFile} {data : List Nat} {n : Int} (h : (f.write data).1 = n)
    (hn : 0 < n) :
    f.isWritable = true ∧ ∃ m : Nat, (m : Int) = n ∧ m ≤ data.length ∧
      (f.write data).2 = { f with bytes := splice f.bytes f.pos (data.take m), pos := f.pos + m } := by
  unfold write at h ⊢
  simp only at h ⊢
  split_ifs at h ⊢ with h1 h2
  · simp only at h; omega
  · simp only at h; omega
  · simp only at h
    refine ⟨by simpa using h1, min data.length (f.capacity - f.pos), h, Nat.min_le_left _ _, rfl⟩

end QFile

theorem recordData_snd (qt : Platform) (t : QDbfTablePrivate) (r : QDbfRecord) (b : Bool) :
    (recordData qt t r b).2 = t ∨
    (recordData qt t r b).2 = { t with m_error := DbfTableError.UnspecifiedError } := by
  unfold recordData
  simp only
  split_ifs <;> simp
theorem recordsCountChars_length (n : Int) : (recordsCountChars n).length = 4 := by
  simp [recordsCountChars]

/-- What a successful `addRecord` did: both writes took place, the first at the
end of the record area with `recordLength + 1` bytes of the encoded record, the
second at offset 4 with the four bytes of the new count. -/
theorem addRecord_true (qt : Platform) (t : QDbfTablePrivate) (r : QDbfRecord)
    (hrl : 0 ≤ t.m_recordLength) (h : (addRecord qt t r).1 = true) :
    t.m_file.isWritable = true ∧
    0 ≤ toInt32 (t.m_headerLength + toInt32 (t.m_recordLength * t.m_recordsCount)) ∧
    ∃ n : Nat, (n : Int) = t.m_recordLength + 1 ∧ n ≤ (recordData qt t r true).1.length ∧
      (addRecord qt t r).2 =
        { t with
          m_file :=
            { t.m_file with
              bytes := QFile.splice
                (QFile.splice t.m_file.bytes
                  (toInt32 (t.m_headerLength + toInt32 (t.m_recordLength * t.m_recordsCount))).toNat
                  ((recordData qt t r true).1.take n))
                4 (recordsCountChars (toInt32 (t.m_recordsCount + 1))),
              pos := 8 },
          m_recordsCount := toInt32 (t.m_recordsCount + 1),
          m_error := DbfTableError.NoError } := by
  unfold addRecord at h ⊢
  rcases recordData_snd qt t r true with e | e
  all_goals
    simp only [e] at h ⊢
    split_ifs at h ⊢ with h1 h2 h3 h4 h5 h6
    simp only [Bool.not_eq_true, Bool.not_eq_false', ne_eq, not_not] at h1 h2 h3 h4 h5 h6
    obtain ⟨-, hp, hs⟩ := QFile.seek_fst_true h3
    rw [hs] at h4 h5 h6 ⊢
    obtain ⟨-, n, hn, hnle, hw⟩ := QFile.write_pos h4 (by omega)
    rw [hw] at h5 h6 ⊢
    obtain ⟨-, -, hs2⟩ := QFile.seek_fst_true h5
    rw [hs2] at h6 ⊢
    obtain ⟨-, m, hm, -, hw2⟩ := QFile.write_pos h6 (by norm_num)
    have hm4 : m = 4 := by omega
    subst hm4
    rw [hw2]
    have htake : List.take 4 (recordsCountChars (toInt32 (t.m_recordsCount + 1)))
        = recordsCountChars (toInt32 (t.m_recordsCount + 1)) :=
      List.take_of_length_le (by rw [recordsCountChars_length])
    rw [htake]
    exact ⟨h2, hp, n, hn, hnle, by simp⟩
theorem QFile.splice_drop_take (bytes : List Nat) (p : Nat) (data : List Nat) :
    ((QFile.splice bytes p data).drop p).take data.length = data := by
  unfold QFile.splice
  rw [List.append_assoc]
  have hlen := QFile.splice_left_length bytes p
  rw [List.drop_append_of_le_length (by omega), List.drop_of_length_le (by omega)]
  simp

theorem recordsCountChars_value (n : Int) (h0 : 0 ≤ n) (h1 : n < 4294967296) :
    (∀ b ∈ recordsCountChars n, b < 256) ∧ (littleEndian (recordsCountChars n) : Int) = n := by
  have e : recordsCountChars n =
      [(n % 256).toNat, (n / 256 % 256).toNat, (n / 65536 % 256).toNat,
       (n / 16777216 % 256).toNat] := by
    simp [recordsCountChars, List.range, List.range.loop]
  rw [e]
  constructor
  · intro b hb
    simp only [List.mem_cons, List.mem_singleton, List.not_mem_nil, or_false] at hb
    omega
  · simp only [littleEndian]
    push_cast
    omega

/-- C4: on an open writable table whose count, lengths and end offset are
non-negative `int` values (`recordsCount + 1` and
`headerLength + recordLength * recordsCount` fit an `int`) and whose header is
at least the eight bytes that hold the count: when `addRecord` reports success
`size()` is the old size plus 1, the store holds at offset
`headerLength + recordLength * oldSize` the `recordLength + 1` bytes that the
write call took from the front of the encoded record (record and end-of-file
mark), header bytes 4..7 are the new size in little-endian, and every other
header byte that the store had is unchanged; when it reports failure `size()`
is unchanged. -/
theorem addRecord_effect (qt : Platform) (t : QDbfTablePrivate) (r : QDbfRecord)
    (hrc : 0 ≤ t.m_recordsCount) (hmax : t.m_recordsCount < 2147483647)
    (hrl : 0 ≤ t.m_recordLength) (hhl : 8 ≤ t.m_headerLength)
    (hpos : t.m_headerLength + t.m_recordLength * t.m_recordsCount ≤ 2147483647) :
    ((addRecord qt t r).1 = true →
      size (addRecord qt t r).2 = size t + 1 ∧
      (∀ k : Nat, (k : Int) < t.m_recordLength + 1 →
        (addRecord qt t r).2.m_file.bytes[
            (t.m_headerLength + t.m_recordLength * size t).toNat + k]?
          = (recordData qt t r true).1[k]? ∧ k < (recordData qt t r true).1.length) ∧
      (((addRecord qt t r).2.m_file.bytes.drop 4).take 4).length = 4 ∧
      (∀ b ∈ ((addRecord qt t r).2.m_file.bytes.drop 4).take 4, b < 256) ∧
      (littleEndian (((addRecord qt t r).2.m_file.bytes.drop 4).take 4) : Int) = size t + 1 ∧
      (∀ k : Nat, (k : Int) < t.m_headerLength → (k < 4 ∨ 8 ≤ k) → k < t.m_file.bytes.length →
        (addRecord qt t r).2.m_file.bytes[k]? = t.m_file.bytes[k]?)) ∧
    ((addRecord qt t r).1 = false → size (addRecord qt t r).2 = size t) := by
  constructor
  · intro h
    obtain ⟨-, hp, n, hn, hnle, hst⟩ := addRecord_true qt t r hrl h
    have hprod : 0 ≤ t.m_recordLength * t.m_recordsCount := mul_nonneg hrl hrc
    have e1 : toInt32 (t.m_recordLength * t.m_recordsCount) = t.m_recordLength * t.m_recordsCount :=
      toInt32_of_isInt32 ⟨by omega, by omega⟩
    have e2 : toInt32 (t.m_headerLength + t.m_recordLength * t.m_recordsCount)
        = t.m_headerLength + t.m_recordLength * t.m_recordsCount :=
      toInt32_of_isInt32 ⟨by omega, by omega⟩
    have e3 : toInt32 (t.m_recordsCount + 1) = t.m_recordsCount + 1 :=
      toInt32_of_isInt32 ⟨by omega, by omega⟩
    rw [e1, e2, e3] at hst
    rw [hst]
    simp only [size]
    obtain ⟨hb, hv⟩ := recordsCountChars_value (t.m_recordsCount + 1) (by omega) (by omega)
    have hslice := QFile.splice_drop_take
      (QFile.splice t.m_file.bytes (t.m_headerLength + t.m_recordLength * t.m_recordsCount).toNat
        (List.take n (recordData qt t r true).1)) 4 (recordsCountChars (t.m_recordsCount + 1))
    rw [recordsCountChars_length] at hslice
    rw [hslice]
    refine ⟨trivial, ?_, recordsCountChars_length _, hb, hv, ?_⟩
    · intro k hk
      have hkn : k < n := by omega
      refine ⟨?_, by omega⟩
      rw [QFile.splice_getElem?_ge _ _ _ _ (by rw [recordsCountChars_length]; omega)]
      rw [QFile.splice_getElem?_mid _ _ _ _ (by rw [List.length_take]; omega)]
      rw [List.getElem?_take_of_lt hkn]
    · intro k hk hk48 hlen
      have hklt : k < (t.m_headerLength + t.m_recordLength * t.m_recordsCount).toNat := by omega
      rcases hk48 with h4 | h8
      · rw [QFile.splice_getElem?_lt _ _ _ _ h4 (by rw [QFile.splice_length]; omega)]
        exact QFile.splice_getElem?_lt _ _ _ _ hklt hlen
      · rw [QFile.splice_getElem?_ge _ _ _ _ (by rw [recordsCountChars_length]; omega)]
        exact QFile.splice_getElem?_lt _ _ _ _ hklt hlen
  · intro h
    unfold addRecord at h ⊢
    rcases recordData_snd qt t r true with e | e
    all_goals
      simp only [e] at h ⊢
      split_ifs at h ⊢ <;> rfl
theorem modify_append_cons {α : Type} (A : List α) (x : α) (B : List α) (f : α → α) (k : Nat)
    (hk : A.length = k) : (A ++ x :: B).modify f k = A ++ f x :: B := by
  subst hk
  induction A with
  | nil => simp
  | cons a A ih => simp [ih]

theorem getD_append_cons {α : Type} (A : List α) (x : α) (B : List α) (d : α) (k : Nat)
    (hk : A.length = k) : (A ++ x :: B).getD k d = x := by
  subst hk
  induction A with
  | nil => simp
  | cons a A ih => simpa using ih

/-- The loop of `record()` over the first `n` fields. -/
theorem decodeLoop_spec (qt : Platform) (codec : TextCodec) (data : List Nat) (r : QDbfRecord)
    (n : Nat) (hn : n ≤ r.fields.length) :
    (List.range n).foldl
        (fun acc i => acc.setValue i (decodeValue qt codec data (acc.field i))) r
      = { r with fields :=
            (r.fields.take n).map (fun f => { f with val := decodeValue qt codec data f })
              ++ r.fields.drop n } := by
  induction n with
  | zero => simp
  | succ k ih =>
    rw [List.range_succ, List.foldl_append, ih (by omega)]
    simp only [List.foldl_cons, List.foldl_nil, QDbfRecord.setValue, QDbfRecord.field]
    congr 1
    have hk : k < r.fields.length := by omega
    have hlen : ((r.fields.take k).map
        (fun f => { f with val := decodeValue qt codec data f })).length = k := by
      simp; omega
    rw [List.drop_eq_getElem_cons hk]
    rw [getD_append_cons _ _ _ _ k hlen, modify_append_cons _ _ _ _ k hlen]
    rw [List.take_succ, List.getElem?_eq_getElem hk]
    simp only [Option.toList, List.map_append, List.map_cons, List.map_nil, List.append_assoc,
      List.cons_append, List.nil_append]

/-- The loop of `record()` gives every field the value decoded from its slice and
leaves the deletion flag and the index as they are. -/
theorem decodeValues_eq (qt : Platform) (codec : TextCodec) (data : List Nat) (r : QDbfRecord) :
    decodeValues qt codec data r
      = { r with fields :=
            r.fields.map (fun f => { f with val := decodeValue qt codec data f }) } := by
  unfold decodeValues QDbfRecord.count
  rw [decodeLoop_spec qt codec data r r.fields.length (le_refl _)]
  simp

theorem QFile.read_of_open (f : QFile) (n : Int) (ho : f.opened = true) (hn : 0 ≤ n) :
    f.read n = ((f.bytes.drop f.pos).take n.toNat,
      { f with pos := f.pos + ((f.bytes.drop f.pos).take n.toNat).length }) := by
  unfold QFile.read
  have : ¬ (n < 0) := by omega
  simp [ho, this]

/-- Reading by `record()` without a buffered record, at a position `>= 0` of an
open file whose record offset is not negative and yields at least one byte: the
result is the record decoded from the bytes read, and the error state is
`NoError`. -/
theorem record_read (qt : Platform) (t : QDbfTablePrivate) (hb : t.m_bufered = false)
    (ho : t.m_file.opened = true) (hi : 0 ≤ t.m_currentIndex) (hrl : 0 ≤ t.m_recordLength)
    (hp : 0 ≤ toInt32 (t.m_headerLength + toInt32 (t.m_recordLength * t.m_currentIndex)))
    (hne : (t.m_file.bytes.drop
        (toInt32 (t.m_headerLength + toInt32 (t.m_recordLength * t.m_currentIndex))).toNat).take
          t.m_recordLength.toNat ≠ []) :
    (record qt t).1 = decodeRecord qt t.m_textCodec t.m_record t.m_currentIndex
      ((t.m_file.bytes.drop
        (toInt32 (t.m_headerLength + toInt32 (t.m_recordLength * t.m_currentIndex))).toNat).take
          t.m_recordLength.toNat) ∧
    (record qt t).2.m_error = DbfTableError.NoError ∧
    (record qt t).2.m_currentIndex = t.m_currentIndex := by
  have hlt : ¬ (t.m_currentIndex < 0) := by omega
  have hlen : ¬ ((t.m_file.bytes.drop
        (toInt32 (t.m_headerLength + toInt32 (t.m_recordLength * t.m_currentIndex))).toNat).take
          t.m_recordLength.toNat).length = 0 := by
    intro h0
    exact hne (List.length_eq_zero.mp h0)
  unfold record
  simp only [hb, Bool.false_eq_true, if_false, FirstRow, hlt, isOpen, QFile.isOpen,
    QFile.isReadable, ho, Bool.not_true, QFile.seek_of_nonneg _ _ ho hp]
  rw [QFile.read_of_open _ _ rfl hrl]
  simp only [hlen, if_false, decodeValues_eq]
  refine ⟨?_, trivial, trivial⟩
  unfold decodeRecord QDbfRecord.setDeleted QDbfRecord.setRecordIndex
  simp only
  congr 1
  generalize (t.m_file.bytes.drop
        (toInt32 (t.m_headerLength + toInt32 (t.m_recordLength * t.m_currentIndex))).toNat).take
          t.m_recordLength.toNat = l at hne
  cases l with
  | nil => exact absurd rfl hne
  | cons a l => simp

/-! ## Cursor movement -/

/-- C1: on a table with `recordsCount >= 0`, `seek(i)` reports success and
leaves `at()` at `-1` when `i < 0`, at `recordsCount-1` when `i > recordsCount-1`
and at `i` otherwise; so `seek(-100)` ends at `-1` and `seek(recordsCount+100)`
at `recordsCount-1`. -/
theorem seek_clamps (t : QDbfTablePrivate) (i : Int) (hty : IsInt32 t.m_recordsCount)
    (h : 0 ≤ t.m_recordsCount) :
    (seek t i).1 = true ∧
    «at» (seek t i).2
      = (if i < 0 then -1 else if i > t.m_recordsCount - 1 then t.m_recordsCount - 1 else i) ∧
    «at» (seek t (-100)).2 = -1 ∧
    «at» (seek t (t.m_recordsCount + 100)).2 = t.m_recordsCount - 1 := by
  have hw : toInt32 (t.m_recordsCount - 1) = t.m_recordsCount - 1 :=
    toInt32_pred hty (by omega)
  refine ⟨rfl, ?_, ?_, ?_⟩
  · simp only [seek, «at», size, FirstRow, BeforeFirstRow, hw]
    split_ifs <;> simp_all
  · simp only [seek, «at», size, FirstRow, BeforeFirstRow, hw]
    split_ifs <;> simp_all
  · simp only [seek, «at», size, FirstRow, BeforeFirstRow, hw]
    split_ifs <;> simp_all <;> omega

/-- C1 at the sample table: `seek(7)` on two records ends at position 1. -/
theorem seek_clamps_witness :
    IsInt32 sampleTable.m_recordsCount ∧ 0 ≤ sampleTable.m_recordsCount ∧
    «at» (seek sampleTable 7).2 = 1 :=
  ⟨by decide, by decide, (seek_clamps sampleTable 7 (by decide) (by decide)).2.1⟩

/-- C6, counterexample: on the table without records, freshly opened, the cursor
is at `-1`, which is `>= recordsCount-1`, and `next()` reports success and
leaves the cursor at `-1`. -/
theorem next_on_empty_table :
    «at» emptyTable = -1 ∧ 0 ≤ emptyTable.m_recordsCount ∧
    «at» emptyTable ≥ emptyTable.m_recordsCount - 1 ∧
    (next emptyTable).1 = true ∧ «at» (next emptyTable).2 = -1 ∧
    next emptyTable = first emptyTable := by
  decide

/-- C6 (amended): with `recordsCount >= 0`: at position `-1` `next()` is
`first()`, with the same result, which is success, and the same final state; at
a position `>= 0` that is `>= recordsCount-1` it returns failure and changes
nothing; at every other position `>= 0` it returns success and `at()` has grown
by exactly 1. -/
theorem next_cases (t : QDbfTablePrivate) (hty : IsInt32 t.m_recordsCount)
    (h : 0 ≤ t.m_recordsCount) :
    («at» t = -1 → next t = first t ∧ (next t).1 = true) ∧
    (0 ≤ «at» t → «at» t ≥ t.m_recordsCount - 1 → next t = (false, t)) ∧
    (0 ≤ «at» t → «at» t < t.m_recordsCount - 1 →
      (next t).1 = true ∧ «at» (next t).2 = «at» t + 1) := by
  have hw : toInt32 (t.m_recordsCount - 1) = t.m_recordsCount - 1 :=
    toInt32_pred hty (by omega)
  refine ⟨?_, ?_, ?_⟩
  · intro hp
    have hnf : next t = first t := by
      simp only [next, FirstRow, hp]
      simp
    exact ⟨hnf, by rw [hnf]; rfl⟩
  · intro hp hge
    have h1 : ¬ («at» t < 0) := by omega
    simp only [next, FirstRow, size, hw, h1, if_false]
    rw [if_pos hge]
  · intro hp hlt
    have h1 : ¬ («at» t < 0) := by omega
    have h2 : ¬ («at» t ≥ t.m_recordsCount - 1) := by omega
    have hw2 : toInt32 («at» t + 1) = «at» t + 1 := by
      unfold IsInt32 at hty
      unfold toInt32
      omega
    have h3 : ¬ («at» t + 1 < 0) := by omega
    have h4 : ¬ («at» t + 1 > t.m_recordsCount - 1) := by omega
    simp only [next, FirstRow, size, hw, hw2, h1, h2, if_false]
    simp only [seek, FirstRow, size, hw, h3, h4, if_false]
    refine ⟨trivial, ?_⟩
    split_ifs <;> rfl

/-- C7, counterexample: with no record and the cursor parked on position 0,
which is greater than `recordsCount-1`, `previous()` returns failure and leaves
the cursor on 0, while `last()` moves it to `recordsCount-1`; and on the engine
that was never opened, where `seek(0)` has left the cursor on `-2` (a position
that is neither `-1` nor `0` nor greater than `recordsCount-1`), `previous()`
returns failure as well. -/
theorem previous_on_parked_cursor :
    «at» parkedTable = 0 ∧ «at» parkedTable > parkedTable.m_recordsCount - 1 ∧
    (previous parkedTable).1 = false ∧ «at» (previous parkedTable).2 = 0 ∧
    «at» (last parkedTable).2 = parkedTable.m_recordsCount - 1 ∧
    «at» unopenedTable = -2 ∧ ¬ («at» unopenedTable > unopenedTable.m_recordsCount - 1) ∧
    (previous unopenedTable).1 = false := by
  decide

/-- C7 (amended): at a position `<= 0`, so at `-1` and at `0`, `previous()`
returns failure and changes nothing, also when that position is greater than
`recordsCount-1`; at a position greater than 0 and greater than `recordsCount-1`
it does what `last()` does: it reports success and, for `recordsCount >= 0`,
leaves the cursor at `recordsCount-1`; at every other position `p > 0` it
returns success and leaves `at() == p-1`. -/
theorem previous_cases (t : QDbfTablePrivate) (hty : IsInt32 t.m_recordsCount)
    (hmin : -2147483648 < t.m_recordsCount) :
    («at» t ≤ 0 → previous t = (false, t)) ∧
    (0 < «at» t → «at» t > t.m_recordsCount - 1 →
      previous t = last t ∧ (previous t).1 = true ∧
      (0 ≤ t.m_recordsCount → «at» (previous t).2 = t.m_recordsCount - 1)) ∧
    (0 < «at» t → «at» t ≤ t.m_recordsCount - 1 →
      (previous t).1 = true ∧ «at» (previous t).2 = «at» t - 1) := by
  have hw : toInt32 (t.m_recordsCount - 1) = t.m_recordsCount - 1 :=
    toInt32_pred hty hmin
  refine ⟨?_, ?_, ?_⟩
  · intro h1
    simp only [previous, FirstRow, h1, if_true]
  · intro hp hgt
    have h1 : ¬ («at» t ≤ 0) := by omega
    have hprev : previous t = last t := by
      simp only [previous, FirstRow, size, hw, h1, if_false]
      rw [if_pos hgt]
    refine ⟨hprev, ?_, ?_⟩
    · rw [hprev]; rfl
    · intro h0
      rw [hprev]
      simp only [last, seek, size, FirstRow, BeforeFirstRow, hw, «at»]
      split_ifs <;> simp_all <;> omega
  · intro hp hle
    have h1 : ¬ («at» t ≤ 0) := by omega
    have h2 : ¬ («at» t > t.m_recordsCount - 1) := by omega
    have hw2 : toInt32 («at» t - 1) = «at» t - 1 := by
      unfold IsInt32 at hty
      unfold toInt32
      omega
    have h3 : ¬ («at» t - 1 < 0) := by omega
    have h4 : ¬ («at» t - 1 > t.m_recordsCount - 1) := by omega
    simp only [previous, FirstRow, size, hw, hw2, h1, h2, if_false]
    simp only [seek, FirstRow, size, hw, h3, h4, if_false]
    refine ⟨trivial, ?_⟩
    split_ifs <;> rfl

/-- C6 (amended) at the sample table: from position 0 `next()` moves to position 1. -/
theorem next_cases_witness :
    IsInt32 sampleTable.m_recordsCount ∧ 0 ≤ sampleTable.m_recordsCount ∧
    «at» (next (seek sampleTable 0).2).2 = «at» (seek sampleTable 0).2 + 1 :=
  ⟨by decide, by decide,
   ((next_cases (seek sampleTable 0).2 (by decide) (by decide)).2.2 (by decide) (by decide)).2⟩

/-- C7 (amended) at the sample table: from position 1 `previous()` moves to position 0. -/
theorem previous_cases_witness :
    IsInt32 sampleTable.m_recordsCount ∧ -2147483648 < sampleTable.m_recordsCount ∧
    «at» (previous (seek sampleTable 1).2).2 = «at» (seek sampleTable 1).2 - 1 :=
  ⟨by decide, by decide,
   ((previous_cases (seek sampleTable 1).2 (by decide) (by decide)).2.2 (by decide)
     (by decide)).2⟩

/-! ## Reading the record under the cursor -/

/-- The state after `seek(i)` for a valid index `i`: the cursor is at `i` and the
buffered record stays valid only when the cursor was already there. -/
theorem seek_valid (t : QDbfTablePrivate) (i : Int) (hty : IsInt32 t.m_recordsCount)
    (hi0 : 0 ≤ i) (hi1 : i ≤ t.m_recordsCount - 1) :
    (seek t i).2 =
      { t with m_currentIndex := i,
               m_bufered := t.m_bufered && decide (t.m_currentIndex = i) } := by
  have hw : toInt32 (t.m_recordsCount - 1) = t.m_recordsCount - 1 :=
    toInt32_pred hty (by omega)
  have h1 : ¬ (i < 0) := by omega
  have h2 : ¬ (i > t.m_recordsCount - 1) := by omega
  simp only [seek, FirstRow, size, hw, h1, h2, if_false]
  by_cases hc : t.m_currentIndex = i
  · simp [hc]
  · simp [hc]

/-- Reading by `seek(i)` followed by `record()` for a valid index whose bytes are
in the store, when the cursor is not already at `i` with a buffered record: the
result is the record decoded from the `recordLength` bytes at the offset of
record `i`. -/
theorem seek_then_read (qt : Platform) (t : QDbfTablePrivate) (i : Int)
    (ho : t.m_file.opened = true) (hty : IsInt32 t.m_recordsCount)
    (hi0 : 0 ≤ i) (hi1 : i ≤ t.m_recordsCount - 1)
    (hhl : 0 ≤ t.m_headerLength) (hrl : 0 < t.m_recordLength)
    (hpos : t.m_headerLength + t.m_recordLength * i ≤ 2147483647)
    (hpresent : (t.m_headerLength + t.m_recordLength * i).toNat + t.m_recordLength.toNat
      ≤ t.m_file.bytes.length)
    (hnb : ¬ (t.m_currentIndex = i ∧ t.m_bufered = true)) :
    (record qt (seek t i).2).1 = decodeRecord qt t.m_textCodec t.m_record i
      ((t.m_file.bytes.drop (t.m_headerLength + t.m_recordLength * i).toNat).take
        t.m_recordLength.toNat) := by
  have hprod : 0 ≤ t.m_recordLength * i := mul_nonneg (le_of_lt hrl) hi0
  have e1 : toInt32 (t.m_recordLength * i) = t.m_recordLength * i :=
    toInt32_of_isInt32 ⟨by omega, by omega⟩
  have e2 : toInt32 (t.m_headerLength + t.m_recordLength * i)
      = t.m_headerLength + t.m_recordLength * i :=
    toInt32_of_isInt32 ⟨by omega, by omega⟩
  rw [seek_valid t i hty hi0 hi1]
  have hb : (t.m_bufered && decide (t.m_currentIndex = i)) = false := by
    by_cases hc : t.m_currentIndex = i
    · have : t.m_bufered = false := by
        cases hbb : t.m_bufered
        · rfl
        · exact absurd ⟨hc, hbb⟩ hnb
      simp [this]
    · simp [hc]
  have hslice : ((t.m_file.bytes.drop (t.m_headerLength + t.m_recordLength * i).toNat).take
      t.m_recordLength.toNat).length = t.m_recordLength.toNat := by
    rw [List.length_take, List.length_drop]
    omega
  have hne : (t.m_file.bytes.drop (t.m_headerLength + t.m_recordLength * i).toNat).take
      t.m_recordLength.toNat ≠ [] := by
    intro h0
    rw [h0] at hslice
    simp only [List.length_nil] at hslice
    omega
  obtain ⟨hrec, -, -⟩ := record_read qt
    { t with m_currentIndex := i, m_bufered := t.m_bufered && decide (t.m_currentIndex = i) }
    hb ho hi0 (le_of_lt hrl) (by simp only [e1, e2]; omega) (by simp only [e1, e2]; exact hne)
  simp only [e1, e2] at hrec
  exact hrec

/-- C8 (amended): on an open table, for an index `i` in `[0, recordsCount-1]`
whose `recordLength >= 1` bytes at offset `headerLength + recordLength*i` are in
the store (the offset being a non-negative `int`): unless the cursor is already
at `i` with a buffered record, `seek(i)` followed by `record()` returns the
record decoded from exactly those bytes, deleted iff their byte 0 is `'*'`,
with `recordIndex == i`; when the cursor is already at `i` with a buffered
record, that buffered record is returned as it is. -/
theorem seek_record_decodes (qt : Platform) (t : QDbfTablePrivate) (i : Int)
    (ho : t.m_file.opened = true) (hty : IsInt32 t.m_recordsCount)
    (hi0 : 0 ≤ i) (hi1 : i ≤ t.m_recordsCount - 1)
    (hhl : 0 ≤ t.m_headerLength) (hrl : 0 < t.m_recordLength)
    (hpos : t.m_headerLength + t.m_recordLength * i ≤ 2147483647)
    (hpresent : (t.m_headerLength + t.m_recordLength * i).toNat + t.m_recordLength.toNat
      ≤ t.m_file.bytes.length) :
    (¬ (t.m_currentIndex = i ∧ t.m_bufered = true) →
      (record qt (seek t i).2).1 = decodeRecord qt t.m_textCodec t.m_record i
        ((t.m_file.bytes.drop (t.m_headerLength + t.m_recordLength * i).toNat).take
          t.m_recordLength.toNat) ∧
      ((record qt (seek t i).2).1.isDeleted = true ↔
        t.m_file.bytes[(t.m_headerLength + t.m_recordLength * i).toNat]? = some 42) ∧
      (record qt (seek t i).2).1.recordIndex = i) ∧
    (t.m_currentIndex = i ∧ t.m_bufered = true →
      (record qt (seek t i).2).1 = t.m_currentRecord) := by
  constructor
  · intro hnb
    have hrec := seek_then_read qt t i ho hty hi0 hi1 hhl hrl hpos hpresent hnb
    rw [hrec]
    refine ⟨rfl, ?_, rfl⟩
    simp only [decodeRecord, QDbfRecord.isDeleted, decide_eq_true_eq]
    rw [List.getElem?_take_of_lt (by omega), List.getElem?_drop]
    simp
  · rintro ⟨hc, hbb⟩
    rw [seek_valid t i hty hi0 hi1]
    simp [record, hc, hbb]

/-! ## Appending -/

theorem encodeFrom_prefix (qt : Platform) (codec : TextCodec) (r : QDbfRecord)
    (own : List QDbfField) (i : Nat) (data : List Nat) :
    ∃ rest, (encodeFrom qt codec r own i data).1 = data ++ rest := by
  induction own generalizing i data with
  | nil => exact ⟨[], by simp [encodeFrom]⟩
  | cons f own ih =>
    unfold encodeFrom
    split_ifs with hc
    · exact ⟨[], by simp⟩
    · obtain ⟨rest, hrest⟩ := ih (i + 1) (data ++ encodeField qt codec (r.field i))
      exact ⟨encodeField qt codec (r.field i) ++ rest, by rw [hrest, List.append_assoc]⟩

/-- The first byte of an encoded record is `'*'` for a record marked deleted and
a blank otherwise. -/
theorem recordData_head (qt : Platform) (t : QDbfTablePrivate) (r : QDbfRecord) (b : Bool) :
    (recordData qt t r b).1[0]? = some (if r.isDeleted then 42 else 32) := by
  obtain ⟨rest, hrest⟩ := encodeFrom_prefix qt t.m_textCodec r t.m_record.fields 0
    [if r.isDeleted then 42 else 32]
  unfold recordData
  simp only
  generalize (if r.isDeleted = true then (42 : Nat) else 32) = c at hrest ⊢
  split_ifs <;> simp [hrest]

theorem take_drop_eq_of_getElem? (L D : List Nat) (P m : Nat)
    (h : ∀ k, k < m → L[P + k]? = D[k]?) :
    (L.drop P).take m = D.take m := by
  apply List.ext_getElem?
  intro k
  by_cases hk : k < m
  · rw [List.getElem?_take_of_lt hk, List.getElem?_take_of_lt hk, List.getElem?_drop]
    exact h k hk
  · rw [List.getElem?_take_eq_none (by omega), List.getElem?_take_eq_none (by omega)]

/-- C5 (amended): on an open writable table with the cursor inside
`[-1, recordsCount-1]` (counts, lengths and the end offset non-negative `int`
values, `recordLength >= 1`, a header of at least eight bytes): after
`addRecord(record)` succeeds, `seek(size()-1)` followed by `record()` returns the
record decoded from the first `recordLength` bytes of the record's encoding,
with `recordIndex == size()-1` and with `isDeleted()` equal to the deletion flag
of the appended record. -/
theorem addRecord_then_record (qt : Platform) (t : QDbfTablePrivate) (r : QDbfRecord)
    (hrc : 0 ≤ t.m_recordsCount) (hmax : t.m_recordsCount < 2147483647)
    (hrl : 0 < t.m_recordLength) (hhl : 8 ≤ t.m_headerLength)
    (hpos : t.m_headerLength + t.m_recordLength * t.m_recordsCount ≤ 2147483647)
    (hcur : t.m_currentIndex < t.m_recordsCount)
    (h : (addRecord qt t r).1 = true) :
    (record qt (seek (addRecord qt t r).2 (size (addRecord qt t r).2 - 1)).2).1
      = decodeRecord qt t.m_textCodec t.m_record (size t)
          ((recordData qt t r true).1.take t.m_recordLength.toNat) ∧
    (record qt (seek (addRecord qt t r).2 (size (addRecord qt t r).2 - 1)).2).1.isDeleted
      = r.isDeleted ∧
    (record qt (seek (addRecord qt t r).2 (size (addRecord qt t r).2 - 1)).2).1.recordIndex
      = size (addRecord qt t r).2 - 1 := by
  obtain ⟨hw, hp, n, hn, hnle, hst⟩ := addRecord_true qt t r (le_of_lt hrl) h
  have hprod : 0 ≤ t.m_recordLength * t.m_recordsCount := mul_nonneg (le_of_lt hrl) hrc
  have e1 : toInt32 (t.m_recordLength * t.m_recordsCount) = t.m_recordLength * t.m_recordsCount :=
    toInt32_of_isInt32 ⟨by omega, by omega⟩
  have e2 : toInt32 (t.m_headerLength + t.m_recordLength * t.m_recordsCount)
      = t.m_headerLength + t.m_recordLength * t.m_recordsCount :=
    toInt32_of_isInt32 ⟨by omega, by omega⟩
  have e3 : toInt32 (t.m_recordsCount + 1) = t.m_recordsCount + 1 :=
    toInt32_of_isInt32 ⟨by omega, by omega⟩
  rw [e1, e2, e3] at hst
  have hopen : t.m_file.opened = true := by
    simp only [QFile.isWritable, Bool.and_eq_true] at hw
    exact hw.1
  have hsize : size (addRecord qt t r).2 - 1 = t.m_recordsCount := by
    rw [hst]; simp only [size]; omega
  rw [hsize]
  have hbytes : ∀ k, k < t.m_recordLength.toNat →
      (addRecord qt t r).2.m_file.bytes[
        (t.m_headerLength + t.m_recordLength * t.m_recordsCount).toNat + k]?
        = (recordData qt t r true).1[k]? := by
    intro k hk
    rw [hst]
    simp only
    rw [QFile.splice_getElem?_ge _ _ _ _ (by rw [recordsCountChars_length]; omega)]
    rw [QFile.splice_getElem?_mid _ _ _ _ (by rw [List.length_take]; omega)]
    rw [List.getElem?_take_of_lt (by omega)]
  have hlenb : (t.m_headerLength + t.m_recordLength * t.m_recordsCount).toNat
      + t.m_recordLength.toNat ≤ (addRecord qt t r).2.m_file.bytes.length := by
    rw [hst]
    simp only [QFile.splice_length, List.length_take, recordsCountChars_length]
    omega
  have hslice := take_drop_eq_of_getElem? (addRecord qt t r).2.m_file.bytes
    (recordData qt t r true).1 (t.m_headerLength + t.m_recordLength * t.m_recordsCount).toNat
    t.m_recordLength.toNat hbytes
  have hfields : (addRecord qt t r).2.m_headerLength = t.m_headerLength ∧
      (addRecord qt t r).2.m_recordLength = t.m_recordLength ∧
      (addRecord qt t r).2.m_recordsCount = t.m_recordsCount + 1 ∧
      (addRecord qt t r).2.m_currentIndex = t.m_currentIndex ∧
      (addRecord qt t r).2.m_textCodec = t.m_textCodec ∧
      (addRecord qt t r).2.m_record = t.m_record ∧
      (addRecord qt t r).2.m_file.opened = t.m_file.opened := by
    rw [hst]; exact ⟨rfl, rfl, rfl, rfl, rfl, rfl, rfl⟩
  obtain ⟨f1, f2, f3, f4, f5, f6, f7⟩ := hfields
  have hrec := seek_then_read qt (addRecord qt t r).2 t.m_recordsCount
    (by rw [f7]; exact hopen) (by rw [f3]; exact ⟨by omega, by omega⟩) hrc (by rw [f3]; omega)
    (by rw [f1]; omega) (by rw [f2]; exact hrl) (by rw [f1, f2]; exact hpos)
    (by rw [f1, f2]; exact hlenb) (by rw [f4]; intro hc; omega)
  rw [f1, f2, f5, f6, hslice] at hrec
  refine ⟨by rw [hrec]; rfl, ?_, by rw [hrec]; rfl⟩
  rw [hrec]
  simp only [decodeRecord, QDbfRecord.isDeleted]
  rw [List.getElem?_take_of_lt (by omega), recordData_head]
  cases hd : r.deleted <;> simp [QDbfRecord.isDeleted, hd]

/-! ## Removing -/

theorem QFile.read_length_eq {f : QFile} {n : Int} (h : ((f.read n).1.length : Int) = n) :
    0 ≤ n ∧ (f.read n).2 = { f with pos := f.pos + n.toNat } := by
  have h0 : 0 ≤ n := by rw [← h]; exact Int.natCast_nonneg _
  refine ⟨h0, ?_⟩
  unfold QFile.read at h ⊢
  split_ifs at h ⊢ with hc
  · simp only [List.length_nil] at h
    have : n = 0 := by omega
    subst this
    simp
  · simp only at h ⊢
    have : ((f.bytes.drop f.pos).take n.toNat).length = n.toNat := by omega
    rw [this]

/-- What a successful `removeRecord(index)` did: the index passed the range
check, the record was read in full, and the byte `'*'` was stored at the file
position that the read had left, which is the offset of the record plus
`recordLength`. Nothing but the file and the error state changed. -/
theorem removeRecord_true (t : QDbfTablePrivate) (index : Int)
    (h : (removeRecord t index).1 = true) :
    0 ≤ index ∧ index ≤ toInt32 (size t - 1) ∧ 0 ≤ t.m_recordLength ∧
    (removeRecord t index).2 =
      { t with
        m_file :=
          { t.m_file with
            bytes := QFile.splice t.m_file.bytes
              ((toInt32 (t.m_headerLength + toInt32 (t.m_recordLength * index))).toNat
                + t.m_recordLength.toNat) [42],
            pos := (toInt32 (t.m_headerLength + toInt32 (t.m_recordLength * index))).toNat
                + t.m_recordLength.toNat + 1 },
        m_error := DbfTableError.NoError } := by
  unfold removeRecord at h ⊢
  simp only at h ⊢
  split_ifs at h ⊢ with h1 h2 h3 h4 h5 h6
  simp only [Bool.not_eq_true, Bool.not_eq_false', ne_eq, not_not, FirstRow, not_or, not_lt,
    gt_iff_lt] at h1 h2 h3 h4 h5 h6
  obtain ⟨-, hp, hs⟩ := QFile.seek_fst_true h4
  rw [hs] at h5 h6 ⊢
  obtain ⟨hrl, hr⟩ := QFile.read_length_eq h5
  rw [hr] at h6 ⊢
  obtain ⟨-, m, hm, -, hw⟩ := QFile.write_pos h6 (by norm_num)
  have hm1 : m = 1 := by omega
  subst hm1
  rw [hw]
  exact ⟨h3.1, h3.2, hrl, by simp⟩

/-- C3 (amended): when `removeRecord(i)` reports success, `size()`, the cursor
position and the buffered record are what they were, so that with the cursor
already at `i` and a record buffered there, `seek(i)` followed by `record()`
returns that buffered record, with the deletion flag it had before. -/
theorem removeRecord_keeps_buffer (qt : Platform) (t : QDbfTablePrivate) (i : Int)
    (h : (removeRecord t i).1 = true) :
    size (removeRecord t i).2 = size t ∧
    «at» (removeRecord t i).2 = «at» t ∧
    (removeRecord t i).2.m_bufered = t.m_bufered ∧
    (removeRecord t i).2.m_currentRecord = t.m_currentRecord ∧
    («at» t = i → t.m_bufered = true →
      (record qt (seek (removeRecord t i).2 i).2).1 = t.m_currentRecord) := by
  obtain ⟨h0, h1, -, hst⟩ := removeRecord_true t i h
  rw [hst]
  refine ⟨rfl, rfl, rfl, rfl, ?_⟩
  intro hat hb
  simp only [«at»] at hat
  have hn0 : ¬ (i < 0) := by omega
  have hn1 : ¬ (i > toInt32 (size t - 1)) := by omega
  simp only [size] at hn1
  simp [seek, record, FirstRow, size, hn0, hn1, hat, hb]

/-! ## Evaluation on the sample table -/

/-- C2: evaluation of `removeRecord` on the sample table (two records at offsets
65 and 69, end-of-file mark at 73). `removeRecord(0)` reports success, leaves
byte 0 of record 0 a blank and stores `'*'` in byte 0 of record 1;
`removeRecord(1)` reports success, leaves byte 0 of record 1 a blank and stores
`'*'` over the end-of-file mark. -/
theorem removeRecord_marks_following_record :
    (removeRecord sampleTable 0).1 = true ∧
    sampleTable.m_file.bytes[65]? = some 32 ∧
    (removeRecord sampleTable 0).2.m_file.bytes[65]? = some 32 ∧
    sampleTable.m_file.bytes[69]? = some 32 ∧
    (removeRecord sampleTable 0).2.m_file.bytes[69]? = some 42 ∧
    (removeRecord sampleTable 1).1 = true ∧
    (removeRecord sampleTable 1).2.m_file.bytes[69]? = some 32 ∧
    sampleTable.m_file.bytes[73]? = some 26 ∧
    (removeRecord sampleTable 1).2.m_file.bytes[73]? = some 42 := by
  decide

/-- C3, counterexample: with the cursor on record 0 and that record buffered,
`removeRecord(0)` reports success and leaves `size()` unchanged, and `seek(0)`
followed by `record()` returns a record with `isDeleted() == false`. -/
theorem removeRecord_buffered_not_deleted :
    (removeRecord bufferedTable 0).1 = true ∧
    size (removeRecord bufferedTable 0).2 = size bufferedTable ∧
    (record samplePlatform (seek (removeRecord bufferedTable 0).2 0).2).1.isDeleted = false := by
  decide

/-- C3 (amended) at the sample table with record 0 buffered. -/
theorem removeRecord_keeps_buffer_witness :
    (removeRecord bufferedTable 0).1 = true ∧
    (record samplePlatform (seek (removeRecord bufferedTable 0).2 0).2).1
      = bufferedTable.m_currentRecord :=
  ⟨by decide,
   (removeRecord_keeps_buffer samplePlatform bufferedTable 0 (by decide)).2.2.2.2
     (by decide) (by decide)⟩

/-- C4 at the sample table: appending `XYZ` succeeds and makes the size 3. -/
theorem addRecord_effect_witness :
    0 ≤ sampleTable.m_recordsCount ∧ sampleTable.m_recordsCount < 2147483647 ∧
    0 ≤ sampleTable.m_recordLength ∧ 8 ≤ sampleTable.m_headerLength ∧
    sampleTable.m_headerLength + sampleTable.m_recordLength * sampleTable.m_recordsCount
      ≤ 2147483647 ∧
    (addRecord samplePlatform sampleTable xyzRecord).1 = true ∧
    size (addRecord samplePlatform sampleTable xyzRecord).2 = size sampleTable + 1 :=
  ⟨by decide, by decide, by decide, by decide, by decide, by decide,
   ((addRecord_effect samplePlatform sampleTable xyzRecord (by decide) (by decide) (by decide)
      (by decide) (by decide)).1 (by decide)).1⟩

/-- C5, counterexample: appending to the sample table a record with the table's
schema that is marked deleted succeeds, and `seek(size()-1)` followed by
`record()` then returns a record with `isDeleted() == true`; its value is the
text padded to the field length, `"GH "` for the appended `"GH"`. -/
theorem addRecord_deleted_stays_deleted :
    (addRecord samplePlatform sampleTable deletedRecord).1 = true ∧
    (record samplePlatform
      (seek (addRecord samplePlatform sampleTable deletedRecord).2
        (size (addRecord samplePlatform sampleTable deletedRecord).2 - 1)).2).1.isDeleted = true ∧
    deletedRecord.value 0 = QVariant.string [71, 72] ∧
    (record samplePlatform
      (seek (addRecord samplePlatform sampleTable deletedRecord).2
        (size (addRecord samplePlatform sampleTable deletedRecord).2 - 1)).2).1.value 0
      = QVariant.string [71, 72, 32] := by
  decide

/-- C5 (amended) at the sample table: the record `XYZ` appended to it is read
back not deleted. -/
theorem addRecord_then_record_witness :
    0 ≤ sampleTable.m_recordsCount ∧ sampleTable.m_recordsCount < 2147483647 ∧
    0 < sampleTable.m_recordLength ∧ 8 ≤ sampleTable.m_headerLength ∧
    sampleTable.m_headerLength + sampleTable.m_recordLength * sampleTable.m_recordsCount
      ≤ 2147483647 ∧
    sampleTable.m_currentIndex < sampleTable.m_recordsCount ∧
    (addRecord samplePlatform sampleTable xyzRecord).1 = true ∧
    (record samplePlatform
      (seek (addRecord samplePlatform sampleTable xyzRecord).2
        (size (addRecord samplePlatform sampleTable xyzRecord).2 - 1)).2).1.isDeleted
      = xyzRecord.isDeleted :=
  ⟨by decide, by decide, by decide, by decide, by decide, by decide, by decide,
   (addRecord_then_record samplePlatform sampleTable xyzRecord (by decide) (by decide)
      (by decide) (by decide) (by decide) (by decide) (by decide)).2.1⟩

/-- C8, counterexample: on the sample table, after `seek(0)`, `record()` and an
`updateRecordInTable` that stores `XYZ` in record 0, the four bytes of record 0
are in the store, and `seek(0)` followed by `record()` returns the record that
was buffered before the update (`ABC`), not the record decoded from those
bytes. -/
theorem seek_record_stale :
    (updateRecordInTable samplePlatform bufferedTable xyzRecord).1 = true ∧
    staleTable.m_file.opened = true ∧ size staleTable = 2 ∧
    (staleTable.m_file.bytes.drop 65).take 4 = [32, 88, 89, 90] ∧
    (record samplePlatform (seek staleTable 0).2).1
      ≠ decodeRecord samplePlatform staleTable.m_textCodec staleTable.m_record 0
          [32, 88, 89, 90] ∧
    (record samplePlatform (seek staleTable 0).2).1.value 0 = QVariant.string [65, 66, 67] := by
  decide

/-- C8 (amended) at the sample table: `seek(1)` then `record()` returns a record
with index 1. -/
theorem seek_record_decodes_witness :
    sampleTable.m_file.opened = true ∧ IsInt32 sampleTable.m_recordsCount ∧
    (0 : Int) ≤ 1 ∧ (1 : Int) ≤ sampleTable.m_recordsCount - 1 ∧
    0 ≤ sampleTable.m_headerLength ∧ 0 < sampleTable.m_recordLength ∧
    sampleTable.m_headerLength + sampleTable.m_recordLength * 1 ≤ 2147483647 ∧
    (sampleTable.m_headerLength + sampleTable.m_recordLength * 1).toNat
      + sampleTable.m_recordLength.toNat ≤ sampleTable.m_file.bytes.length ∧
    (record samplePlatform (seek sampleTable 1).2).1.recordIndex = 1 :=
  ⟨by decide, by decide, by decide, by decide, by decide, by decide, by decide, by decide,
   ((seek_record_decodes samplePlatform sampleTable 1 (by decide) (by decide) (by decide)
      (by decide) (by decide) (by decide) (by decide) (by decide)).1 (by decide)).2.2⟩

/-- C9: evaluation of `record()` on the sample table whose file ends after two
of the four bytes of record 0: the error state is `NoError` and field `NAME`
holds the text decoded from the one byte that was there, not the value of the
template. -/
theorem record_short_read_not_detected :
    truncatedTable.m_recordLength = 4 ∧
    ((truncatedTable.m_file.bytes.drop 65).take 4).length = 2 ∧
    (record samplePlatform (seek truncatedTable 0).2).2.m_error = DbfTableError.NoError ∧
    (record samplePlatform (seek truncatedTable 0).2).1.value 0 = QVariant.string [65] ∧
    truncatedTable.m_record.value 0 = QVariant.invalid ∧
    «at» (record samplePlatform (seek truncatedTable 0).2).2 = 0 := by
  decide

/-- C10: evaluation of `updateRecordInTable` and `addRecord` on the sample table
with a record whose field differs from the table's in its length: both report
failure and leave `recordsCount` at 2, and both have stored the first byte of
the encoding: `updateRecordInTable` turned byte 0 of record 0 from a blank into
`'*'`, `addRecord` stored `'*'` over the end-of-file mark. -/
theorem mismatch_writes_partial_record :
    (sampleTable.m_record.field 0).d ≠ (mismatchRecord.field 0).d ∧
    (updateRecordInTable samplePlatform sampleTable mismatchRecord).1 = false ∧
    (updateRecordInTable samplePlatform sampleTable mismatchRecord).2.m_recordsCount = 2 ∧
    sampleTable.m_file.bytes[65]? = some 32 ∧
    (updateRecordInTable samplePlatform sampleTable mismatchRecord).2.m_file.bytes[65]? = some 42 ∧
    (addRecord samplePlatform sampleTable mismatchRecord).1 = false ∧
    (addRecord samplePlatform sampleTable mismatchRecord).2.m_recordsCount = 2 ∧
    sampleTable.m_file.bytes[73]? = some 26 ∧
    (addRecord samplePlatform sampleTable mismatchRecord).2.m_file.bytes[73]? = some 42 := by
  decide

/-! ## Mutations on a read-only table -/

/-- C12: on a table opened read-only, `addRecord`, `updateRecordInTable` and
`removeRecord` each return failure with last error `WriteError`, and the store
bytes, `recordsCount` and the cursor position are unchanged: nothing but the
error state changes. -/
theorem readOnly_refuses_mutations (qt : Platform) (t : QDbfTablePrivate) (r : QDbfRecord)
    (i : Int) (ho : t.m_file.opened = true) (hm : t.m_file.mode = OpenMode.ReadOnly) :
    RefusedWrite t (addRecord qt t r) ∧
    RefusedWrite t (updateRecordInTable qt t r) ∧
    RefusedWrite t (removeRecord t i) ∧
    addRecord qt t r = (false, { t with m_error := DbfTableError.WriteError }) ∧
    updateRecordInTable qt t r = (false, { t with m_error := DbfTableError.WriteError }) ∧
    removeRecord t i = (false, { t with m_error := DbfTableError.WriteError }) := by
  have hw : t.m_file.isWritable = false := by simp [QFile.isWritable, hm]
  have hopen : isOpen t = true := by simp [isOpen, QFile.isOpen, ho]
  have h1 : addRecord qt t r = (false, { t with m_error := DbfTableError.WriteError }) := by
    simp [addRecord, hw, hopen]
  have h2 : updateRecordInTable qt t r
      = (false, { t with m_error := DbfTableError.WriteError }) := by
    simp [updateRecordInTable, hw, hopen]
  have h3 : removeRecord t i = (false, { t with m_error := DbfTableError.WriteError }) := by
    simp [removeRecord, hw, hopen]
  refine ⟨?_, ?_, ?_, h1, h2, h3⟩
  · rw [h1]; exact ⟨rfl, rfl, rfl, rfl, rfl⟩
  · rw [h2]; exact ⟨rfl, rfl, rfl, rfl, rfl⟩
  · rw [h3]; exact ⟨rfl, rfl, rfl, rfl, rfl⟩

/-- C12 at the sample table opened read-only: `removeRecord(0)` is refused. -/
theorem readOnly_refuses_mutations_witness :
    readOnlyTable.m_file.opened = true ∧ readOnlyTable.m_file.mode = OpenMode.ReadOnly ∧
    RefusedWrite readOnlyTable (removeRecord readOnlyTable 0) :=
  ⟨by decide, by decide,
   (readOnly_refuses_mutations samplePlatform readOnlyTable xyzRecord 0 (by decide)
      (by decide)).2.2.1⟩

/-- The sample table opened read-only is what `open(ReadOnly)` makes of the
sample file. -/
theorem open_sampleFile_readOnly :
    «open» samplePlatform (QDbfTablePrivate.init sampleFile) OpenMode.ReadOnly true
      = (true, readOnlyTable) := by
  decide

/-- C11: evaluation of `updateRecordInTable` on the sample table (header of 65
bytes, records of 4 bytes) with a record that has the table's schema and no
record index (`recordIndex() == -1`): the call reports success and has stored
the four bytes of the record at offset 61, over the last three bytes of the
field descriptor and the header terminator. A freshly constructed record, which
has no field either, is refused, after its deletion byte was stored at
offset 61. -/
theorem update_without_index_overwrites_header :
    indexlessRecord.recordIndex = -1 ∧
    (updateRecordInTable samplePlatform sampleTable indexlessRecord).1 = true ∧
    (sampleTable.m_file.bytes.drop 61).take 4 = [0, 0, 0, 13] ∧
    ((updateRecordInTable samplePlatform sampleTable indexlessRecord).2.m_file.bytes.drop 61).take 4
      = [32, 88, 89, 90] ∧
    QDbfRecord.empty.recordIndex = -1 ∧
    (updateRecordInTable samplePlatform sampleTable QDbfRecord.empty).1 = false ∧
    (updateRecordInTable samplePlatform sampleTable QDbfRecord.empty).2.m_file.bytes[61]?
      = some 32 := by
  decide

/-- C17: evaluation of `setCodepage` on the sample table. For `CodepageNotSet`
the call reports success and the byte at offset 29 is 101, not 0; for `IBM866`
it is 101, for `Windows1251` 201; for `UnspecifiedCodepage` the call reports
failure and the bytes of the store are unchanged. -/
theorem setCodepage_notSet_writes_101 :
    (setCodepage sampleTable Codepage.CodepageNotSet).1 = true ∧
    (setCodepage sampleTable Codepage.CodepageNotSet).2.m_file.bytes[29]? = some 101 ∧
    (setCodepage sampleTable Codepage.CodepageNotSet).2.m_codepage = Codepage.CodepageNotSet ∧
    (setCodepage sampleTable Codepage.IBM866).2.m_file.bytes[29]? = some 101 ∧
    (setCodepage sampleTable Codepage.Windows1251).2.m_file.bytes[29]? = some 201 ∧
    (setCodepage sampleTable Codepage.UnspecifiedCodepage).1 = false ∧
    (setCodepage sampleTable Codepage.UnspecifiedCodepage).2.m_file.bytes
      = sampleTable.m_file.bytes := by
  decide

/-- C19: evaluation of `open` on the sample file with version byte 131: the call
reports failure and the last-error state is `NoError`. -/
theorem open_unknown_version_leaves_NoError :
    memoFile.bytes[0]? = some 131 ∧
    («open» samplePlatform (QDbfTablePrivate.init memoFile) OpenMode.ReadWrite true).1 = false ∧
    («open» samplePlatform (QDbfTablePrivate.init memoFile) OpenMode.ReadWrite true).2.m_error
      = DbfTableError.NoError := by
  decide

/-! ## Opening -/

theorem take_getD (l : List Nat) (k : Nat) (hk : k < 32) : (l.take 32).getD k 0 = l.getD k 0 := by
  simp [List.getD_eq_getElem?_getD, List.getElem?_take, hk]

theorem setTextCodec_m_error (t : QDbfTablePrivate) : (setTextCodec t).m_error = t.m_error := by
  unfold setTextCodec
  split <;> rfl

theorem setTextCodec_m_file (t : QDbfTablePrivate) : (setTextCodec t).m_file = t.m_file := by
  unfold setTextCodec
  split <;> rfl

theorem setTextCodec_m_openMode (t : QDbfTablePrivate) : (setTextCodec t).m_openMode = t.m_openMode := by
  unfold setTextCodec
  split <;> rfl

theorem setTextCodec_m_type (t : QDbfTablePrivate) : (setTextCodec t).m_type = t.m_type := by
  unfold setTextCodec
  split <;> rfl

theorem setTextCodec_m_codepage (t : QDbfTablePrivate) : (setTextCodec t).m_codepage = t.m_codepage := by
  unfold setTextCodec
  split <;> rfl

theorem setTextCodec_m_headerLength (t : QDbfTablePrivate) : (setTextCodec t).m_headerLength = t.m_headerLength := by
  unfold setTextCodec
  split <;> rfl

theorem setTextCodec_m_recordLength (t : QDbfTablePrivate) : (setTextCodec t).m_recordLength = t.m_recordLength := by
  unfold setTextCodec
  split <;> rfl

theorem setTextCodec_m_fieldsCount (t : QDbfTablePrivate) : (setTextCodec t).m_fieldsCount = t.m_fieldsCount := by
  unfold setTextCodec
  split <;> rfl

theorem setTextCodec_m_recordsCount (t : QDbfTablePrivate) : (setTextCodec t).m_recordsCount = t.m_recordsCount := by
  unfold setTextCodec
  split <;> rfl

theorem setTextCodec_m_currentIndex (t : QDbfTablePrivate) : (setTextCodec t).m_currentIndex = t.m_currentIndex := by
  unfold setTextCodec
  split <;> rfl

theorem setTextCodec_m_bufered (t : QDbfTablePrivate) : (setTextCodec t).m_bufered = t.m_bufered := by
  unfold setTextCodec
  split <;> rfl

theorem setTextCodec_m_currentRecord (t : QDbfTablePrivate) : (setTextCodec t).m_currentRecord = t.m_currentRecord := by
  unfold setTextCodec
  split <;> rfl

theorem setTextCodec_m_record (t : QDbfTablePrivate) : (setTextCodec t).m_record = t.m_record := by
  unfold setTextCodec
  split <;> rfl

/-- Source call `m_file.read(data, maxSize) != maxSize`: on an open file the
count returned equals `maxSize` exactly when `maxSize` is `-1`, or is not
negative and that many bytes follow the position. -/
theorem QFile.readInto_fst_iff (f : QFile) (n : Int) (ho : f.opened = true)
    (hp : f.pos ≤ f.bytes.length) :
    (f.readInto n).1 = n ↔ (n = -1 ∨ (0 ≤ n ∧ (f.pos : Int) + n ≤ f.bytes.length)) := by
  unfold QFile.readInto
  by_cases hn : n < 0
  · simp [ho, hn]
    omega
  · simp [ho, hn, List.length_take, List.length_drop]
    omega

theorem QFile.readInto_bytes (f : QFile) (n : Int) : (f.readInto n).2.2.bytes = f.bytes := by
  unfold QFile.readInto
  split_ifs <;> rfl

theorem QFile.readInto_opened (f : QFile) (n : Int) :
    (f.readInto n).2.2.opened = f.opened := by
  unfold QFile.readInto
  split_ifs <;> rfl

theorem QFile.readInto_mode (f : QFile) (n : Int) : (f.readInto n).2.2.mode = f.mode := by
  unfold QFile.readInto
  split_ifs <;> rfl

/-- What a successful `open` has established: the file system granted the
access, the file has the 32 header bytes, the version byte is listed, the field
descriptors could be read, and the members hold the values computed from the
header bytes. -/
theorem open_true_aux (qt : Platform) (t : QDbfTablePrivate) (m : OpenMode) (g : Bool)
    (res : Bool × QDbfTablePrivate) (hres : «open» qt t m g = res) (h : res.1 = true) :
    g = true ∧ 32 ≤ t.m_file.bytes.length ∧
    tableTypeOf (headerByte t.m_file 0) ≠ none ∧
    (descriptorsLength t.m_file = -1 ∨
      (0 ≤ descriptorsLength t.m_file ∧
        32 + descriptorsLength t.m_file ≤ t.m_file.bytes.length)) ∧
    res.2.m_recordsCount
      = toInt32 (toInt32 (toInt32 ((headerByte t.m_file 4 : Int)
          + toInt32 (headerByte t.m_file 5 * 2 ^ 8)) + toInt32 (headerByte t.m_file 6 * 2 ^ 16))
          + toInt32 (headerByte t.m_file 7 * 2 ^ 24)) ∧
    res.2.m_headerLength
      = toInt16 (toInt16 (headerByte t.m_file 8) + toInt16 (headerByte t.m_file 9 * 2 ^ 8)) ∧
    res.2.m_recordLength
      = toInt16 (toInt16 (headerByte t.m_file 10) + toInt16 (headerByte t.m_file 11 * 2 ^ 8)) ∧
    res.2.m_codepage = codepageOf (headerByte t.m_file 29) ∧
    res.2.m_error = DbfTableError.NoError ∧ res.2.m_currentIndex = -1 ∧
    res.2.m_bufered = false ∧
    res.2.m_file.bytes = t.m_file.bytes ∧ res.2.m_file.opened = true ∧
    res.2.m_file.mode = m ∧ res.2.m_openMode = m := by
  cases g
  · subst hres
    cases ho : t.m_file.opened <;>
      simp [«open», isOpen, QFile.isOpen, QFile.open, QFile.close, ho] at h
  · cases ho : t.m_file.opened <;>
      simp [«open», isOpen, QFile.isOpen, QFile.open, QFile.close, QFile.read, ho,
        TABLE_DESCRIPTOR_LENGTH, VERSION_NUMBER_OFFSET, RECORDS_COUNT_OFFSET_1,
        RECORDS_COUNT_OFFSET_2, RECORDS_COUNT_OFFSET_3, RECORDS_COUNT_OFFSET_4,
        HEADER_LENGTH_OFFSET_1, HEADER_LENGTH_OFFSET_2, RECORD_LENGTH_OFFSET_1,
        RECORD_LENGTH_OFFSET_2, LANGUAGE_DRIVER_OFFSET, TERMINATOR_LENGTH, DBC_LENGTH,
        FIELD_DESCRIPTOR_LENGTH, take_getD,
        setTextCodec_m_error, setTextCodec_m_file, setTextCodec_m_openMode, setTextCodec_m_type,
        setTextCodec_m_codepage, setTextCodec_m_headerLength, setTextCodec_m_recordLength,
        setTextCodec_m_fieldsCount, setTextCodec_m_recordsCount, setTextCodec_m_currentIndex,
        setTextCodec_m_bufered, setTextCodec_m_currentRecord, setTextCodec_m_record,
        -List.getD_eq_getElem?_getD] at hres
    all_goals split_ifs at hres with h1
    all_goals try (subst hres; simp at h; done)
    all_goals split at hres
    all_goals try (subst hres; simp at h; done)
    all_goals rename_i ty heq
    all_goals have hmin : 32 ⊓ t.m_file.bytes.length = 32 := by omega
    all_goals simp only [hmin] at hres
    all_goals cases ty
    all_goals simp only [reduceCtorEq, if_false, if_true] at hres
    all_goals split_ifs at hres with h4
    all_goals try (subst hres; simp at h; done)
    all_goals subst hres
    all_goals clear h
    all_goals rw [QFile.readInto_fst_iff _ _ rfl (by simp; omega)] at h4
    all_goals refine ⟨rfl, by omega,
      by simp [headerByte, heq, -List.getD_eq_getElem?_getD], ?_, ?_⟩
    all_goals first
      | (simpa [descriptorsLength, headerByte, heq, TABLE_DESCRIPTOR_LENGTH, TERMINATOR_LENGTH,
          DBC_LENGTH, -List.getD_eq_getElem?_getD] using h4)
      | simp [headerByte, QFile.readInto_bytes, QFile.readInto_opened, QFile.readInto_mode,
          -List.getD_eq_getElem?_getD]

/-- The converse: `open` succeeds on every file that may be opened, has the 32
header bytes with a listed version byte, and holds the field descriptors that
the header length announces. -/
theorem open_accepts (qt : Platform) (t : QDbfTablePrivate) (m : OpenMode)
    (hlen : 32 ≤ t.m_file.bytes.length)
    (hv : tableTypeOf (headerByte t.m_file 0) ≠ none)
    (hd : descriptorsLength t.m_file = -1 ∨
      (0 ≤ descriptorsLength t.m_file ∧
        32 + descriptorsLength t.m_file ≤ t.m_file.bytes.length)) :
    («open» qt t m true).1 = true := by
  cases ho : t.m_file.opened <;>
    simp [«open», isOpen, QFile.isOpen, QFile.open, QFile.close, QFile.read, ho,
      TABLE_DESCRIPTOR_LENGTH, VERSION_NUMBER_OFFSET, RECORDS_COUNT_OFFSET_1,
      RECORDS_COUNT_OFFSET_2, RECORDS_COUNT_OFFSET_3, RECORDS_COUNT_OFFSET_4,
      HEADER_LENGTH_OFFSET_1, HEADER_LENGTH_OFFSET_2, RECORD_LENGTH_OFFSET_1,
      RECORD_LENGTH_OFFSET_2, LANGUAGE_DRIVER_OFFSET, TERMINATOR_LENGTH, DBC_LENGTH,
      FIELD_DESCRIPTOR_LENGTH, take_getD,
      setTextCodec_m_error, setTextCodec_m_file, setTextCodec_m_openMode, setTextCodec_m_type,
      setTextCodec_m_codepage, setTextCodec_m_headerLength, setTextCodec_m_recordLength,
      setTextCodec_m_fieldsCount, setTextCodec_m_recordsCount, setTextCodec_m_currentIndex,
      setTextCodec_m_bufered, setTextCodec_m_currentRecord, setTextCodec_m_record,
      -List.getD_eq_getElem?_getD]
  all_goals split_ifs with h1
  all_goals try omega
  all_goals split
  all_goals rename_i heq
  all_goals try (exact absurd heq (by simpa [headerByte, -List.getD_eq_getElem?_getD] using hv))
  all_goals rename_i ty
  all_goals have hmin : 32 ⊓ t.m_file.bytes.length = 32 := by omega
  all_goals simp only [hmin]
  all_goals cases ty
  all_goals simp only [reduceCtorEq, if_false, if_true]
  all_goals split_ifs with h4
  all_goals try rfl
  all_goals exfalso
  all_goals rw [QFile.readInto_fst_iff _ _ rfl (by simp; omega)] at h4
  all_goals apply h4
  all_goals simpa [descriptorsLength, headerByte, heq, TABLE_DESCRIPTOR_LENGTH,
    TERMINATOR_LENGTH, DBC_LENGTH, -List.getD_eq_getElem?_getD] using hd

theorem headerByte_lt (f : QFile) (k : Nat) : headerByte f k < 256 :=
  Nat.mod_lt _ (by decide)

theorem toInt32_byte_shift24 (b : Nat) (hb : b < 256) :
    toInt32 ((b : Int) * 2 ^ 24)
      = if b < 128 then (b : Int) * 16777216 else (b : Int) * 16777216 - 4294967296 := by
  unfold toInt32
  split_ifs <;> omega

theorem toInt16_byte_shift8 (b : Nat) (hb : b < 256) :
    toInt16 ((b : Int) * 2 ^ 8) = if b < 128 then (b : Int) * 256 else (b : Int) * 256 - 65536 := by
  unfold toInt16
  split_ifs <;> omega

/-- The four count bytes as `open` adds them up in an `int`: the little-endian
value, taken as a signed 32-bit integer. -/
theorem count_bytes_value (b4 b5 b6 b7 : Nat) (h4 : b4 < 256) (h5 : b5 < 256) (h6 : b6 < 256)
    (h7 : b7 < 256) :
    toInt32 (toInt32 (toInt32 ((b4 : Int) + toInt32 ((b5 : Int) * 2 ^ 8))
        + toInt32 ((b6 : Int) * 2 ^ 16)) + toInt32 ((b7 : Int) * 2 ^ 24))
      = if b7 < 128 then ((littleEndian [b4, b5, b6, b7] : Nat) : Int)
        else ((littleEndian [b4, b5, b6, b7] : Nat) : Int) - 4294967296 := by
  have e5 : toInt32 ((b5 : Int) * 2 ^ 8) = (b5 : Int) * 256 :=
    toInt32_of_isInt32 (by unfold IsInt32; omega)
  have e45 : toInt32 ((b4 : Int) + (b5 : Int) * 256) = (b4 : Int) + (b5 : Int) * 256 :=
    toInt32_of_isInt32 (by unfold IsInt32; omega)
  have e6 : toInt32 ((b6 : Int) * 2 ^ 16) = (b6 : Int) * 65536 :=
    toInt32_of_isInt32 (by unfold IsInt32; omega)
  have e456 : toInt32 ((b4 : Int) + (b5 : Int) * 256 + (b6 : Int) * 65536)
      = (b4 : Int) + (b5 : Int) * 256 + (b6 : Int) * 65536 :=
    toInt32_of_isInt32 (by unfold IsInt32; omega)
  rw [e5, e45, e6, e456, toInt32_byte_shift24 b7 h7]
  simp only [littleEndian]
  push_cast
  split_ifs with h
  · exact (toInt32_of_isInt32 (by unfold IsInt32; omega)).trans (by omega)
  · exact (toInt32_of_isInt32 (by unfold IsInt32; omega)).trans (by omega)

/-- The two length bytes as `open` adds them up in a `qint16`: the little-endian
value, taken as a signed 16-bit integer. -/
theorem length_bytes_value (b0 b1 : Nat) (h0 : b0 < 256) (h1 : b1 < 256) :
    toInt16 (toInt16 (b0 : Int) + toInt16 ((b1 : Int) * 2 ^ 8))
      = if b1 < 128 then ((littleEndian [b0, b1] : Nat) : Int)
        else ((littleEndian [b0, b1] : Nat) : Int) - 65536 := by
  have e0 : toInt16 (b0 : Int) = (b0 : Int) := toInt16_of_isInt16 (by unfold IsInt16; omega)
  rw [e0, toInt16_byte_shift8 b1 h1]
  simp only [littleEndian]
  push_cast
  split_ifs with h
  · exact (toInt16_of_isInt16 (by unfold IsInt16; omega)).trans (by omega)
  · exact (toInt16_of_isInt16 (by unfold IsInt16; omega)).trans (by omega)

/-- C16, as the code has it: for every header that `open` accepts,
`recordsCount` is the little-endian value of bytes 4..7 read as a signed 32-bit
integer (the unsigned value below `2^31`, that value minus `2^32` from there
on), `recordLength` is the little-endian value of bytes 10..11 read as a signed
16-bit integer, and `headerLength` is the unsigned little-endian value of bytes
8..9, which lies in `[32, 32767]`; `recordsCount` and `recordLength` are
negative exactly when byte 7, respectively byte 11, is 128 or more. -/
theorem open_header_numbers (qt : Platform) (t : QDbfTablePrivate) (m : OpenMode) (g : Bool)
    (h : («open» qt t m g).1 = true) :
    («open» qt t m g).2.m_recordsCount
      = (if littleEndian [headerByte t.m_file 4, headerByte t.m_file 5, headerByte t.m_file 6,
              headerByte t.m_file 7] < 2147483648
         then (littleEndian [headerByte t.m_file 4, headerByte t.m_file 5, headerByte t.m_file 6,
              headerByte t.m_file 7] : Int)
         else (littleEndian [headerByte t.m_file 4, headerByte t.m_file 5, headerByte t.m_file 6,
              headerByte t.m_file 7] : Int) - 4294967296) ∧
    («open» qt t m g).2.m_recordLength
      = (if littleEndian [headerByte t.m_file 10, headerByte t.m_file 11] < 32768
         then (littleEndian [headerByte t.m_file 10, headerByte t.m_file 11] : Int)
         else (littleEndian [headerByte t.m_file 10, headerByte t.m_file 11] : Int) - 65536) ∧
    («open» qt t m g).2.m_headerLength
      = (littleEndian [headerByte t.m_file 8, headerByte t.m_file 9] : Int) ∧
    32 ≤ («open» qt t m g).2.m_headerLength ∧ («open» qt t m g).2.m_headerLength ≤ 32767 ∧
    ((«open» qt t m g).2.m_recordsCount < 0 ↔ 128 ≤ headerByte t.m_file 7) ∧
    ((«open» qt t m g).2.m_recordLength < 0 ↔ 128 ≤ headerByte t.m_file 11) := by
  obtain ⟨_, _, _, hd, hrc, hhl, hrl, _⟩ := open_true_aux qt t m g _ rfl h
  have b4 := headerByte_lt t.m_file 4
  have b5 := headerByte_lt t.m_file 5
  have b6 := headerByte_lt t.m_file 6
  have b7 := headerByte_lt t.m_file 7
  have b8 := headerByte_lt t.m_file 8
  have b9 := headerByte_lt t.m_file 9
  have b10 := headerByte_lt t.m_file 10
  have b11 := headerByte_lt t.m_file 11
  rw [count_bytes_value _ _ _ _ b4 b5 b6 b7] at hrc
  rw [length_bytes_value _ _ b8 b9] at hhl
  rw [length_bytes_value _ _ b10 b11] at hrl
  simp only [descriptorsLength, TABLE_DESCRIPTOR_LENGTH, TERMINATOR_LENGTH, DBC_LENGTH] at hd
  rw [length_bytes_value _ _ b8 b9] at hd
  rw [hrc, hhl, hrl]
  clear hrc hhl hrl
  simp only [littleEndian] at hd ⊢
  push_cast at hd ⊢
  have h9 : headerByte t.m_file 9 < 128 := by
    by_contra hc
    rw [if_neg hc] at hd
    split_ifs at hd <;> omega
  rw [if_pos h9]
  refine ⟨?_, ?_, rfl, ?_, ?_, ?_, ?_⟩
  · split_ifs <;> omega
  · split_ifs <;> omega
  · rw [if_pos h9] at hd
    split_ifs at hd <;> omega
  · omega
  · split_ifs <;> omega
  · split_ifs <;> omega

/-- C16 at the sample file: record count 2, record length 4, header length 65. -/
theorem open_header_numbers_witness :
    («open» samplePlatform (QDbfTablePrivate.init sampleFile) OpenMode.ReadWrite true).1 = true ∧
    («open» samplePlatform (QDbfTablePrivate.init sampleFile) OpenMode.ReadWrite true).2.m_headerLength
      = (littleEndian [headerByte (QDbfTablePrivate.init sampleFile).m_file 8,
          headerByte (QDbfTablePrivate.init sampleFile).m_file 9] : Int) :=
  ⟨by decide,
   (open_header_numbers samplePlatform (QDbfTablePrivate.init sampleFile) OpenMode.ReadWrite true
      (by decide)).2.2.1⟩

/-- C16, counterexample: `open` accepts the sample file with the count bytes
`FF FF FF FF` and the record length bytes `04 80`; `recordsCount` is then `-1`,
not `4294967295`, and `recordLength` is `-32764`, not `32772`. -/
theorem open_negative_count_and_length :
    («open» samplePlatform (QDbfTablePrivate.init signedHeaderFile) OpenMode.ReadWrite true).1
      = true ∧
    [4, 5, 6, 7].map (headerByte signedHeaderFile) = [255, 255, 255, 255] ∧
    littleEndian [255, 255, 255, 255] = 4294967295 ∧
    («open» samplePlatform (QDbfTablePrivate.init signedHeaderFile)
      OpenMode.ReadWrite true).2.m_recordsCount = -1 ∧
    [10, 11].map (headerByte signedHeaderFile) = [4, 128] ∧
    littleEndian [4, 128] = 32772 ∧
    («open» samplePlatform (QDbfTablePrivate.init signedHeaderFile)
      OpenMode.ReadWrite true).2.m_recordLength = -32764 := by
  decide

theorem headerByte_setByte_ne (f : QFile) (k v j : Nat) (hj : j ≠ k) :
    headerByte (f.setByte k v) j = headerByte f j := by
  simp [headerByte, QFile.setByte, List.getD_eq_getElem?_getD, List.getElem?_set, hj.symm]

theorem headerByte_setByte_eq (f : QFile) (k v : Nat) (hk : k < f.bytes.length) :
    headerByte (f.setByte k v) k = v % 256 := by
  simp [headerByte, QFile.setByte, List.getD_eq_getElem?_getD, List.getElem?_set, hk]

theorem descriptorsLength_setByte (f : QFile) (v : Nat) :
    descriptorsLength (f.setByte 29 v) = descriptorsLength f := by
  simp [descriptorsLength, headerByte_setByte_ne]

/-- C18: on every header that `open` accepts, the code page is the function
`codepageOf` of header byte 29, which sends 0 to `CodepageNotSet`, 38 and 101
to `IBM866`, 201 to `Windows1251` and every other value to
`UnspecifiedCodepage`; and `open` accepts the same file with any byte `v` put
at offset 29, the code page then being `codepageOf v`: no value of the byte
makes `open` fail. -/
theorem open_codepage_of_byte29 (qt : Platform) (t : QDbfTablePrivate) (m : OpenMode)
    (g : Bool) (v : Nat) (hv : v < 256) (h : («open» qt t m g).1 = true) :
    («open» qt t m g).2.m_codepage = codepageOf (headerByte t.m_file 29) ∧
    («open» qt { t with m_file := t.m_file.setByte 29 v } m g).1 = true ∧
    («open» qt { t with m_file := t.m_file.setByte 29 v } m g).2.m_codepage = codepageOf v ∧
    codepageOf 0 = Codepage.CodepageNotSet ∧ codepageOf 38 = Codepage.IBM866 ∧
    codepageOf 101 = Codepage.IBM866 ∧ codepageOf 201 = Codepage.Windows1251 ∧
    (v ≠ 0 → v ≠ 38 → v ≠ 101 → v ≠ 201 → codepageOf v = Codepage.UnspecifiedCodepage) := by
  obtain ⟨hg, hlen, hver, hd, _, _, _, hcp, _⟩ := open_true_aux qt t m g _ rfl h
  subst hg
  have hacc : («open» qt { t with m_file := t.m_file.setByte 29 v } m true).1 = true := by
    apply open_accepts
    · simpa [QFile.setByte] using hlen
    · simpa [headerByte_setByte_ne] using hver
    · show descriptorsLength (t.m_file.setByte 29 v) = -1 ∨ _
      rw [descriptorsLength_setByte]
      simpa [QFile.setByte] using hd
  have hcp2 := (open_true_aux qt { t with m_file := t.m_file.setByte 29 v } m true _ rfl
    hacc).2.2.2.2.2.2.2.1
  refine ⟨hcp, hacc, ?_, by decide, by decide, by decide, by decide, ?_⟩
  · rw [hcp2]
    simp only []
    rw [headerByte_setByte_eq _ _ _ (by omega), Nat.mod_eq_of_lt hv]
  · intro h0 h38 h101 h201
    simp [codepageOf, h0, h38, h101, h201]

/-- C18 at the sample file with the byte 5 at offset 29: `open` succeeds and the
code page is `UnspecifiedCodepage`. -/
theorem open_codepage_of_byte29_witness :
    (5 : Nat) < 256 ∧
    («open» samplePlatform (QDbfTablePrivate.init sampleFile) OpenMode.ReadOnly true).1 = true ∧
    («open» samplePlatform
      { QDbfTablePrivate.init sampleFile with
        m_file := (QDbfTablePrivate.init sampleFile).m_file.setByte 29 5 }
      OpenMode.ReadOnly true).1 = true ∧
    («open» samplePlatform
      { QDbfTablePrivate.init sampleFile with
        m_file := (QDbfTablePrivate.init sampleFile).m_file.setByte 29 5 }
      OpenMode.ReadOnly true).2.m_codepage = Codepage.UnspecifiedCodepage :=
  ⟨by decide, by decide,
   (open_codepage_of_byte29 samplePlatform (QDbfTablePrivate.init sampleFile) OpenMode.ReadOnly
      true 5 (by decide) (by decide)).2.1,
   by decide⟩

/-! ## The cursor under sequences of operations -/

theorem seek_recordsCount (t : QDbfTablePrivate) (i : Int) :
    (seek t i).2.m_recordsCount = t.m_recordsCount := by
  simp only [seek]
  split_ifs <;> rfl

theorem seek_currentIndex (t : QDbfTablePrivate) (i : Int) (hty : IsInt32 t.m_recordsCount)
    (h : 0 ≤ t.m_recordsCount) :
    (seek t i).2.m_currentIndex
      = (if i < 0 then -1 else if i > t.m_recordsCount - 1 then t.m_recordsCount - 1 else i) := by
  have hw : toInt32 (t.m_recordsCount - 1) = t.m_recordsCount - 1 :=
    toInt32_pred hty (by omega)
  simp only [seek, size, FirstRow, BeforeFirstRow, hw]
  split_ifs <;> rfl

theorem record_currentIndex (qt : Platform) (t : QDbfTablePrivate) :
    (record qt t).2.m_currentIndex = t.m_currentIndex ∧
    (record qt t).2.m_recordsCount = t.m_recordsCount := by
  simp only [record]
  split_ifs <;> exact ⟨rfl, rfl⟩

theorem addRecord_currentIndex (qt : Platform) (t : QDbfTablePrivate) (r : QDbfRecord) :
    (addRecord qt t r).2.m_currentIndex = t.m_currentIndex ∧
    ((addRecord qt t r).2.m_recordsCount = t.m_recordsCount ∨
     (addRecord qt t r).2.m_recordsCount = toInt32 (t.m_recordsCount + 1)) := by
  rcases recordData_snd qt t r true with e | e
  all_goals simp only [addRecord, e]
  all_goals split_ifs
  all_goals first
    | exact ⟨rfl, Or.inl rfl⟩
    | exact ⟨rfl, Or.inr rfl⟩

theorem updateRecordInTable_currentIndex (qt : Platform) (t : QDbfTablePrivate)
    (r : QDbfRecord) :
    (updateRecordInTable qt t r).2.m_currentIndex = t.m_currentIndex ∧
    (updateRecordInTable qt t r).2.m_recordsCount = t.m_recordsCount := by
  rcases recordData_snd qt t r false with e | e
  all_goals simp only [updateRecordInTable, e]
  all_goals split_ifs
  all_goals exact ⟨rfl, rfl⟩

theorem removeRecord_currentIndex (t : QDbfTablePrivate) (i : Int) :
    (removeRecord t i).2.m_currentIndex = t.m_currentIndex ∧
    (removeRecord t i).2.m_recordsCount = t.m_recordsCount := by
  simp only [removeRecord]
  split_ifs <;> exact ⟨rfl, rfl⟩

theorem next_recordsCount (t : QDbfTablePrivate) :
    (next t).2.m_recordsCount = t.m_recordsCount := by
  simp only [next, first]
  split_ifs
  · exact seek_recordsCount t _
  · rfl
  · exact seek_recordsCount t _

theorem previous_recordsCount (t : QDbfTablePrivate) :
    (previous t).2.m_recordsCount = t.m_recordsCount := by
  simp only [previous, last]
  split_ifs
  · rfl
  · exact seek_recordsCount t _
  · exact seek_recordsCount t _

/-- One call of `next()` with the cursor inside `[-1, recordsCount-1]`: below the
last record it reports success and the cursor has moved on by one; on the last
record it reports failure and changes nothing; on a table without records it
reports success and the cursor stays at `-1`. -/
theorem next_step (t : QDbfTablePrivate) (hty : IsInt32 t.m_recordsCount)
    (h : CursorInRange t) :
    (t.m_currentIndex < t.m_recordsCount - 1 →
      (next t).1 = true ∧ (next t).2.m_currentIndex = t.m_currentIndex + 1) ∧
    (0 ≤ t.m_currentIndex → t.m_currentIndex = t.m_recordsCount - 1 → next t = (false, t)) ∧
    (t.m_recordsCount = 0 → (next t).1 = true ∧ (next t).2.m_currentIndex = -1) := by
  obtain ⟨h0, h1, h2⟩ := h
  have hw : toInt32 (t.m_recordsCount - 1) = t.m_recordsCount - 1 :=
    toInt32_pred hty (by omega)
  have hty2 := hty
  unfold IsInt32 at hty2
  refine ⟨?_, ?_, ?_⟩
  · intro hlt
    by_cases hneg : t.m_currentIndex < 0
    · have hn : next t = seek t 0 := by
        simp only [next, first, «at», FirstRow, if_pos hneg]
      rw [hn]
      refine ⟨rfl, ?_⟩
      rw [seek_currentIndex t 0 hty h0]
      split_ifs <;> omega
    · have hs : toInt32 (t.m_currentIndex + 1) = t.m_currentIndex + 1 :=
        toInt32_of_isInt32 (by unfold IsInt32; omega)
      have hge : ¬ (t.m_currentIndex ≥ t.m_recordsCount - 1) := by omega
      have hn : next t = seek t (t.m_currentIndex + 1) := by
        simp only [next, «at», size, FirstRow, if_neg hneg, hw, if_neg hge, hs]
      rw [hn]
      refine ⟨rfl, ?_⟩
      rw [seek_currentIndex t _ hty h0]
      split_ifs <;> omega
  · intro hp he
    have hneg : ¬ (t.m_currentIndex < 0) := by omega
    have hge : t.m_currentIndex ≥ t.m_recordsCount - 1 := by omega
    simp only [next, «at», size, FirstRow, if_neg hneg, hw, if_pos hge]
  · intro hz
    have hneg : t.m_currentIndex < 0 := by omega
    have hn : next t = seek t 0 := by
      simp only [next, first, «at», FirstRow, if_pos hneg]
    rw [hn]
    refine ⟨rfl, ?_⟩
    rw [seek_currentIndex t 0 hty h0]
    split_ifs <;> omega

theorem next_inRange (t : QDbfTablePrivate) (hty : IsInt32 t.m_recordsCount)
    (h : CursorInRange t) : CursorInRange (next t).2 := by
  have hs := next_step t hty h
  have hrc := next_recordsCount t
  obtain ⟨h0, h1, h2⟩ := h
  unfold CursorInRange
  rw [hrc]
  by_cases hlt : t.m_currentIndex < t.m_recordsCount - 1
  · have := (hs.1 hlt).2
    omega
  · by_cases hp : 0 ≤ t.m_currentIndex
    · rw [hs.2.1 hp (by omega)]
      exact ⟨h0, h1, h2⟩
    · have := (hs.2.2 (by omega)).2
      omega

theorem previous_inRange (t : QDbfTablePrivate) (hty : IsInt32 t.m_recordsCount)
    (h : CursorInRange t) : CursorInRange (previous t).2 := by
  obtain ⟨h0, h1, h2⟩ := h
  have hw : toInt32 (t.m_recordsCount - 1) = t.m_recordsCount - 1 :=
    toInt32_pred hty (by omega)
  have hty2 := hty
  unfold IsInt32 at hty2
  by_cases hle : t.m_currentIndex ≤ 0
  · have hp : previous t = (false, t) := by
      simp only [previous, «at», FirstRow, if_pos hle]
    rw [hp]
    exact ⟨h0, h1, h2⟩
  · have hs : toInt32 (t.m_currentIndex - 1) = t.m_currentIndex - 1 :=
      toInt32_of_isInt32 (by unfold IsInt32; omega)
    have hgt : ¬ (t.m_currentIndex > t.m_recordsCount - 1) := by omega
    have hp : previous t = seek t (t.m_currentIndex - 1) := by
      simp only [previous, «at», size, FirstRow, if_neg hle, hw, if_neg hgt, hs]
    rw [hp]
    unfold CursorInRange
    rw [seek_recordsCount, seek_currentIndex t _ hty h0]
    split_ifs <;> omega

theorem seek_inRange (t : QDbfTablePrivate) (i : Int) (hty : IsInt32 t.m_recordsCount)
    (h : 0 ≤ t.m_recordsCount) : CursorInRange (seek t i).2 := by
  unfold CursorInRange
  rw [seek_recordsCount, seek_currentIndex t _ hty h]
  split_ifs <;> omega

/-- One operation keeps the cursor inside `[-1, recordsCount-1]` and adds at most
one record, as long as `recordsCount + 1` does not overflow. -/
theorem step_inRange (qt : Platform) (t : QDbfTablePrivate) (op : Op) (h : CursorInRange t)
    (hov : t.m_recordsCount < 2147483647) :
    CursorInRange (step qt t op) ∧ (step qt t op).m_recordsCount ≤ t.m_recordsCount + 1 := by
  have hty : IsInt32 t.m_recordsCount := by
    unfold IsInt32
    have := h.1
    omega
  have hsucc : toInt32 (t.m_recordsCount + 1) = t.m_recordsCount + 1 :=
    toInt32_succ hty hov
  obtain ⟨h0, h1, h2⟩ := h
  cases op with
  | seek i =>
    exact ⟨seek_inRange t i hty h0, by simp only [step, seek_recordsCount]; omega⟩
  | first =>
    exact ⟨seek_inRange t _ hty h0, by simp only [step, first, seek_recordsCount]; omega⟩
  | last =>
    exact ⟨seek_inRange t _ hty h0, by simp only [step, last, seek_recordsCount]; omega⟩
  | next =>
    exact ⟨next_inRange t hty ⟨h0, h1, h2⟩, by simp only [step, next_recordsCount]; omega⟩
  | previous =>
    exact ⟨previous_inRange t hty ⟨h0, h1, h2⟩,
      by simp only [step, previous_recordsCount]; omega⟩
  | dereference =>
    have hr := record_currentIndex qt t
    simp only [step, CursorInRange, hr.1, hr.2]
    omega
  | append r =>
    have hr := addRecord_currentIndex qt t r
    simp only [step, CursorInRange, hr.1]
    rcases hr.2 with e | e <;> rw [e] <;> omega
  | appendBlank =>
    have hc := record_currentIndex qt t
    have hr := addRecord_currentIndex qt (record qt t).2
      (((record qt t).1.clearValues).setDeleted false)
    rw [hc.1, hc.2] at hr
    simp only [step, addRecord0, CursorInRange, hr.1]
    rcases hr.2 with e | e <;> rw [e] <;> omega
  | update r =>
    have hr := updateRecordInTable_currentIndex qt t r
    simp only [step, CursorInRange, hr.1, hr.2]
    omega
  | removeAt i =>
    have hr := removeRecord_currentIndex t i
    simp only [step, CursorInRange, hr.1, hr.2]
    omega

theorem run_inRange (qt : Platform) (ops : List Op) :
    ∀ t : QDbfTablePrivate, CursorInRange t →
      t.m_recordsCount + ops.length ≤ 2147483647 → CursorInRange (run qt t ops) := by
  induction ops with
  | nil =>
    intro t h _
    exact h
  | cons op rest ih =>
    intro t h hov
    simp only [List.length_cons, Nat.cast_add, Nat.cast_one] at hov
    have hs := step_inRange qt t op h (by omega)
    have := ih (step qt t op) hs.1 (by omega)
    simpa [run] using this

theorem nextTimes_recordsCount (t : QDbfTablePrivate) (k : Nat) :
    (nextTimes t k).m_recordsCount = t.m_recordsCount := by
  induction k with
  | zero => rfl
  | succ k ih =>
    show (next (nextTimes t k)).2.m_recordsCount = t.m_recordsCount
    rw [next_recordsCount, ih]

theorem nextTimes_currentIndex (t : QDbfTablePrivate) (hty : IsInt32 t.m_recordsCount)
    (hcur : t.m_currentIndex = -1) (k : Nat) (hk : (k : Int) ≤ t.m_recordsCount) :
    (nextTimes t k).m_currentIndex = (k : Int) - 1 := by
  induction k with
  | zero => simpa [nextTimes] using hcur
  | succ k ih =>
    have hk2 : ((k : Nat) : Int) + 1 ≤ t.m_recordsCount := by
      simpa using hk
    have ih2 := ih (by omega)
    have hrc := nextTimes_recordsCount t k
    have hin : CursorInRange (nextTimes t k) := by
      unfold CursorInRange
      rw [hrc, ih2]
      omega
    have hs := (next_step (nextTimes t k) (by rw [hrc]; exact hty) hin).1
      (by rw [hrc, ih2]; omega)
    show (next (nextTimes t k)).2.m_currentIndex = ((k + 1 : Nat) : Int) - 1
    rw [hs.2, ih2]
    push_cast
    omega

theorem nextTimes_empty (t : QDbfTablePrivate) (hz : t.m_recordsCount = 0)
    (hcur : t.m_currentIndex = -1) (k : Nat) :
    (nextTimes t k).m_currentIndex = -1 := by
  induction k with
  | zero => simpa [nextTimes] using hcur
  | succ k ih =>
    have hrc := nextTimes_recordsCount t k
    have hin : CursorInRange (nextTimes t k) := by
      unfold CursorInRange
      rw [hrc, ih, hz]
      omega
    exact ((next_step (nextTimes t k) (by rw [hrc, hz]; decide) hin).2.2 (by rw [hrc, hz])).2

/-- C22 (amended): on a table with `recordsCount = n >= 1` and the cursor before
the first record, for `1 <= k <= n` the `k`-th call of `next()` reports success
and leaves `at() == k-1`, and the `(n+1)`-th call reports failure and leaves the
cursor on `n-1`; on a table without records every call of `next()` reports
success and leaves the cursor at `-1`. -/
theorem scan_by_next (t : QDbfTablePrivate) (hty : IsInt32 t.m_recordsCount)
    (h0 : 0 ≤ t.m_recordsCount) (hcur : «at» t = -1) :
    (∀ k : Nat, 1 ≤ k → (k : Int) ≤ t.m_recordsCount →
      (next (nextTimes t (k - 1))).1 = true ∧ «at» (nextTimes t k) = (k : Int) - 1) ∧
    (1 ≤ t.m_recordsCount →
      (next (nextTimes t t.m_recordsCount.toNat)).1 = false ∧
      «at» (next (nextTimes t t.m_recordsCount.toNat)).2 = t.m_recordsCount - 1) ∧
    (t.m_recordsCount = 0 →
      ∀ k : Nat, (next (nextTimes t k)).1 = true ∧ «at» (nextTimes t (k + 1)) = -1) := by
  have hcur2 : t.m_currentIndex = -1 := hcur
  refine ⟨?_, ?_, ?_⟩
  · intro k hk1 hkn
    obtain ⟨j, rfl⟩ : ∃ j, k = j + 1 := ⟨k - 1, by omega⟩
    have hj : ((j : Nat) : Int) + 1 ≤ t.m_recordsCount := by
      simpa using hkn
    have hidx := nextTimes_currentIndex t hty hcur2 j (by omega)
    have hrc := nextTimes_recordsCount t j
    have hin : CursorInRange (nextTimes t j) := by
      unfold CursorInRange
      rw [hrc, hidx]
      omega
    have hs := (next_step (nextTimes t j) (by rw [hrc]; exact hty) hin).1
      (by rw [hrc, hidx]; omega)
    refine ⟨by simpa using hs.1, ?_⟩
    exact nextTimes_currentIndex t hty hcur2 (j + 1) hkn
  · intro h1
    have hn : ((t.m_recordsCount.toNat : Nat) : Int) = t.m_recordsCount := Int.toNat_of_nonneg h0
    have hidx := nextTimes_currentIndex t hty hcur2 t.m_recordsCount.toNat (by omega)
    have hrc := nextTimes_recordsCount t t.m_recordsCount.toNat
    have hin : CursorInRange (nextTimes t t.m_recordsCount.toNat) := by
      unfold CursorInRange
      rw [hrc, hidx]
      omega
    have hs := (next_step (nextTimes t t.m_recordsCount.toNat) (by rw [hrc]; exact hty) hin).2.1
      (by rw [hidx]; omega) (by rw [hrc, hidx]; omega)
    rw [hs]
    refine ⟨rfl, ?_⟩
    show (nextTimes t t.m_recordsCount.toNat).m_currentIndex = t.m_recordsCount - 1
    rw [hidx]
    omega
  · intro hz k
    have hidx := nextTimes_empty t hz hcur2 k
    have hrc := nextTimes_recordsCount t k
    have hin : CursorInRange (nextTimes t k) := by
      unfold CursorInRange
      rw [hrc, hidx, hz]
      omega
    exact ⟨((next_step (nextTimes t k) (by rw [hrc, hz]; decide) hin).2.2
      (by rw [hrc, hz])).1, nextTimes_empty t hz hcur2 (k + 1)⟩

/-- C22 at the sample table (two records): the second call of `next()` reports
success and leaves the cursor on 1. -/
theorem scan_by_next_witness :
    IsInt32 sampleTable.m_recordsCount ∧ 0 ≤ sampleTable.m_recordsCount ∧
    «at» sampleTable = -1 ∧
    (next (nextTimes sampleTable (2 - 1))).1 = true ∧ «at» (nextTimes sampleTable 2) = 1 :=
  ⟨by decide, by decide, by decide,
   (scan_by_next sampleTable (by decide) (by decide) (by decide)).1 2 (by decide) (by decide)⟩

/-- C22, counterexample: on the table without records, with the cursor before
the first record, the first call of `next()` reports success, and so do the
second and the third; the cursor is at `-1` after each of them. -/
theorem scan_of_empty_table_never_stops :
    emptyTable.m_recordsCount = 0 ∧ «at» emptyTable = -1 ∧
    (next (nextTimes emptyTable 0)).1 = true ∧
    (next (nextTimes emptyTable 1)).1 = true ∧
    (next (nextTimes emptyTable 2)).1 = true ∧
    «at» (nextTimes emptyTable 1) = -1 ∧ «at» (nextTimes emptyTable 3) = -1 := by
  decide

/-- C20: starting from a successfully opened table with `recordsCount >= 0`,
where the cursor is at `-1`, every finite sequence of `seek`, `first`, `last`,
`next`, `previous`, `record` (dereference), `addRecord` (with a record or
without), `updateRecordInTable` and `removeRecord` that does not take
`recordsCount` past the largest `int` leaves the cursor inside
`[-1, recordsCount-1]`; so the test `at() > size() - 1` of `previous()`, which
guards its call of `last()`, is false in every state reached. -/
theorem cursor_stays_in_range (qt : Platform) (t0 : QDbfTablePrivate) (m : OpenMode) (g : Bool)
    (ops : List Op) (hopen : («open» qt t0 m g).1 = true)
    (hrc : 0 ≤ («open» qt t0 m g).2.m_recordsCount)
    (hov : («open» qt t0 m g).2.m_recordsCount + ops.length ≤ 2147483647) :
    «at» («open» qt t0 m g).2 = -1 ∧
    -1 ≤ «at» (run qt («open» qt t0 m g).2 ops) ∧
    «at» (run qt («open» qt t0 m g).2 ops) ≤ size (run qt («open» qt t0 m g).2 ops) - 1 ∧
    0 ≤ size (run qt («open» qt t0 m g).2 ops) ∧
    ¬ («at» (run qt («open» qt t0 m g).2 ops)
        > toInt32 (size (run qt («open» qt t0 m g).2 ops) - 1)) := by
  have hidx : («open» qt t0 m g).2.m_currentIndex = -1 :=
    (open_true_aux qt t0 m g _ rfl hopen).2.2.2.2.2.2.2.2.2.1
  have hin : CursorInRange («open» qt t0 m g).2 := by
    unfold CursorInRange
    rw [hidx]
    omega
  obtain ⟨h0, h1, h2⟩ := run_inRange qt ops _ hin hov
  have hb : (run qt («open» qt t0 m g).2 ops).m_recordsCount ≤ 2147483647 := by
    have : ∀ (l : List Op) (t : QDbfTablePrivate), CursorInRange t →
        t.m_recordsCount + l.length ≤ 2147483647 →
        (run qt t l).m_recordsCount ≤ t.m_recordsCount + l.length := by
      intro l
      induction l with
      | nil =>
        intro t _ _
        simp [run]
      | cons op rest ih =>
        intro t ht hl
        simp only [List.length_cons, Nat.cast_add, Nat.cast_one] at hl ⊢
        have hs := step_inRange qt t op ht (by omega)
        have := ih (step qt t op) hs.1 (by omega)
        have e : run qt t (op :: rest) = run qt (step qt t op) rest := by simp [run]
        rw [e]
        omega
    have := this ops _ hin hov
    omega
  have hw : toInt32 ((run qt («open» qt t0 m g).2 ops).m_recordsCount - 1)
      = (run qt («open» qt t0 m g).2 ops).m_recordsCount - 1 :=
    toInt32_pred (by unfold IsInt32; omega) (by omega)
  refine ⟨hidx, h1, h2, h0, ?_⟩
  simp only [«at», size, hw]
  omega

/-- C20 at the sample table: after three calls of `next()`, one of
`previous()`, an append and `last()` the cursor is not past the last record. -/
theorem cursor_stays_in_range_witness :
    («open» samplePlatform (QDbfTablePrivate.init sampleFile) OpenMode.ReadWrite true).1 = true ∧
    «at» (run samplePlatform
      («open» samplePlatform (QDbfTablePrivate.init sampleFile) OpenMode.ReadWrite true).2
      [Op.next, Op.next, Op.next, Op.previous, Op.append xyzRecord, Op.last])
    ≤ size (run samplePlatform
      («open» samplePlatform (QDbfTablePrivate.init sampleFile) OpenMode.ReadWrite true).2
      [Op.next, Op.next, Op.next, Op.previous, Op.append xyzRecord, Op.last]) - 1 :=
  ⟨by decide,
   (cursor_stays_in_range samplePlatform (QDbfTablePrivate.init sampleFile) OpenMode.ReadWrite
      true [Op.next, Op.next, Op.next, Op.previous, Op.append xyzRecord, Op.last]
      (by decide) (by decide) (by decide)).2.2.1⟩

/-! ## The schema that `open` parses -/

theorem QFile.readInto_data (f : QFile) (n : Int) (ho : f.opened = true) :
    (f.readInto n).2.1 = (f.bytes.drop f.pos).take n.toNat := by
  unfold QFile.readInto
  by_cases hn : n < 0
  · have h0 : n.toNat = 0 := by omega
    simp [ho, hn, h0]
  · simp [ho, hn]

/-- What a successful `open` has stored about the schema: the table type of the
version byte, `fieldsCount` as the quotient of the descriptor region length by
32, and the record template parsed from the bytes that follow the 32 header
bytes. -/
theorem open_schema_aux (qt : Platform) (t : QDbfTablePrivate) (m : OpenMode) (g : Bool)
    (res : Bool × QDbfTablePrivate) (hres : «open» qt t m g = res) (h : res.1 = true) :
    tableTypeOf (headerByte t.m_file 0) = some res.2.m_type ∧
    res.2.m_fieldsCount
      = toInt16 (Int.tdiv (descriptorsLength t.m_file) FIELD_DESCRIPTOR_LENGTH) ∧
    res.2.m_record
      = parseFields qt res.2.m_textCodec
          ((t.m_file.bytes.drop 32).take (descriptorsLength t.m_file).toNat)
          (descriptorsLength t.m_file) (descriptorsLength t.m_file).toNat 0 1
          QDbfRecord.empty := by
  cases g
  · subst hres
    cases ho : t.m_file.opened <;>
      simp [«open», isOpen, QFile.isOpen, QFile.open, QFile.close, ho] at h
  · cases ho : t.m_file.opened <;>
      simp [«open», isOpen, QFile.isOpen, QFile.open, QFile.close, QFile.read, ho,
        TABLE_DESCRIPTOR_LENGTH, VERSION_NUMBER_OFFSET, RECORDS_COUNT_OFFSET_1,
        RECORDS_COUNT_OFFSET_2, RECORDS_COUNT_OFFSET_3, RECORDS_COUNT_OFFSET_4,
        HEADER_LENGTH_OFFSET_1, HEADER_LENGTH_OFFSET_2, RECORD_LENGTH_OFFSET_1,
        RECORD_LENGTH_OFFSET_2, LANGUAGE_DRIVER_OFFSET, TERMINATOR_LENGTH, DBC_LENGTH,
        FIELD_DESCRIPTOR_LENGTH, take_getD,
        setTextCodec_m_error, setTextCodec_m_file, setTextCodec_m_openMode, setTextCodec_m_type,
        setTextCodec_m_codepage, setTextCodec_m_headerLength, setTextCodec_m_recordLength,
        setTextCodec_m_fieldsCount, setTextCodec_m_recordsCount, setTextCodec_m_currentIndex,
        setTextCodec_m_bufered, setTextCodec_m_currentRecord, setTextCodec_m_record,
        -List.getD_eq_getElem?_getD] at hres
    all_goals split_ifs at hres with h1
    all_goals try (subst hres; simp at h; done)
    all_goals split at hres
    all_goals try (subst hres; simp at h; done)
    all_goals rename_i ty heq
    all_goals have hmin : 32 ⊓ t.m_file.bytes.length = 32 := by omega
    all_goals simp only [hmin] at hres
    all_goals cases ty
    all_goals simp only [reduceCtorEq, if_false, if_true] at hres
    all_goals split_ifs at hres with h4
    all_goals try (subst hres; simp at h; done)
    all_goals subst hres
    all_goals clear h h4
    all_goals rw [QFile.readInto_data _ _ rfl]
    all_goals refine ⟨by simp [headerByte, heq, -List.getD_eq_getElem?_getD], ?_, ?_⟩
    all_goals simp [descriptorsLength, headerByte, heq, TABLE_DESCRIPTOR_LENGTH,
      TERMINATOR_LENGTH, DBC_LENGTH, FIELD_DESCRIPTOR_LENGTH, -List.getD_eq_getElem?_getD]

theorem parseFields_count (qt : Platform) (codec : TextCodec) (data : List Nat) (fdl : Int) :
    ∀ (fuel i : Nat) (off : Int) (r : QDbfRecord), fdl - i ≤ fuel →
      ((parseFields qt codec data fdl fuel i off r).count : Int)
        = r.count + ((fdl - i + 31) / 32).toNat := by
  intro fuel
  induction fuel with
  | zero =>
    intro i off r hf
    have h0 : ((fdl - i + 31) / 32).toNat = 0 := by omega
    simp [parseFields, h0]
  | succ fuel ih =>
    intro i off r hf
    by_cases hlt : (i : Int) < fdl
    · have hrec := ih (i + 32) (off + (parseField qt codec data i off).d.length)
        (r.append (parseField qt codec data i off)) (by push_cast at hf ⊢; omega)
      have hc : ((r.append (parseField qt codec data i off)).count : Int) = r.count + 1 := by
        simp [QDbfRecord.append, QDbfRecord.count]
      have e : parseFields qt codec data fdl (fuel + 1) i off r
          = parseFields qt codec data fdl fuel (i + 32)
              (off + (parseField qt codec data i off).d.length)
              (r.append (parseField qt codec data i off)) := by
        simp [parseFields, hlt, FIELD_DESCRIPTOR_LENGTH]
      rw [e, hrec, hc]
      push_cast
      omega
    · have h0 : ((fdl - i + 31) / 32).toNat = 0 := by omega
      simp [parseFields, hlt, h0]

theorem toInt16_le (x : Int) : toInt16 x ≤ 32767 := by
  unfold toInt16
  omega

/-- C21 (amended): on every table that `open` accepts, with `L` the length of the
descriptor region, `headerLength - 32 - 1` and `- 263` more with a catalog:
`fieldsCount` is `L / 32` rounded toward zero and the parsed schema holds
`(L + 31) / 32` field descriptors, the quotient rounded up. When `L` is a
multiple of 32, and not negative, `headerLength == 32 + fieldsCount*32 + 1`
(plus 263 with a catalog) and the schema holds exactly `fieldsCount`
descriptors; a version byte 3 with header length 65 gives `fieldsCount == 1`
and one descriptor. -/
theorem open_fields_count (qt : Platform) (t : QDbfTablePrivate) (m : OpenMode) (g : Bool)
    (h : («open» qt t m g).1 = true) :
    descriptorsLength t.m_file
      = («open» qt t m g).2.m_headerLength - 32 - 1
        - (if («open» qt t m g).2.m_type = QDbfTableType.TableWithDbc then 263 else 0) ∧
    («open» qt t m g).2.m_fieldsCount = Int.tdiv (descriptorsLength t.m_file) 32 ∧
    ((«open» qt t m g).2.m_record.count : Int) = (descriptorsLength t.m_file + 31) / 32 ∧
    (0 ≤ descriptorsLength t.m_file → descriptorsLength t.m_file % 32 = 0 →
      («open» qt t m g).2.m_headerLength
        = 32 + («open» qt t m g).2.m_fieldsCount * 32 + 1
          + (if («open» qt t m g).2.m_type = QDbfTableType.TableWithDbc then 263 else 0) ∧
      ((«open» qt t m g).2.m_record.count : Int) = («open» qt t m g).2.m_fieldsCount) ∧
    (headerByte t.m_file 0 = 3 → («open» qt t m g).2.m_headerLength = 65 →
      («open» qt t m g).2.m_fieldsCount = 1 ∧ («open» qt t m g).2.m_record.count = 1) := by
  obtain ⟨_, _, _, hd, _, hhl, _⟩ := open_true_aux qt t m g _ rfl h
  obtain ⟨hty, hfc, hrec⟩ := open_schema_aux qt t m g _ rfl h
  have hle := toInt16_le (toInt16 (headerByte t.m_file 8) + toInt16 (headerByte t.m_file 9 * 2 ^ 8))
  have hD : descriptorsLength t.m_file
      = («open» qt t m g).2.m_headerLength - 32 - 1
        - (if («open» qt t m g).2.m_type = QDbfTableType.TableWithDbc then 263 else 0) := by
    rw [hhl]
    simp only [descriptorsLength, hty, Option.some.injEq, TABLE_DESCRIPTOR_LENGTH,
      TERMINATOR_LENGTH, DBC_LENGTH]
    split_ifs <;> omega
  rw [← hhl] at hle
  have hDle : descriptorsLength t.m_file ≤ 32734 := by
    rw [hD]
    split_ifs <;> omega
  have hDge : -1 ≤ descriptorsLength t.m_file := by omega
  have htd : Int.tdiv (descriptorsLength t.m_file) 32
      = (if 0 ≤ descriptorsLength t.m_file then descriptorsLength t.m_file / 32 else 0) := by
    rcases hd with e | e
    · rw [e]
      decide
    · rw [Int.tdiv_eq_ediv e.1 (by decide), if_pos e.1]
  have hfc2 : («open» qt t m g).2.m_fieldsCount = Int.tdiv (descriptorsLength t.m_file) 32 := by
    rw [hfc]
    simp only [FIELD_DESCRIPTOR_LENGTH]
    exact toInt16_of_isInt16 (by unfold IsInt16; rw [htd]; split_ifs <;> omega)
  have hcount : ((«open» qt t m g).2.m_record.count : Int)
      = (descriptorsLength t.m_file + 31) / 32 := by
    rw [hrec, parseFields_count qt _ _ _ _ 0 1 QDbfRecord.empty (by push_cast; omega)]
    simp only [QDbfRecord.count, QDbfRecord.empty, List.length_nil]
    push_cast
    omega
  refine ⟨hD, hfc2, hcount, ?_, ?_⟩
  · intro h0 hmod
    rw [hcount, hfc2, htd, if_pos h0]
    constructor
    · have hq : descriptorsLength t.m_file / 32 * 32 = descriptorsLength t.m_file := by omega
      rw [hq, hD]
      split_ifs <;> omega
    · omega
  · intro hv hh
    have hty2 : («open» qt t m g).2.m_type = QDbfTableType.SimpleTable := by
      rw [hv] at hty
      have : tableTypeOf 3 = some QDbfTableType.SimpleTable := by decide
      rw [this] at hty
      exact (Option.some.inj hty).symm
    have hD65 : descriptorsLength t.m_file = 32 := by
      rw [hD, hh, hty2]
      decide
    have hc1 : ((«open» qt t m g).2.m_record.count : Int) = 1 := by
      rw [hcount, hD65]
      decide
    refine ⟨?_, by exact_mod_cast hc1⟩
    rw [hfc2, hD65]
    decide

/-- C21 at the sample file: version byte 3 and header length 65 give
`fieldsCount == 1` and a schema of one descriptor. -/
theorem open_fields_count_witness :
    («open» samplePlatform (QDbfTablePrivate.init sampleFile) OpenMode.ReadOnly true).1 = true ∧
    headerByte (QDbfTablePrivate.init sampleFile).m_file 0 = 3 ∧
    («open» samplePlatform (QDbfTablePrivate.init sampleFile)
      OpenMode.ReadOnly true).2.m_headerLength = 65 ∧
    («open» samplePlatform (QDbfTablePrivate.init sampleFile)
      OpenMode.ReadOnly true).2.m_fieldsCount = 1 ∧
    («open» samplePlatform (QDbfTablePrivate.init sampleFile)
      OpenMode.ReadOnly true).2.m_record.count = 1 :=
  ⟨by decide, by decide, by decide,
   (open_fields_count samplePlatform (QDbfTablePrivate.init sampleFile) OpenMode.ReadOnly true
      (by decide)).2.2.2.2 (by decide) (by decide)⟩

/-- C21, counterexample: `open` accepts a file with header length 83, where the
descriptor region has 50 bytes: `fieldsCount` is 1, so that
`32 + fieldsCount*32 + 1` is 65 and not 83, and the parsed schema holds two
field descriptors. It also accepts a file of 32 bytes with header length 32:
`fieldsCount` is 0 and `32 + fieldsCount*32 + 1` is 33. -/
theorem open_accepts_odd_header_length :
    («open» samplePlatform (QDbfTablePrivate.init oddHeaderFile) OpenMode.ReadOnly true).1
      = true ∧
    («open» samplePlatform (QDbfTablePrivate.init oddHeaderFile)
      OpenMode.ReadOnly true).2.m_headerLength = 83 ∧
    («open» samplePlatform (QDbfTablePrivate.init oddHeaderFile)
      OpenMode.ReadOnly true).2.m_fieldsCount = 1 ∧
    («open» samplePlatform (QDbfTablePrivate.init oddHeaderFile)
      OpenMode.ReadOnly true).2.m_record.count = 2 ∧
    («open» samplePlatform (QDbfTablePrivate.init bareHeaderFile) OpenMode.ReadOnly true).1
      = true ∧
    («open» samplePlatform (QDbfTablePrivate.init bareHeaderFile)
      OpenMode.ReadOnly true).2.m_headerLength = 32 ∧
    («open» samplePlatform (QDbfTablePrivate.init bareHeaderFile)
      OpenMode.ReadOnly true).2.m_fieldsCount = 0 ∧
    («open» samplePlatform (QDbfTablePrivate.init bareHeaderFile)
      OpenMode.ReadOnly true).2.m_record.count = 0 := by
  decide

/-! ## Text values keep their padding -/

/-- C15 (amended): on an open table with header length 65, record length 21 and
one text field of 20 bytes at offset 1, whose record 0 is a blank followed by
`JOHN DOE` padded with blanks to 20 bytes, `seek(0)` followed by `record()`
yields a record that is not deleted, has index 0 and whose value is the text
that the codec makes of all 20 bytes of the field; with a codec that hands
these bytes on unchanged that is `JOHN DOE` followed by twelve blanks, which is
not the text `JOHN DOE`. -/
theorem record_keeps_padding (qt : Platform) (t : QDbfTablePrivate) (f : QDbfField)
    (ho : t.m_file.opened = true) (hty : IsInt32 t.m_recordsCount)
    (hrc : 1 ≤ t.m_recordsCount) (hhl : t.m_headerLength = 65) (hrl : t.m_recordLength = 21)
    (hschema : t.m_record.fields = [f]) (hft : f.d.type = QVariantType.String)
    (hfo : f.d.offset = 1) (hfl : f.d.length = 20)
    (hbytes : (t.m_file.bytes.drop 65).take 21 = johnDoeRecord)
    (hnb : ¬ (t.m_currentIndex = 0 ∧ t.m_bufered = true)) :
    (record qt (seek t 0).2).1.isDeleted = false ∧
    (record qt (seek t 0).2).1.recordIndex = 0 ∧
    (record qt (seek t 0).2).1.value 0
      = QVariant.string (qt.toUnicode t.m_textCodec johnDoeName) ∧
    (qt.toUnicode t.m_textCodec johnDoeName = johnDoeName →
      (record qt (seek t 0).2).1.value 0 = QVariant.string johnDoeName ∧
      (record qt (seek t 0).2).1.value 0 ≠ QVariant.string [74, 79, 72, 78, 32, 68, 79, 69]) := by
  have hlen : 86 ≤ t.m_file.bytes.length := by
    have := congrArg List.length hbytes
    simp only [List.length_take, List.length_drop] at this
    have h21 : johnDoeRecord.length = 21 := by decide
    omega
  have hrec := seek_then_read qt t 0 ho hty (le_refl 0) (by omega) (by omega) (by omega)
    (by rw [hhl, hrl]; decide) (by rw [hhl, hrl]; simpa using hlen) hnb
  have hb : (t.m_file.bytes.drop (t.m_headerLength + t.m_recordLength * 0).toNat).take
      t.m_recordLength.toNat = johnDoeRecord := by
    rw [hhl, hrl]
    exact hbytes
  rw [hb] at hrec
  have hval : (record qt (seek t 0).2).1.value 0
      = QVariant.string (qt.toUnicode t.m_textCodec johnDoeName) := by
    rw [hrec]
    simp only [decodeRecord, QDbfRecord.value, QDbfRecord.field, hschema, List.map_cons,
      List.map_nil, List.getD_cons_zero, decodeValue, hft, hfo, hfl]
    rfl
  refine ⟨?_, ?_, hval, ?_⟩
  · rw [hrec]
    simp only [decodeRecord, QDbfRecord.isDeleted]
    decide
  · rw [hrec]
    rfl
  · intro hcodec
    rw [hval, hcodec]
    exact ⟨rfl, by decide⟩

/-- C15 at the table opened from the file with the record `JOHN DOE`: the value
read is `JOHN DOE` followed by twelve blanks. -/
theorem record_keeps_padding_witness :
    («open» samplePlatform (QDbfTablePrivate.init johnDoeFile) OpenMode.ReadOnly true).1 = true ∧
    (record samplePlatform
      (seek («open» samplePlatform (QDbfTablePrivate.init johnDoeFile)
        OpenMode.ReadOnly true).2 0).2).1.value 0
      = QVariant.string johnDoeName :=
  ⟨by decide,
   ((record_keeps_padding samplePlatform
      («open» samplePlatform (QDbfTablePrivate.init johnDoeFile) OpenMode.ReadOnly true).2
      { d := { name := [78, 65, 77, 69], type := QVariantType.String,
               dbfType := QDbfType.Character, length := 20, precision := 0, offset := 1 },
        val := QVariant.invalid }
      (by decide) (by decide) (by decide) (by decide) (by decide) (by decide) (by decide)
      (by decide) (by decide) (by decide) (by decide)).2.2.2 (by decide)).1⟩

/-- C15, counterexample: `open` on the file with version byte 3, header length
65, record length 21 and the 20-byte text field `NAME`, then `seek(0)` and
`record()`: the record is not deleted and its `NAME` value is the 20 characters
`JOHN DOE` followed by twelve blanks, not the 8 characters `JOHN DOE`. -/
theorem john_doe_comes_back_padded :
    («open» samplePlatform (QDbfTablePrivate.init johnDoeFile) OpenMode.ReadOnly true).1 = true ∧
    («open» samplePlatform (QDbfTablePrivate.init johnDoeFile)
      OpenMode.ReadOnly true).2.m_headerLength = 65 ∧
    («open» samplePlatform (QDbfTablePrivate.init johnDoeFile)
      OpenMode.ReadOnly true).2.m_recordLength = 21 ∧
    (record samplePlatform
      (seek («open» samplePlatform (QDbfTablePrivate.init johnDoeFile)
        OpenMode.ReadOnly true).2 0).2).1.isDeleted = false ∧
    (record samplePlatform
      (seek («open» samplePlatform (QDbfTablePrivate.init johnDoeFile)
        OpenMode.ReadOnly true).2 0).2).1.value 0
      = QVariant.string ([74, 79, 72, 78, 32, 68, 79, 69] ++ List.replicate 12 32) ∧
    (record samplePlatform
      (seek («open» samplePlatform (QDbfTablePrivate.init johnDoeFile)
        OpenMode.ReadOnly true).2 0).2).1.value 0
      ≠ QVariant.string [74, 79, 72, 78, 32, 68, 79, 69] := by
  decide

/-! ## The length of an encoded record -/

theorem leftJustified_length (s : QString) (w : Int) (hw : 0 ≤ w) :
    (leftJustified s w).length = w.toNat := by
  unfold leftJustified left
  split_ifs with h1 h2
  · simp only [List.length_append, List.length_replicate]
    omega
  · omega
  · simp only [List.length_take]
    omega

theorem rightJustified_length (s : QString) (w : Int) (hw : 0 ≤ w) :
    (rightJustified s w).length = w.toNat := by
  unfold rightJustified left
  split_ifs with h1 h2
  · simp only [List.length_append, List.length_replicate]
    omega
  · omega
  · simp only [List.length_take]
    omega

/-- With a codec and a Latin-1 conversion that give one byte for each code unit,
the bytes encoded for a field are as many as the field is long, provided a
logical field is one byte long. -/
theorem encodeField_length (qt : Platform) (codec : TextCodec) (f : QDbfField)
    (hcodec : ∀ s, (qt.fromUnicode codec s).length = s.length)
    (hlatin : ∀ s, (qt.toLatin1 s).length = s.length)
    (hlen : 0 ≤ f.d.length) (hlog : f.d.dbfType = QDbfType.Logical → f.d.length = 1) :
    (encodeField qt codec f).length = f.d.length.toNat := by
  unfold encodeField
  split
  · rw [hcodec, leftJustified_length _ _ hlen]
  · rw [hlatin, leftJustified_length _ _ hlen]
  · rw [hlatin, rightJustified_length _ _ hlen]
  · rw [hlatin, rightJustified_length _ _ hlen]
  · rename_i hl
    rw [hlog hl]
    rfl
  · rw [hlatin, leftJustified_length _ _ hlen]

/-- The loop of `recordData` over fields whose schema parts all match: it runs
to the end, and the bytes gathered are as many as the fields are long. -/
theorem encodeFrom_match (qt : Platform) (codec : TextCodec) (r : QDbfRecord)
    (hcodec : ∀ s, (qt.fromUnicode codec s).length = s.length)
    (hlatin : ∀ s, (qt.toLatin1 s).length = s.length) :
    ∀ (own : List QDbfField) (i : Nat) (data : List Nat),
      (∀ j, j < own.length → (own.getD j QDbfField.blank).d = (r.field (i + j)).d) →
      (∀ f ∈ own, 0 ≤ f.d.length ∧ (f.d.dbfType = QDbfType.Logical → f.d.length = 1)) →
      (encodeFrom qt codec r own i data).2 = true ∧
      (encodeFrom qt codec r own i data).1.length
        = data.length + (own.map (fun f => f.d.length.toNat)).sum := by
  intro own
  induction own with
  | nil =>
    intro i data _ _
    simp [encodeFrom]
  | cons o rest ih =>
    intro i data hm hl
    have h0 : o.d = (r.field i).d := by
      have := hm 0 (by simp)
      simpa using this
    have hne : ¬ (o.d ≠ (r.field i).d) := by simp [h0]
    have e : encodeFrom qt codec r (o :: rest) i data
        = encodeFrom qt codec r rest (i + 1) (data ++ encodeField qt codec (r.field i)) := by
      simp only [encodeFrom, if_neg hne]
    have ho := hl o (by simp)
    have hfl : (encodeField qt codec (r.field i)).length = o.d.length.toNat := by
      rw [encodeField_length qt codec _ hcodec hlatin (by rw [← h0]; exact ho.1)
        (by rw [← h0]; exact ho.2), h0]
    have := ih (i + 1) (data ++ encodeField qt codec (r.field i))
      (fun j hj => by
        have := hm (j + 1) (by simp; omega)
        simpa [Nat.add_assoc, Nat.add_comm 1 j] using this)
      (fun f hf => hl f (by simp [hf]))
    rw [e]
    refine ⟨this.1, ?_⟩
    rw [this.2]
    simp only [List.length_append, hfl, List.map_cons, List.sum_cons]
    omega

theorem sum_lengths_toNat (l : List QDbfField) (h : ∀ f ∈ l, 0 ≤ f.d.length) :
    (((l.map (fun f => f.d.length.toNat)).sum : Nat) : Int)
      = (l.map (fun f => f.d.length)).sum := by
  induction l with
  | nil => simp
  | cons o rest ih =>
    have h0 := h o (by simp)
    have := ih (fun f hf => h f (by simp [hf]))
    simp only [List.map_cons, List.sum_cons]
    rw [Nat.cast_add, this, Int.toNat_of_nonneg h0]

theorem QFile.write_all (f : QFile) (data : List Nat) (hw : f.isWritable = true)
    (hcap : f.pos + data.length ≤ f.capacity) :
    f.write data
      = ((data.length : Int),
         { f with bytes := QFile.splice f.bytes f.pos data, pos := f.pos + data.length }) := by
  unfold QFile.write
  have hmin : min data.length (f.capacity - f.pos) = data.length := by omega
  simp only [hw, Bool.not_true, Bool.false_eq_true, if_false, hmin, List.take_length]
  by_cases hd : data = []
  · subst hd
    simp
  · have : ¬ (data.length = 0 ∧ data ≠ []) := by
      intro hc
      exact hd (List.length_eq_zero.mp hc.1)
    rw [if_neg this]

/-- The bytes that `recordData` yields, without the end-of-file mark, for a record
whose fields have the schema parts of the table's fields: no error is raised
and the bytes are one more than the fields are long. -/
theorem recordData_match (qt : Platform) (t : QDbfTablePrivate) (r : QDbfRecord)
    (hcodec : ∀ s, (qt.fromUnicode t.m_textCodec s).length = s.length)
    (hlatin : ∀ s, (qt.toLatin1 s).length = s.length)
    (hfields : ∀ f ∈ t.m_record.fields,
      0 ≤ f.d.length ∧ (f.d.dbfType = QDbfType.Logical → f.d.length = 1))
    (hschema : ∀ k, k < t.m_record.count → (t.m_record.field k).d = (r.field k).d) :
    (recordData qt t r false).2 = t ∧
    (recordData qt t r false).1
      = (encodeFrom qt t.m_textCodec r t.m_record.fields 0
          [if r.isDeleted then 42 else 32]).1 ∧
    (((recordData qt t r false).1.length : Nat) : Int)
      = 1 + (t.m_record.fields.map (fun f => f.d.length)).sum := by
  have henc := encodeFrom_match qt t.m_textCodec r hcodec hlatin t.m_record.fields 0
    [if r.isDeleted then 42 else 32]
    (fun j hj => by simpa [QDbfRecord.field, QDbfRecord.count] using hschema j hj) hfields
  have hrd : recordData qt t r false
      = ((encodeFrom qt t.m_textCodec r t.m_record.fields 0
          [if r.isDeleted then 42 else 32]).1, t) := by
    simp [recordData, henc.1]
  rw [hrd]
  refine ⟨rfl, rfl, ?_⟩
  simp only [henc.2, List.length_singleton]
  rw [Nat.cast_add, sum_lengths_toNat _ (fun f hf => (hfields f hf).1)]
  rfl

/-- C13 (amended): on an open writable table whose `recordLength` is one more
than the sum of the field lengths, where every logical field is one byte long
and the codec and the Latin-1 conversion give one byte for each code unit, for
every record with the table's schema whose `recordIndex` is not negative, the
offset of that record lying inside the store (as it does for an index in
`[0, recordsCount-1]` of a complete file) and the device taking `recordLength`
bytes there: `updateRecordInTable` succeeds,
the encoded record is exactly `recordLength` bytes long, the store holds these
bytes at `headerLength + recordLength*i` and is unchanged at every offset
outside `[headerLength + recordLength*i, headerLength + recordLength*(i+1))`,
and `recordsCount` is unchanged. -/
theorem update_overwrites_record (qt : Platform) (t : QDbfTablePrivate) (r : QDbfRecord)
    (ho : t.m_file.opened = true) (hmode : t.m_file.mode = OpenMode.ReadWrite)
    (hcodec : ∀ s, (qt.fromUnicode t.m_textCodec s).length = s.length)
    (hlatin : ∀ s, (qt.toLatin1 s).length = s.length)
    (hfields : ∀ f ∈ t.m_record.fields,
      0 ≤ f.d.length ∧ (f.d.dbfType = QDbfType.Logical → f.d.length = 1))
    (hschema : ∀ k, k < t.m_record.count → (t.m_record.field k).d = (r.field k).d)
    (hrl : t.m_recordLength = 1 + (t.m_record.fields.map (fun f => f.d.length)).sum)
    (hi0 : 0 ≤ r.recordIndex)
    (hhl : 0 ≤ t.m_headerLength)
    (hpos : t.m_headerLength + t.m_recordLength * r.recordIndex ≤ 2147483647)
    (hpresent : (t.m_headerLength + t.m_recordLength * r.recordIndex).toNat
      ≤ t.m_file.bytes.length)
    (hcap : (t.m_headerLength + t.m_recordLength * r.recordIndex).toNat
      + t.m_recordLength.toNat ≤ t.m_file.capacity) :
    (updateRecordInTable qt t r).1 = true ∧
    (((recordData qt t r false).1.length : Nat) : Int) = t.m_recordLength ∧
    (∀ k : Nat, k < t.m_recordLength.toNat →
      (updateRecordInTable qt t r).2.m_file.bytes[
          (t.m_headerLength + t.m_recordLength * r.recordIndex).toNat + k]?
        = (recordData qt t r false).1[k]?) ∧
    (∀ k : Nat, (k < (t.m_headerLength + t.m_recordLength * r.recordIndex).toNat ∨
        (t.m_headerLength + t.m_recordLength * r.recordIndex).toNat + t.m_recordLength.toNat
          ≤ k) →
      (updateRecordInTable qt t r).2.m_file.bytes[k]? = t.m_file.bytes[k]?) ∧
    (updateRecordInTable qt t r).2.m_recordsCount = t.m_recordsCount ∧
    (updateRecordInTable qt t r).2.m_error = DbfTableError.NoError := by
  obtain ⟨hrd2, _, hlen⟩ := recordData_match qt t r hcodec hlatin hfields hschema
  rw [← hrl] at hlen
  have hrl0 : 0 ≤ t.m_recordLength := by omega
  have hprod : 0 ≤ t.m_recordLength * r.recordIndex := mul_nonneg hrl0 hi0
  have e1 : toInt32 (t.m_recordLength * r.recordIndex) = t.m_recordLength * r.recordIndex :=
    toInt32_of_isInt32 ⟨by omega, by omega⟩
  have e2 : toInt32 (t.m_headerLength + t.m_recordLength * r.recordIndex)
      = t.m_headerLength + t.m_recordLength * r.recordIndex :=
    toInt32_of_isInt32 ⟨by omega, by omega⟩
  have hw : t.m_file.isWritable = true := by simp [QFile.isWritable, ho, hmode]
  have hopen : isOpen t = true := by simp [isOpen, QFile.isOpen, ho]
  have hdl : (recordData qt t r false).1.length = t.m_recordLength.toNat := by omega
  have hwr := QFile.write_all
    { t.m_file with pos := (t.m_headerLength + t.m_recordLength * r.recordIndex).toNat }
    (recordData qt t r false).1 (by simp [QFile.isWritable, ho, hmode])
    (by simp only [hdl]; exact hcap)
  have hupd : updateRecordInTable qt t r
      = (true, { t with
          m_file :=
            { t.m_file with
              bytes := QFile.splice t.m_file.bytes
                (t.m_headerLength + t.m_recordLength * r.recordIndex).toNat
                (recordData qt t r false).1,
              pos := (t.m_headerLength + t.m_recordLength * r.recordIndex).toNat
                + (recordData qt t r false).1.length },
          m_error := DbfTableError.NoError }) := by
    simp only [updateRecordInTable, hopen, hw, hrd2, e1, e2,
      QFile.seek_of_nonneg _ _ ho (by omega : (0 : Int) ≤ t.m_headerLength
        + t.m_recordLength * r.recordIndex), hwr, hlen]
    simp
  rw [hupd]
  refine ⟨rfl, hlen, ?_, ?_, rfl, rfl⟩
  · intro k hk
    exact QFile.splice_getElem?_mid _ _ _ k (by omega)
  · intro k hk
    rcases hk with hk | hk
    · exact QFile.splice_getElem?_lt _ _ _ k hk (by omega)
    · exact QFile.splice_getElem?_ge _ _ _ k (by omega)

/-- C13 at the sample table: updating record 0 with `NAME = "XYZ"` succeeds and
leaves `recordsCount` at 2. -/
theorem update_overwrites_record_witness :
    (updateRecordInTable samplePlatform sampleTable xyzRecord).1 = true ∧
    (updateRecordInTable samplePlatform sampleTable xyzRecord).2.m_recordsCount = 2 :=
  ⟨(update_overwrites_record samplePlatform sampleTable xyzRecord (by decide) (by decide)
      (fun _ => rfl) (fun _ => rfl) (by decide) (by decide) (by decide) (by decide) (by decide)
      (by decide) (by decide) (by decide)).1,
   by decide⟩

/-- C13, counterexample: the table opened from a file with record length 3 and
one logical field declared 2 bytes long has `recordLength == 1 + 2`; the record
read at index 0 has the table's schema and `recordIndex` 0. Its encoding is 2
bytes long, not 3, and `updateRecordInTable` reports failure with `WriteError`,
after the 2 bytes were stored. -/
theorem update_fails_on_two_byte_logical :
    flagTable.m_recordLength = 3 ∧
    flagTable.m_record.fields.map (fun f => f.d.length) = [2] ∧
    flagRecord.recordIndex = 0 ∧
    flagRecord.fields.map (fun f => f.d) = flagTable.m_record.fields.map (fun f => f.d) ∧
    (recordData samplePlatform flagTable flagRecord false).1 = [32, 70] ∧
    (updateRecordInTable samplePlatform flagTable flagRecord).1 = false ∧
    (updateRecordInTable samplePlatform flagTable flagRecord).2.m_error
      = DbfTableError.WriteError ∧
    (flagTable.m_file.bytes.drop 65).take 3 = [32, 84, 32] ∧
    ((updateRecordInTable samplePlatform flagTable flagRecord).2.m_file.bytes.drop 65).take 3
      = [32, 70, 32] := by
  decide

/-! ## Decoding what was encoded -/

theorem mid_eq_drop_take (data : List Nat) (off len : Int) (h0 : 0 ≤ off) (hl : 0 ≤ len)
    (h : off + len ≤ data.length) :
    mid data off len = (data.drop off.toNat).take len.toNat := by
  unfold mid
  by_cases hge : off ≥ data.length
  · have hz : len.toNat = 0 := by omega
    simp [hge, hz]
  · have h1 : ¬ (len < 0) := by omega
    have h2 : ¬ (off < 0) := by omega
    have h3 : ¬ (len + off > data.length) := by omega
    simp only [if_neg hge, if_neg h1, if_neg h2, if_neg h3]

/-- The loop of `recordData` over fields whose schema parts all match lays the
bytes of field `j` right after the bytes of the fields before it. -/
theorem encodeFrom_slice (qt : Platform) (codec : TextCodec) (r : QDbfRecord)
    (hcodec : ∀ s, (qt.fromUnicode codec s).length = s.length)
    (hlatin : ∀ s, (qt.toLatin1 s).length = s.length) :
    ∀ (own : List QDbfField) (i : Nat) (data : List Nat),
      (∀ j, j < own.length → (own.getD j QDbfField.blank).d = (r.field (i + j)).d) →
      (∀ f ∈ own, 0 ≤ f.d.length ∧ (f.d.dbfType = QDbfType.Logical → f.d.length = 1)) →
      ∀ j, j < own.length →
        ((encodeFrom qt codec r own i data).1.drop
            (data.length + ((own.take j).map (fun f => f.d.length.toNat)).sum)).take
          (own.getD j QDbfField.blank).d.length.toNat
          = encodeField qt codec (r.field (i + j)) := by
  intro own
  induction own with
  | nil =>
    intro i data _ _ j hj
    simp at hj
  | cons o rest ih =>
    intro i data hm hl j hj
    have h0 : o.d = (r.field i).d := by
      have := hm 0 (by simp)
      simpa using this
    have hne : ¬ (o.d ≠ (r.field i).d) := by simp [h0]
    have e : encodeFrom qt codec r (o :: rest) i data
        = encodeFrom qt codec r rest (i + 1) (data ++ encodeField qt codec (r.field i)) := by
      simp only [encodeFrom, if_neg hne]
    have ho := hl o (by simp)
    have hfl : (encodeField qt codec (r.field i)).length = o.d.length.toNat := by
      rw [encodeField_length qt codec _ hcodec hlatin (by rw [← h0]; exact ho.1)
        (by rw [← h0]; exact ho.2), h0]
    rw [e]
    cases j with
    | zero =>
      obtain ⟨tail, ht⟩ := encodeFrom_prefix qt codec r rest (i + 1)
        (data ++ encodeField qt codec (r.field i))
      rw [ht]
      simp only [List.take_zero, List.map_nil, List.sum_nil, Nat.add_zero,
        List.getD_cons_zero, List.append_assoc, List.drop_left, ← hfl, List.take_left]
    | succ j =>
      have := ih (i + 1) (data ++ encodeField qt codec (r.field i))
        (fun j hj => by
          have := hm (j + 1) (by simp; omega)
          simpa [Nat.add_assoc, Nat.add_comm 1 j] using this)
        (fun f hf => hl f (by simp [hf])) j (by simpa using hj)
      simp only [List.length_append, hfl] at this
      simp only [List.take_succ_cons, List.map_cons, List.sum_cons, List.getD_cons_succ]
      rw [← Nat.add_assoc, show i + (j + 1) = i + 1 + j by omega]
      exact this

theorem decodeRecord_value (qt : Platform) (codec : TextCodec) (template : QDbfRecord)
    (index : Int) (bytes : List Nat) (k : Nat) (hk : k < template.count) :
    (decodeRecord qt codec template index bytes).value k
      = decodeValue qt codec bytes (template.field k) := by
  have hk2 : k < template.fields.length := hk
  simp [decodeRecord, QDbfRecord.value, QDbfRecord.field, List.getD_eq_getElem?_getD,
    List.getElem?_map, List.getElem?_eq_getElem hk2]

/-- The slice that `record()` cuts out for field `k` of the bytes encoded by
`recordData` is the encoding of field `k` of the record, when the offsets of the
schema are the running sums of the field lengths. -/
theorem mid_recordData (qt : Platform) (t : QDbfTablePrivate) (r : QDbfRecord)
    (hcodec : ∀ s, (qt.fromUnicode t.m_textCodec s).length = s.length)
    (hlatin : ∀ s, (qt.toLatin1 s).length = s.length)
    (hfields : ∀ f ∈ t.m_record.fields,
      0 ≤ f.d.length ∧ (f.d.dbfType = QDbfType.Logical → f.d.length = 1))
    (hschema : ∀ k, k < t.m_record.count → (t.m_record.field k).d = (r.field k).d)
    (hoff : ∀ k, k < t.m_record.count →
      (t.m_record.field k).d.offset
        = 1 + ((t.m_record.fields.take k).map (fun f => f.d.length)).sum)
    (k : Nat) (hk : k < t.m_record.count) :
    mid (recordData qt t r false).1 (t.m_record.field k).d.offset (t.m_record.field k).d.length
      = encodeField qt t.m_textCodec (r.field k) := by
  obtain ⟨_, hdata, _⟩ := recordData_match qt t r hcodec hlatin hfields hschema
  have hk2 : k < t.m_record.fields.length := hk
  have hmem : t.m_record.field k ∈ t.m_record.fields := by
    simp only [QDbfRecord.field, List.getD_eq_getElem?_getD, List.getElem?_eq_getElem hk2,
      Option.getD_some]
    exact List.getElem_mem _
  have hlen0 := (hfields _ hmem).1
  have hslice := encodeFrom_slice qt t.m_textCodec r hcodec hlatin t.m_record.fields 0
    [if r.isDeleted then 42 else 32]
    (fun j hj => by simpa [QDbfRecord.field, QDbfRecord.count] using hschema j hj) hfields k hk2
  rw [← hdata] at hslice
  simp only [List.length_singleton, Nat.zero_add] at hslice
  have hsum := sum_lengths_toNat (t.m_record.fields.take k)
    (fun f hf => (hfields f (List.mem_of_mem_take hf)).1)
  have hoffk := hoff k hk
  rw [← hsum] at hoffk
  have hoffN : (t.m_record.field k).d.offset.toNat
      = 1 + ((t.m_record.fields.take k).map (fun f => f.d.length.toNat)).sum := by
    rw [hoffk]
    omega
  have hel : (encodeField qt t.m_textCodec (r.field k)).length
      = (t.m_record.field k).d.length.toNat := by
    rw [encodeField_length qt _ _ hcodec hlatin (by rw [← hschema k hk]; exact hlen0)
      (by rw [← hschema k hk]; exact (hfields _ hmem).2), hschema k hk]
  have hfit : 1 + ((t.m_record.fields.take k).map (fun f => f.d.length.toNat)).sum
      + (t.m_record.field k).d.length.toNat ≤ (recordData qt t r false).1.length := by
    have := congrArg List.length hslice
    rw [hel] at this
    simp only [List.length_take, List.length_drop, QDbfRecord.field] at this ⊢
    by_cases hz : (t.m_record.fields.getD k QDbfField.blank).d.length.toNat = 0
    · rw [hz]
      have hl := recordData_match qt t r hcodec hlatin hfields hschema
      have hall := sum_lengths_toNat t.m_record.fields (fun f hf => (hfields f hf).1)
      have htk : ((t.m_record.fields.take k).map (fun f => f.d.length.toNat)).sum
          ≤ (t.m_record.fields.map (fun f => f.d.length.toNat)).sum := by
        have := List.Sublist.sum_le_sum
          (List.Sublist.map (fun f : QDbfField => f.d.length.toNat)
            (List.take_sublist k t.m_record.fields)) (fun _ _ => Nat.zero_le _)
        exact this
      have h3 := hl.2.2
      rw [← hall] at h3
      omega
    · omega
  rw [mid_eq_drop_take _ _ _ (by omega) hlen0 (by omega), hoffN]
  exact hslice

/-- C14 (amended): on a table whose field offsets are the running sums of the
field lengths, where every logical field is one byte long and the codec and
the Latin-1 conversion give one byte for each code unit, decoding the bytes
that `recordData` encodes for a record with the table's schema yields the
deletion flag of the record and, in field `k`, the value decoded from the
encoding of that field: for a text field the text padded with blanks or cut to
the field length and taken through the codec and back, which is the text itself
when it fills the field and the codec restores it; for a logical field the
truth value of the value; for a date field the date that the platform reads
from the formatted date; for a numeric field the number that the platform
reads from the formatted number. -/
theorem decode_recordData (qt : Platform) (t : QDbfTablePrivate) (r : QDbfRecord) (index : Int)
    (hcodec : ∀ s, (qt.fromUnicode t.m_textCodec s).length = s.length)
    (hlatin : ∀ s, (qt.toLatin1 s).length = s.length)
    (hfields : ∀ f ∈ t.m_record.fields,
      0 ≤ f.d.length ∧ (f.d.dbfType = QDbfType.Logical → f.d.length = 1))
    (hschema : ∀ k, k < t.m_record.count → (t.m_record.field k).d = (r.field k).d)
    (hoff : ∀ k, k < t.m_record.count →
      (t.m_record.field k).d.offset
        = 1 + ((t.m_record.fields.take k).map (fun f => f.d.length)).sum)
    (k : Nat) (hk : k < t.m_record.count) :
    (decodeRecord qt t.m_textCodec t.m_record index (recordData qt t r false).1).isDeleted
      = r.isDeleted ∧
    ((r.field k).d.type = QVariantType.String → (r.field k).d.dbfType = QDbfType.Character →
      (decodeRecord qt t.m_textCodec t.m_record index (recordData qt t r false).1).value k
        = QVariant.string (qt.toUnicode t.m_textCodec (qt.fromUnicode t.m_textCodec
            (leftJustified (qt.variantToString (r.value k)) (r.field k).d.length))) ∧
      (((qt.variantToString (r.value k)).length : Int) = (r.field k).d.length →
        qt.toUnicode t.m_textCodec (qt.fromUnicode t.m_textCodec (qt.variantToString (r.value k)))
          = qt.variantToString (r.value k) →
        (decodeRecord qt t.m_textCodec t.m_record index (recordData qt t r false).1).value k
          = QVariant.string (qt.variantToString (r.value k)))) ∧
    ((r.field k).d.type = QVariantType.Bool → (r.field k).d.dbfType = QDbfType.Logical →
      (decodeRecord qt t.m_textCodec t.m_record index (recordData qt t r false).1).value k
        = QVariant.bool (qt.variantToBool (r.value k))) ∧
    ((r.field k).d.type = QVariantType.Date → (r.field k).d.dbfType = QDbfType.Date →
      (decodeRecord qt t.m_textCodec t.m_record index (recordData qt t r false).1).value k
        = QVariant.date (mkDate qt
            (qt.toInt (mid (qt.toLatin1 (leftJustified
              (qt.dateToString (qt.variantToDate (r.value k))) (r.field k).d.length)) 0 4))
            (qt.toInt (mid (qt.toLatin1 (leftJustified
              (qt.dateToString (qt.variantToDate (r.value k))) (r.field k).d.length)) 4 2))
            (qt.toInt (mid (qt.toLatin1 (leftJustified
              (qt.dateToString (qt.variantToDate (r.value k))) (r.field k).d.length)) 6 2)))) ∧
    ((r.field k).d.type = QVariantType.Double →
      ((r.field k).d.dbfType = QDbfType.Number ∨
        (r.field k).d.dbfType = QDbfType.FloatingPoint) →
      (decodeRecord qt t.m_textCodec t.m_record index (recordData qt t r false).1).value k
        = QVariant.double (qt.toDouble (qt.toLatin1 (rightJustified
            (qt.formatDouble (qt.variantToDouble (r.value k)) (r.field k).d.precision)
            (r.field k).d.length)))) := by
  have hval := decodeRecord_value qt t.m_textCodec t.m_record index
    (recordData qt t r false).1 k hk
  have hmid := mid_recordData qt t r hcodec hlatin hfields hschema hoff k hk
  have hd := hschema k hk
  rw [hd] at hmid
  have hv : (r.field k).val = r.value k := rfl
  refine ⟨?_, ?_, ?_, ?_, ?_⟩
  · show decide ((recordData qt t r false).1[0]? = some 42) = r.isDeleted
    rw [recordData_head]
    cases hdel : r.isDeleted <;> simp
  · intro hty hdbf
    have hread : (decodeRecord qt t.m_textCodec t.m_record index
        (recordData qt t r false).1).value k
        = QVariant.string (qt.toUnicode t.m_textCodec (qt.fromUnicode t.m_textCodec
            (leftJustified (qt.variantToString (r.value k)) (r.field k).d.length))) := by
      rw [hval]
      simp only [decodeValue, hd, hty, hmid]
      simp only [encodeField, hdbf, hv]
    refine ⟨hread, ?_⟩
    intro hfill hround
    rw [hread]
    have hj : leftJustified (qt.variantToString (r.value k)) (r.field k).d.length
        = qt.variantToString (r.value k) := by
      unfold leftJustified left
      have h1 : ¬ ((r.field k).d.length - ((qt.variantToString (r.value k)).length : Int) > 0) := by
        omega
      rw [if_neg h1, if_pos (Or.inl (by omega))]
    rw [hj, hround]
  · intro hty hdbf
    rw [hval]
    simp only [decodeValue, hd, hty, hmid]
    simp only [encodeField, hdbf, hv]
    cases qt.variantToBool (r.value k) <;> decide
  · intro hty hdbf
    rw [hval]
    simp only [decodeValue, hd, hty, hmid]
    simp only [encodeField, hdbf, hv]
  · intro hty hdbf
    rw [hval]
    simp only [decodeValue, hd, hty, hmid]
    rcases hdbf with hdbf | hdbf <;> simp only [encodeField, hdbf, hv]

/-- C14 at the sample table: `NAME = "XYZ"` fills its field of 3 bytes and comes
back as `XYZ`. -/
theorem decode_recordData_witness :
    (decodeRecord samplePlatform sampleTable.m_textCodec sampleTable.m_record 0
      (recordData samplePlatform sampleTable xyzRecord false).1).value 0
      = QVariant.string [88, 89, 90] :=
  ((decode_recordData samplePlatform sampleTable xyzRecord 0 (fun _ => rfl) (fun _ => rfl)
      (by decide) (by decide) (by decide) 0 (by decide)).2.1 (by decide) (by decide)).2
    (by decide) (by decide)

/-- C14, counterexample: on the sample table the text `GH` fits the field `NAME`
of 3 bytes; the record is encoded as ` GH ` and decoding these bytes yields the
text `GH` followed by a blank, which is not the value of the record. The same
value is read after `updateRecordInTable` has stored the record at row 0. -/
theorem text_comes_back_padded :
    ghRecord.value 0 = QVariant.string [71, 72] ∧
    ((2 : Int) ≤ (ghRecord.field 0).d.length) ∧
    (recordData samplePlatform sampleTable ghRecord false).1 = [32, 71, 72, 32] ∧
    (decodeRecord samplePlatform sampleTable.m_textCodec sampleTable.m_record 0
      (recordData samplePlatform sampleTable ghRecord false).1).value 0
      = QVariant.string [71, 72, 32] ∧
    (decodeRecord samplePlatform sampleTable.m_textCodec sampleTable.m_record 0
      (recordData samplePlatform sampleTable ghRecord false).1).value 0
      ≠ ghRecord.value 0 ∧
    (updateRecordInTable samplePlatform sampleTable ghRecord).1 = true ∧
    (record samplePlatform
      (seek (updateRecordInTable samplePlatform sampleTable ghRecord).2 0).2).1.value 0
      = QVariant.string [71, 72, 32] := by
  decide

end QDbf
